import Mathlib

/-!
# Verification of the `c_float` vector library against its specification

Shallow embedding of `src/c_float/c_float.c`.  C `float` values are modelled
exactly as NaN, the two infinities and finite values (exact rationals; the
two signed zeros are collapsed to `fin 0`, which is faithful for every
comparison the source performs since IEEE-754 compares `-0 == +0`).
`size_t` arithmetic is modelled as natural numbers reduced mod `2^64`
exactly where the C source computes in `size_t`.  `malloc`/`realloc`
success is an explicit boolean parameter of each fallible operation.
`errno` is modelled as the error value a call sets (`none` = untouched).
-/

/-- Model of a C `float` value: NaN, the two infinities, or a finite value
(modelled as an exact rational; signed zeros are collapsed). -/
inductive CFloat where
  | nan : CFloat
  | ninf : CFloat
  | pinf : CFloat
  | fin : ℚ → CFloat
deriving DecidableEq, Repr

/-- `isnan` from `math.h`. -/
def isNan : CFloat → Bool
  | .nan => true
  | _ => false

/-- IEEE-754 `<` on floats: false whenever either operand is NaN. -/
def flt : CFloat → CFloat → Bool
  | .nan, _ => false
  | _, .nan => false
  | .ninf, .ninf => false
  | .ninf, _ => true
  | _, .ninf => false
  | .pinf, _ => false
  | .fin _, .pinf => true
  | .fin q, .fin r => decide (q < r)

/-- IEEE-754 `<=` on floats: false whenever either operand is NaN;
on non-NaN values it is `<` or equality (signed zeros compare equal,
which the collapsed representation realises as actual equality). -/
def fle (a b : CFloat) : Bool :=
  !isNan a && !isNan b && (flt a b || a == b)

/-- IEEE-754 subtraction (exact: the model does not round). -/
def fsub : CFloat → CFloat → CFloat
  | .nan, _ => .nan
  | _, .nan => .nan
  | .pinf, .pinf => .nan
  | .pinf, _ => .pinf
  | .ninf, .ninf => .nan
  | .ninf, _ => .ninf
  | .fin _, .ninf => .pinf
  | .fin _, .pinf => .ninf
  | .fin q, .fin r => .fin (q - r)

/-- `fabs` from `math.h`. -/
def fabs : CFloat → CFloat
  | .nan => .nan
  | .ninf => .pinf
  | .pinf => .pinf
  | .fin q => .fin |q|

/-- `FLT_MAX` from `float.h`: `(2 - 2^-23) * 2^127`. -/
def FLT_MAX : CFloat := .fin ((2 ^ 24 - 1) * 2 ^ 104)

-- Basic order facts about the modelled float comparisons.

theorem flt_irrefl (a : CFloat) : flt a a = false := by
  cases a <;> simp [flt]

theorem flt_isNan_left {a b : CFloat} (h : flt a b = true) : isNan a = false := by
  cases a <;> cases b <;> simp_all [flt, isNan]

theorem flt_isNan_right {a b : CFloat} (h : flt a b = true) : isNan b = false := by
  cases a <;> cases b <;> simp_all [flt, isNan]

theorem flt_asymm {a b : CFloat} (h : flt a b = true) : flt b a = false := by
  cases a <;> cases b <;> simp_all [flt]
  linarith

theorem flt_trans {a b c : CFloat} (h1 : flt a b = true) (h2 : flt b c = true) :
    flt a c = true := by
  cases a <;> cases b <;> cases c <;> simp_all [flt]
  linarith

/-- Totality of the float order on non-NaN values. -/
theorem flt_total {a b : CFloat} (ha : isNan a = false) (hb : isNan b = false)
    (hab : a ≠ b) : flt a b = true ∨ flt b a = true := by
  cases a <;> cases b <;> simp_all [flt, isNan]

theorem fle_refl {a : CFloat} (ha : isNan a = false) : fle a a = true := by
  cases a <;> simp_all [fle, isNan]

theorem fle_of_flt {a b : CFloat} (h : flt a b = true) : fle a b = true := by
  simp [fle, flt_isNan_left h, flt_isNan_right h, h]

theorem fle_isNan_left {a b : CFloat} (h : fle a b = true) : isNan a = false := by
  simp only [fle, Bool.and_eq_true, Bool.not_eq_true'] at h
  exact h.1.1

theorem fle_isNan_right {a b : CFloat} (h : fle a b = true) : isNan b = false := by
  simp only [fle, Bool.and_eq_true, Bool.not_eq_true'] at h
  exact h.1.2

/-- On non-NaN values, `¬ (a < b)` is exactly `b ≤ a`. -/
theorem fle_of_not_flt {a b : CFloat} (ha : isNan a = false) (hb : isNan b = false)
    (h : flt a b = false) : fle b a = true := by
  by_cases hab : a = b
  · subst hab
    exact fle_refl ha
  · rcases flt_total ha hb hab with h1 | h1
    · rw [h1] at h
      exact absurd h (by simp)
    · exact fle_of_flt h1

theorem not_flt_of_fle {a b : CFloat} (h : fle a b = true) : flt b a = false := by
  simp only [fle, Bool.and_eq_true, Bool.or_eq_true, beq_iff_eq] at h
  rcases h.2 with h1 | h1
  · exact flt_asymm h1
  · subst h1
    exact flt_irrefl a

theorem fle_trans {a b c : CFloat} (h1 : fle a b = true) (h2 : fle b c = true) :
    fle a c = true := by
  simp only [fle, Bool.and_eq_true, Bool.or_eq_true, beq_iff_eq] at h1 h2 ⊢
  refine ⟨⟨h1.1.1, h2.1.2⟩, ?_⟩
  rcases h1.2 with hx | hx <;> rcases h2.2 with hy | hy
  · exact Or.inl (flt_trans hx hy)
  · subst hy
    exact Or.inl hx
  · subst hx
    exact Or.inl hy
  · subst hx
    exact Or.inr hy

theorem fle_antisymm {a b : CFloat} (h1 : fle a b = true) (h2 : fle b a = true) :
    a = b := by
  simp only [fle, Bool.and_eq_true, Bool.or_eq_true, beq_iff_eq] at h1 h2
  rcases h1.2 with hx | hx
  · rcases h2.2 with hy | hy
    · exact absurd (flt_asymm hx) (by simp [hy])
    · exact hy.symm
  · exact hx

theorem flt_of_fle_of_ne {a b : CFloat} (h : fle a b = true) (hne : a ≠ b) :
    flt a b = true := by
  simp only [fle, Bool.and_eq_true, Bool.or_eq_true, beq_iff_eq] at h
  rcases h.2 with h1 | h1
  · exact h1
  · exact absurd h1 hne

-- ================================================================================
-- Data model (`c_float.h`) and `size_t` arithmetic

/-- `iter_dir` from `c_float.h`. -/
inductive iter_dir where
  | FORWARD : iter_dir
  | REVERSE : iter_dir
deriving DecidableEq, Repr

/-- `alloc_t` from `c_float.h`. -/
inductive alloc_t where
  | STATIC : alloc_t
  | DYNAMIC : alloc_t
deriving DecidableEq, Repr

/-- The `float_v` struct.  `data = none` models a NULL data pointer; when
`data = some d`, `d` is the allocated buffer (its length is the element
count the allocation provides, normally equal to `alloc`). -/
structure float_v where
  data : Option (List CFloat)
  len : Nat
  alloc : Nat
  alloc_type : alloc_t
deriving DecidableEq, Repr

/-- `errno` values the library sets. -/
inductive ErrNo where
  | EINVAL : ErrNo
  | ERANGE : ErrNo
  | ENODATA : ErrNo
  | ENOMEM : ErrNo
deriving DecidableEq, Repr

/-- Result of a call: the (possibly NULL) vector afterwards, the C return
value, and the `errno` value the call set (`none` = errno untouched). -/
structure VRes (α : Type) where
  st : Option float_v
  ret : α
  err : Option ErrNo
deriving DecidableEq, Repr

/-- `size_t` is 64 bits; its arithmetic is mod `U64`. -/
def U64 : Nat := 2 ^ 64

def SIZE_MAX : Nat := 2 ^ 64 - 1

/-- `LONG_MAX` (LP64), the not-found / error sentinel index. -/
def LONG_MAX : Nat := 2 ^ 63 - 1

def VEC_THRESHOLD : Nat := 1 * 1024 * 1024

def VEC_FIXED_AMOUNT : Nat := 1 * 1024 * 1024

/-- Reading `data[i]` (in-bounds in every defined execution; out-of-bounds
reads are UB in C and return an arbitrary junk value here). -/
def getN (d : List CFloat) (i : Nat) : CFloat := d.getD i (.fin 0)

/-- The capacity-growth computation that appears verbatim in
`push_back_float_vector`, `push_front_float_vector` and
`insert_float_vector`:
`new_alloc = alloc == 0 ? 1 : alloc;` then double below `VEC_THRESHOLD`,
else add `VEC_FIXED_AMOUNT` (all in `size_t`). -/
def growAlloc (alloc : Nat) : Nat :=
  let base := if alloc = 0 then 1 else alloc
  if base < VEC_THRESHOLD then base * 2 % U64 else (base + VEC_FIXED_AMOUNT) % U64

/-- Effect of `realloc(data, new_alloc * sizeof(float))` followed by the
source's `memset(new_data + alloc, 0, (new_alloc - alloc) * sizeof(float))`:
the surviving prefix is kept and the slots `[alloc, new_alloc)` are
zero-filled.  (When `new_alloc < alloc`, possible only after `size_t`
wrap-around, the C memset length itself wraps — UB; the model keeps the
truncated buffer.) -/
def reallocFloats (d : List CFloat) (alloc new_alloc : Nat) : List CFloat :=
  d.take new_alloc ++ List.replicate (new_alloc - alloc) (.fin 0)

/-- Effect of `memmove(data + index + 1, data + index, (len - index) * sizeof(float))`:
shift the elements `[index, len)` one slot to the right (the slot at `index`
keeps its old value until overwritten). -/
def memmoveShiftR (d : List CFloat) (index len : Nat) : List CFloat :=
  d.take (index + 1) ++ (d.drop index).take (len - index) ++ d.drop (len + 1)

/-- Effect of `memmove(&data[index], &data[index + 1], (len - index - 1) * sizeof(float))`:
shift the elements `(index, len)` one slot to the left (the slot at `len - 1`
keeps its old value until cleared). -/
def memmoveShiftL (d : List CFloat) (index len : Nat) : List CFloat :=
  d.take index ++ (d.drop (index + 1)).take (len - index - 1) ++ d.drop (len - 1)

-- ================================================================================
-- Vector operations (`c_float.c`)

/-- `init_float_vector`.  `structOk`/`dataOk` model the two `malloc` calls. -/
def init_float_vector (buff : Nat) (structOk dataOk : Bool) :
    Option float_v × Option ErrNo :=
  if buff = 0 then (none, some .EINVAL)
  else if !structOk then (none, some .ENOMEM)
  else if !dataOk then (none, some .ENOMEM)
  else (some ⟨some (List.replicate buff (.fin 0)), 0, buff, .DYNAMIC⟩, none)

/-- `push_back_float_vector`.  `allocOk` models the `realloc` call.  Note:
unlike `push_front` and `insert`, the source performs no overflow check on
`new_alloc * sizeof(float)` here. -/
def push_back_float_vector (vec : Option float_v) (value : CFloat)
    (allocOk : Bool) : VRes Bool :=
  match vec with
  | none => ⟨none, false, some .EINVAL⟩
  | some v =>
    match v.data with
    | none => ⟨vec, false, some .EINVAL⟩
    | some d =>
      if v.len ≥ v.alloc then
        if v.alloc_type = .STATIC then ⟨vec, false, some .EINVAL⟩
        else
          let new_alloc := growAlloc v.alloc
          if !allocOk then ⟨vec, false, some .ENOMEM⟩
          else
            let d1 := reallocFloats d v.alloc new_alloc
            ⟨some { v with
                      data := some (d1.set v.len value)
                      alloc := new_alloc
                      len := (v.len + 1) % U64 }, true, none⟩
      else
        ⟨some { v with
                  data := some (d.set v.len value)
                  len := (v.len + 1) % U64 }, true, none⟩

/-- The code of `push_front_float_vector` after its resize block: the
length-overflow check, then the shift and the write at index 0.
`v` is the (possibly already grown) vector. -/
def push_front_write (v : float_v) (value : CFloat) : VRes Bool :=
  if v.len > SIZE_MAX - 1 then ⟨some v, false, some .ERANGE⟩
  else
    let d := v.data.getD []
    let d1 := if v.len > 0 then memmoveShiftR d 0 v.len else d
    ⟨some { v with
              data := some (d1.set 0 value)
              len := (v.len + 1) % U64 }, true, none⟩

/-- `push_front_float_vector`.  Its resize block checks
`new_alloc > SIZE_MAX / sizeof(float)` and fails with `ERANGE`. -/
def push_front_float_vector (vec : Option float_v) (value : CFloat)
    (allocOk : Bool) : VRes Bool :=
  match vec with
  | none => ⟨none, false, some .EINVAL⟩
  | some v =>
    match v.data with
    | none => ⟨vec, false, some .EINVAL⟩
    | some d =>
      if v.len ≥ v.alloc then
        if v.alloc_type = .STATIC then ⟨vec, false, some .EINVAL⟩
        else
          let new_alloc := growAlloc v.alloc
          if new_alloc > SIZE_MAX / 4 then ⟨vec, false, some .ERANGE⟩
          else if !allocOk then ⟨vec, false, some .ENOMEM⟩
          else
            push_front_write
              { v with
                  data := some (reallocFloats d v.alloc new_alloc)
                  alloc := new_alloc } value
      else push_front_write v value

/-- The code of `insert_float_vector` after its resize block: the
conditional shift (with its dead overflow check — at this point
`len - index ≤ len < SIZE_MAX`) and the write at `index`. -/
def insert_write (v : float_v) (value : CFloat) (index : Nat) : VRes Bool :=
  if index < v.len ∧ v.len - index > SIZE_MAX - 1 then ⟨some v, false, some .ERANGE⟩
  else
    let d := v.data.getD []
    let d1 := if index < v.len then memmoveShiftR d index v.len else d
    ⟨some { v with
              data := some (d1.set index value)
              len := (v.len + 1) % U64 }, true, none⟩

/-- `insert_float_vector`. -/
def insert_float_vector (vec : Option float_v) (value : CFloat) (index : Nat)
    (allocOk : Bool) : VRes Bool :=
  match vec with
  | none => ⟨none, false, some .EINVAL⟩
  | some v =>
    match v.data with
    | none => ⟨vec, false, some .EINVAL⟩
    | some d =>
      if index > v.len then ⟨vec, false, some .ERANGE⟩
      else if v.len ≥ SIZE_MAX then ⟨vec, false, some .ERANGE⟩
      else if v.len ≥ v.alloc then
        if v.alloc_type = .STATIC then ⟨vec, false, some .EINVAL⟩
        else
          let new_alloc := growAlloc v.alloc
          if new_alloc > SIZE_MAX / 4 then ⟨vec, false, some .ERANGE⟩
          else if !allocOk then ⟨vec, false, some .ENOMEM⟩
          else
            insert_write
              { v with
                  data := some (reallocFloats d v.alloc new_alloc)
                  alloc := new_alloc } value index
      else insert_write v value index

/-- `pop_back_float_vector`. -/
def pop_back_float_vector (vec : Option float_v) : VRes CFloat :=
  match vec with
  | none => ⟨none, FLT_MAX, some .EINVAL⟩
  | some v =>
    match v.data with
    | none => ⟨vec, FLT_MAX, some .EINVAL⟩
    | some d =>
      if v.len = 0 then ⟨vec, FLT_MAX, some .ENODATA⟩
      else
        ⟨some { v with
                  data := some (d.set (v.len - 1) (.fin 0))
                  len := v.len - 1 }, getN d (v.len - 1), none⟩

/-- `pop_front_float_vector`. -/
def pop_front_float_vector (vec : Option float_v) : VRes CFloat :=
  match vec with
  | none => ⟨none, FLT_MAX, some .EINVAL⟩
  | some v =>
    match v.data with
    | none => ⟨vec, FLT_MAX, some .EINVAL⟩
    | some d =>
      if v.len = 0 then ⟨vec, FLT_MAX, some .ENODATA⟩
      else if v.len > SIZE_MAX / 4 then ⟨vec, FLT_MAX, some .ERANGE⟩
      else
        let d1 := memmoveShiftL d 0 v.len
        ⟨some { v with
                  data := some (d1.set (v.len - 1) (.fin 0))
                  len := v.len - 1 }, getN d 0, none⟩

/-- `pop_any_float_vector`. -/
def pop_any_float_vector (vec : Option float_v) (index : Nat) : VRes CFloat :=
  match vec with
  | none => ⟨none, FLT_MAX, some .EINVAL⟩
  | some v =>
    match v.data with
    | none => ⟨vec, FLT_MAX, some .EINVAL⟩
    | some d =>
      if v.len = 0 then ⟨vec, FLT_MAX, some .ENODATA⟩
      else if index ≥ v.len then ⟨vec, FLT_MAX, some .ERANGE⟩
      else if index < v.len - 1 ∧ v.len - index - 1 > SIZE_MAX / 4 then
        ⟨vec, FLT_MAX, some .ERANGE⟩
      else
        let d1 := if index < v.len - 1 then memmoveShiftL d index v.len else d
        ⟨some { v with
                  data := some (d1.set (v.len - 1) (.fin 0))
                  len := v.len - 1 }, getN d index, none⟩

/-- `float_vector_index`.  The bounds check is `index > vec->len - 1` in
`size_t` arithmetic: for `len = 0` the subtraction wraps to `SIZE_MAX`. -/
def float_vector_index (vec : Option float_v) (index : Nat) :
    CFloat × Option ErrNo :=
  match vec with
  | none => (FLT_MAX, some .EINVAL)
  | some v =>
    match v.data with
    | none => (FLT_MAX, some .EINVAL)
    | some d =>
      if index > (v.len + (U64 - 1)) % U64 then (FLT_MAX, some .ERANGE)
      else (getN d index, none)

/-- `swap_float` applied at two indices of the buffer. -/
def swapN (d : List CFloat) (a b : Nat) : List CFloat :=
  (d.set a (getN d b)).set b (getN d a)

/-- The `while (i < j)` swap loop of `reverse_float_vector`. -/
def reverseLoop (d : List CFloat) (i j : Nat) : List CFloat :=
  if i < j then reverseLoop (swapN d i j) (i + 1) (j - 1) else d
termination_by j - i

/-- `reverse_float_vector`. -/
def reverse_float_vector (vec : Option float_v) :
    Option float_v × Option ErrNo :=
  match vec with
  | none => (none, some .EINVAL)
  | some v =>
    match v.data with
    | none => (vec, some .EINVAL)
    | some d =>
      if v.len = 0 then (vec, some .ENODATA)
      else (some { v with data := some (reverseLoop d 0 (v.len - 1)) }, none)

/-- `update_float_vector`. -/
def update_float_vector (vec : Option float_v) (index : Nat)
    (replacement_value : CFloat) : Option float_v × Option ErrNo :=
  match vec with
  | none => (none, some .EINVAL)
  | some v =>
    match v.data with
    | none => (vec, some .EINVAL)
    | some d =>
      if v.len = 0 then (vec, some .EINVAL)
      else if index > v.len - 1 then (vec, some .ERANGE)
      else (some { v with data := some (d.set index replacement_value) }, none)

/-- The scan loop of `min_float_vector`. -/
def minLoop (d : List CFloat) (acc : CFloat) (i len : Nat) : CFloat :=
  if i < len then
    minLoop d (if flt (getN d i) acc then getN d i else acc) (i + 1) len
  else acc
termination_by len - i

/-- `min_float_vector`. -/
def min_float_vector (vec : Option float_v) : CFloat × Option ErrNo :=
  match vec with
  | none => (FLT_MAX, some .EINVAL)
  | some v =>
    match v.data with
    | none => (FLT_MAX, some .EINVAL)
    | some d =>
      if v.len = 0 then (FLT_MAX, some .EINVAL)
      else if v.len = 1 then (getN d 0, none)
      else (minLoop d (getN d 0) 1 v.len, none)

/-- The scan loop of `max_float_vector`. -/
def maxLoop (d : List CFloat) (acc : CFloat) (i len : Nat) : CFloat :=
  if i < len then
    maxLoop d (if flt acc (getN d i) then getN d i else acc) (i + 1) len
  else acc
termination_by len - i

/-- `max_float_vector`. -/
def max_float_vector (vec : Option float_v) : CFloat × Option ErrNo :=
  match vec with
  | none => (FLT_MAX, some .EINVAL)
  | some v =>
    match v.data with
    | none => (FLT_MAX, some .EINVAL)
    | some d =>
      if v.len = 0 then (FLT_MAX, some .EINVAL)
      else if v.len = 1 then (getN d 0, none)
      else (maxLoop d (getN d 0) 1 v.len, none)

/-- `trim_float_vector`.  `allocOk` models the shrinking `realloc`. -/
def trim_float_vector (vec : Option float_v) (allocOk : Bool) :
    Option float_v × Option ErrNo :=
  match vec with
  | none => (none, some .EINVAL)
  | some v =>
    match v.data with
    | none => (vec, some .EINVAL)
    | some d =>
      if v.alloc_type = .STATIC ∨ v.len = v.alloc then (vec, none)
      else if v.len = 0 then (vec, some .ENODATA)
      else if v.len > SIZE_MAX / 4 then (vec, some .ERANGE)
      else if !allocOk then (vec, some .ENOMEM)
      else (some { v with
                     data := some (d.take v.len)
                     alloc := v.len }, none)

-- ================================================================================
-- QUICKSORT (`c_float.c`, lines 375-473).  The C routines index the buffer
-- with `int`; indices are modelled as `Int`.

/-- `data[i]` with a C `int` index (always `0 ≤ i` in defined executions). -/
def getI (d : List CFloat) (i : Int) : CFloat := getN d i.toNat

/-- `data[i] = x` with a C `int` index. -/
def setI (d : List CFloat) (i : Int) (x : CFloat) : List CFloat := d.set i.toNat x

/-- `swap_float(&data[a], &data[b])`. -/
def swapI (d : List CFloat) (a b : Int) : List CFloat := swapN d a.toNat b.toNat

/-- The comparison
`(direction == FORWARD && x < y) || (direction == REVERSE && x > y)`
used (with this operand pattern) by every comparison in the sort routines. -/
def cmpLt (dir : iter_dir) (a b : CFloat) : Bool :=
  match dir with
  | .FORWARD => flt a b
  | .REVERSE => flt b a

/-- `_median_of_three`, returning the chosen index (the C version returns
the pointer `&vec[result]`). -/
def _median_of_three (d : List CFloat) (ia ib ic : Int) (dir : iter_dir) : Int :=
  if cmpLt dir (getI d ia) (getI d ib) then
    if cmpLt dir (getI d ib) (getI d ic) then ib
    else if cmpLt dir (getI d ia) (getI d ic) then ic
    else ia
  else if cmpLt dir (getI d ia) (getI d ic) then ia
  else if cmpLt dir (getI d ib) (getI d ic) then ic
  else ib

/-- The inner `while` loop of `_insertion_sort`: shifts elements greater
than `key` (less than, for REVERSE) one slot right; returns the final
buffer and `j`. -/
def _insertion_inner (d : List CFloat) (low : Int) (key : CFloat) (j : Int)
    (dir : iter_dir) : List CFloat × Int :=
  if h : low ≤ j ∧ cmpLt dir key (getI d j) = true then
    _insertion_inner (setI d (j + 1) (getI d j)) low key (j - 1) dir
  else (d, j)
termination_by (j + 1 - low).toNat
decreasing_by
  simp_wf
  omega

/-- The outer `for` loop of `_insertion_sort`, from `i` to `high`. -/
def _insertion_outer (d : List CFloat) (low high i : Int) (dir : iter_dir) :
    List CFloat :=
  if h : i ≤ high then
    let key := getI d i
    let p := _insertion_inner d low key (i - 1) dir
    _insertion_outer (setI p.1 (p.2 + 1) key) low high (i + 1) dir
  else d
termination_by (high + 1 - i).toNat
decreasing_by
  simp_wf
  omega

/-- `_insertion_sort`. -/
def _insertion_sort (d : List CFloat) (low high : Int) (dir : iter_dir) :
    List CFloat :=
  _insertion_outer d low high (low + 1) dir

/-- The partition `for` loop of `_partition_float`: `j` scans `[low, high-1]`,
`i` is the end of the `cmpLt`-than-pivot region. -/
def _partition_loop (d : List CFloat) (pivot : CFloat) (i j high : Int)
    (dir : iter_dir) : List CFloat × Int :=
  if h : j ≤ high - 1 then
    if cmpLt dir (getI d j) pivot then
      _partition_loop (swapI d (i + 1) j) pivot (i + 1) (j + 1) high dir
    else _partition_loop d pivot i (j + 1) high dir
  else (d, i)
termination_by (high - j).toNat
decreasing_by
  all_goals simp_wf
  all_goals omega

/-- `_partition_float`, returning the partitioned buffer and the pivot
index `i + 1`. -/
def _partition_float (d : List CFloat) (low high : Int) (dir : iter_dir) :
    List CFloat × Int :=
  let mid := low + (high - low) / 2
  let p := _median_of_three d low mid high dir
  let d1 := if p ≠ high then swapI d p high else d
  let pivot := getI d1 high
  let q := _partition_loop d1 pivot (low - 1) low high dir
  (swapI q.1 (q.2 + 1) high, q.2 + 1)

theorem _partition_loop_i_bound (d : List CFloat) (pivot : CFloat)
    (i j high : Int) (dir : iter_dir) (hij : i < j) :
    i ≤ (_partition_loop d pivot i j high dir).2 ∧
      (_partition_loop d pivot i j high dir).2 < max j high := by
  rw [_partition_loop]
  split
  · rename_i h
    split
    · have ih := _partition_loop_i_bound (swapI d (i + 1) j) pivot (i + 1)
        (j + 1) high dir (by omega)
      omega
    · have ih := _partition_loop_i_bound d pivot i (j + 1) high dir (by omega)
      omega
  · simp only
    omega
termination_by (high - j).toNat
decreasing_by
  all_goals simp_wf
  all_goals omega

theorem _partition_float_pi_bound (d : List CFloat) (low high : Int)
    (dir : iter_dir) (hlh : low < high) :
    low ≤ (_partition_float d low high dir).2 ∧
      (_partition_float d low high dir).2 ≤ high := by
  have h := _partition_loop_i_bound
    (if _median_of_three d low (low + (high - low) / 2) high dir ≠ high then
        swapI d (_median_of_three d low (low + (high - low) / 2) high dir) high
      else d)
    (getI (if _median_of_three d low (low + (high - low) / 2) high dir ≠ high then
        swapI d (_median_of_three d low (low + (high - low) / 2) high dir) high
      else d) high)
    (low - 1) low high dir (by omega)
  simp only [_partition_float]
  omega

/-- `_quicksort_float` (the `while` loop with tail-recursion elimination is
re-rolled into two recursive calls; the source's loop iterates on the larger
side, which is exactly a tail call on that side). -/
def _quicksort_float (d : List CFloat) (low high : Int) (dir : iter_dir) :
    List CFloat :=
  if hlh : low < high then
    if high - low < 10 then _insertion_sort d low high dir
    else
      let p := _partition_float d low high dir
      have hpi := _partition_float_pi_bound d low high dir hlh
      if p.2 - low < high - p.2 then
        _quicksort_float (_quicksort_float p.1 low (p.2 - 1) dir) (p.2 + 1) high dir
      else
        _quicksort_float (_quicksort_float p.1 (p.2 + 1) high dir) low (p.2 - 1) dir
  else d
termination_by (high - low).toNat
decreasing_by
  all_goals simp_wf
  all_goals omega

/-- The `size_t` → `int` narrowing at the call
`_quicksort_float(vec->data, 0, vec->len - 1, direction)` (`c_float.c:472`):
`int` is 32 bits under LP64, and the out-of-range conversion is the usual
two's-complement truncation. -/
def toInt32 (n : Nat) : Int :=
  if n % 2 ^ 32 < 2 ^ 31 then ((n % 2 ^ 32 : Nat) : Int)
  else ((n % 2 ^ 32 : Nat) : Int) - 2 ^ 32

theorem toInt32_le (n : Nat) : toInt32 n ≤ (n : Int) := by
  rw [toInt32]
  split <;> omega

theorem toInt32_eq_of_lt (n : Nat) (h : n < 2 ^ 31) : toInt32 n = (n : Int) := by
  rw [toInt32]
  split <;> omega

/-- `sort_float_vector`.  The `high` argument is `vec->len - 1`, a `size_t`
narrowed into the 32-bit `int` parameter of `_quicksort_float`.  (If `data`
is NULL and `len ≥ 2` the source dereferences NULL — UB; modelled as
leaving the vector unchanged.) -/
def sort_float_vector (vec : Option float_v) (direction : iter_dir) :
    Option float_v × Option ErrNo :=
  match vec with
  | none => (none, some .EINVAL)
  | some v =>
    if v.len < 2 then (vec, none)
    else
      match v.data with
      | none => (vec, none)
      | some d =>
        (some { v with
                 data := some (_quicksort_float d 0 (toInt32 (v.len - 1)) direction) },
         none)

-- ================================================================================
-- Binary search (`c_float.c`, lines 508-558)

/-- The `while (left <= right)` loop of `binary_search_float_vector`
(`left`, `right`, `mid` are `size_t`; the `mid == 0` test prevents the
`mid - 1` underflow, and `break` returns `LONG_MAX`). -/
def bsearchLoop (d : List CFloat) (value tolerance : CFloat) (left right : Nat) :
    Nat :=
  if h : left ≤ right then
    let mid := left + (right - left) / 2
    let diff := fsub (getN d mid) value
    if fle (fabs diff) tolerance then mid
    else if flt diff (.fin 0) then bsearchLoop d value tolerance (mid + 1) right
    else if mid = 0 then LONG_MAX
    else bsearchLoop d value tolerance left (mid - 1)
  else LONG_MAX
termination_by right + 1 - left
decreasing_by
  all_goals simp_wf
  all_goals omega

/-- `binary_search_float_vector`. -/
def binary_search_float_vector (vec : Option float_v) (value tolerance : CFloat)
    (sort_first : Bool) : VRes Nat :=
  match vec with
  | none => ⟨none, LONG_MAX, some .EINVAL⟩
  | some v =>
    match v.data with
    | none => ⟨vec, LONG_MAX, some .EINVAL⟩
    | some d =>
      if v.len = 0 then ⟨vec, LONG_MAX, some .ENODATA⟩
      else if flt tolerance (.fin 0) then ⟨vec, LONG_MAX, some .EINVAL⟩
      else if isNan value ∨ isNan tolerance then ⟨vec, LONG_MAX, some .EINVAL⟩
      else
        let d1 := if sort_first ∧ v.len > 1 then
            _quicksort_float d 0 ((v.len : Int) - 1) .FORWARD
          else d
        ⟨some { v with data := some d1 },
         bsearchLoop d1 value tolerance 0 (v.len - 1), none⟩


-- ================================================================================
-- Index-level lemmas about the buffer primitives

theorem getN_eq_getElem?_getD (d : List CFloat) (i : Nat) :
    getN d i = (d[i]?).getD (.fin 0) := List.getD_eq_getElem?_getD d i _

theorem getN_lt_length (d : List CFloat) (i : Nat) (h : i < d.length) :
    getN d i = d[i] := by
  simp [getN_eq_getElem?_getD, List.getElem?_eq_getElem h]

theorem getN_ge_length (d : List CFloat) (i : Nat) (h : d.length ≤ i) :
    getN d i = .fin 0 := by
  simp [getN_eq_getElem?_getD, List.getElem?_eq_none h]

theorem getN_set (d : List CFloat) (i j : Nat) (x : CFloat) :
    getN (d.set i x) j =
      if i = j ∧ i < d.length then x else getN d j := by
  simp only [getN_eq_getElem?_getD, List.getElem?_set]
  by_cases hij : i = j
  · subst hij
    by_cases hlen : i < d.length
    · simp [hlen]
    · simp [hlen, List.getElem?_eq_none (Nat.le_of_not_lt hlen)]
  · simp [hij]

theorem getN_set_self (d : List CFloat) (i : Nat) (x : CFloat) (h : i < d.length) :
    getN (d.set i x) i = x := by
  rw [getN_set]
  simp [h]

theorem getN_set_ne (d : List CFloat) (i j : Nat) (x : CFloat) (h : i ≠ j) :
    getN (d.set i x) j = getN d j := by
  rw [getN_set]
  simp [h]

theorem getN_append (d1 d2 : List CFloat) (i : Nat) :
    getN (d1 ++ d2) i =
      if i < d1.length then getN d1 i else getN d2 (i - d1.length) := by
  simp only [getN_eq_getElem?_getD, List.getElem?_append]
  split <;> rfl

theorem getN_replicate (n i : Nat) (x : CFloat) :
    getN (List.replicate n x) i = if i < n then x else .fin 0 := by
  simp only [getN_eq_getElem?_getD, List.getElem?_replicate]
  split <;> simp_all

theorem getN_take (d : List CFloat) (n i : Nat) :
    getN (d.take n) i = if i < n then getN d i else .fin 0 := by
  simp only [getN_eq_getElem?_getD, List.getElem?_take]
  split <;> rfl

theorem getN_drop (d : List CFloat) (n i : Nat) :
    getN (d.drop n) i = getN d (n + i) := by
  simp [getN_eq_getElem?_getD, List.getElem?_drop]

theorem getN_append3 (A B C : List CFloat) (k : Nat) :
    getN (A ++ B ++ C) k =
      if k < A.length then getN A k
      else if k < A.length + B.length then getN B (k - A.length)
      else getN C (k - A.length - B.length) := by
  rw [getN_append, getN_append, List.length_append]
  by_cases h1 : k < A.length
  · rw [if_pos (by omega), if_pos h1, if_pos h1]
  · rw [if_neg h1, if_neg h1]
    by_cases h2 : k < A.length + B.length
    · rw [if_pos h2, if_pos (by omega)]
    · rw [if_neg h2, if_neg (by omega)]
      congr 1
      omega

theorem length_memmoveShiftR (d : List CFloat) (index len : Nat)
    (hlen : len < d.length) (hidx : index < len) :
    (memmoveShiftR d index len).length = d.length := by
  have hA : (d.take (index + 1)).length = index + 1 := by
    rw [List.length_take]
    omega
  have hB : ((d.drop index).take (len - index)).length = len - index := by
    rw [List.length_take, List.length_drop]
    omega
  rw [memmoveShiftR, List.length_append, List.length_append, hA, hB,
    List.length_drop]
  omega

theorem getN_memmoveShiftR (d : List CFloat) (index len k : Nat)
    (hlen : len < d.length) (hidx : index < len) :
    getN (memmoveShiftR d index len) k =
      if k ≤ index then getN d k
      else if k ≤ len then getN d (k - 1)
      else getN d k := by
  have hA : (d.take (index + 1)).length = index + 1 := by
    rw [List.length_take]
    omega
  have hB : ((d.drop index).take (len - index)).length = len - index := by
    rw [List.length_take, List.length_drop]
    omega
  rw [memmoveShiftR, getN_append3, hA, hB]
  by_cases h1 : k ≤ index
  · rw [if_pos (by omega), if_pos h1, getN_take, if_pos (by omega)]
  · rw [if_neg (by omega), if_neg h1]
    by_cases h2 : k ≤ len
    · rw [if_pos (by omega), if_pos h2, getN_take, if_pos (by omega), getN_drop]
      congr 1
      omega
    · rw [if_neg (by omega), if_neg h2, getN_drop]
      congr 1
      omega

theorem length_memmoveShiftL (d : List CFloat) (index len : Nat)
    (hlen : len ≤ d.length) (hidx : index < len) :
    (memmoveShiftL d index len).length = d.length := by
  have hA : (d.take index).length = index := by
    rw [List.length_take]
    omega
  have hB : ((d.drop (index + 1)).take (len - index - 1)).length = len - index - 1 := by
    rw [List.length_take, List.length_drop]
    omega
  rw [memmoveShiftL, List.length_append, List.length_append, hA, hB,
    List.length_drop]
  omega

theorem getN_memmoveShiftL (d : List CFloat) (index len k : Nat)
    (hlen : len ≤ d.length) (hidx : index < len) :
    getN (memmoveShiftL d index len) k =
      if k < index then getN d k
      else if k < len - 1 then getN d (k + 1)
      else getN d k := by
  have hA : (d.take index).length = index := by
    rw [List.length_take]
    omega
  have hB : ((d.drop (index + 1)).take (len - index - 1)).length = len - index - 1 := by
    rw [List.length_take, List.length_drop]
    omega
  rw [memmoveShiftL, getN_append3, hA, hB]
  by_cases h1 : k < index
  · rw [if_pos h1, if_pos h1, getN_take, if_pos (by omega)]
  · rw [if_neg h1, if_neg h1]
    by_cases h2 : k < len - 1
    · rw [if_pos (by omega), if_pos h2, getN_take, if_pos (by omega), getN_drop]
      congr 1
      omega
    · rw [if_neg (by omega), if_neg h2, getN_drop]
      congr 1
      omega

theorem length_reallocFloats (d : List CFloat) (alloc new_alloc : Nat)
    (hd : d.length = alloc) (h : alloc ≤ new_alloc) :
    (reallocFloats d alloc new_alloc).length = new_alloc := by
  have hA : (d.take new_alloc).length = alloc := by
    rw [List.length_take]
    omega
  rw [reallocFloats, List.length_append, hA, List.length_replicate]
  omega

theorem getN_reallocFloats (d : List CFloat) (alloc new_alloc k : Nat)
    (hd : d.length = alloc) (h : alloc ≤ new_alloc) :
    getN (reallocFloats d alloc new_alloc) k =
      if k < alloc then getN d k else .fin 0 := by
  have hA : (d.take new_alloc).length = alloc := by
    rw [List.length_take]
    omega
  rw [reallocFloats, getN_append, hA, getN_take, getN_replicate]
  by_cases h1 : k < alloc
  · rw [if_pos h1, if_pos h1, if_pos (by omega)]
  · rw [if_neg h1, if_neg h1]
    split <;> rfl

/-- Below the wrap-around region, the growth computation is: double
`max alloc 1` below the threshold, else add the fixed amount. -/
theorem growAlloc_eq (alloc : Nat) (h : alloc ≤ 2 ^ 61) :
    growAlloc alloc =
      if max alloc 1 < VEC_THRESHOLD then 2 * max alloc 1
      else alloc + VEC_FIXED_AMOUNT := by
  rcases Nat.eq_zero_or_pos alloc with h0 | h0
  · subst h0
    norm_num [growAlloc, VEC_THRESHOLD, VEC_FIXED_AMOUNT, U64]
  · have hbase : (if alloc = 0 then 1 else alloc) = alloc := by
      rw [if_neg (by omega)]
    have hmax : max alloc 1 = alloc := Nat.max_eq_left h0
    have hth : VEC_THRESHOLD = 1 * 1024 * 1024 := rfl
    have hfx : VEC_FIXED_AMOUNT = 1 * 1024 * 1024 := rfl
    have hmod : U64 = 2 ^ 64 := rfl
    simp only [growAlloc, hbase, hmax]
    by_cases hlt : alloc < VEC_THRESHOLD
    · rw [if_pos hlt, if_pos hlt, Nat.mod_eq_of_lt (by omega)]
      omega
    · rw [if_neg hlt, if_neg hlt, Nat.mod_eq_of_lt (by omega)]

theorem growAlloc_ge_succ (alloc : Nat) (h : alloc ≤ 2 ^ 61) :
    alloc + 1 ≤ growAlloc alloc := by
  rw [growAlloc_eq alloc h]
  have hth : VEC_THRESHOLD = 1 * 1024 * 1024 := rfl
  have hfx : VEC_FIXED_AMOUNT = 1 * 1024 * 1024 := rfl
  rcases Nat.eq_zero_or_pos alloc with h0 | h0
  · subst h0
    norm_num [VEC_THRESHOLD, VEC_FIXED_AMOUNT]
  · rw [Nat.max_eq_left h0]
    split <;> omega

theorem growAlloc_le (alloc : Nat) (h : alloc ≤ 2 ^ 61) :
    growAlloc alloc ≤ 2 ^ 61 + 2 ^ 20 := by
  rw [growAlloc_eq alloc h]
  have hth : VEC_THRESHOLD = 1 * 1024 * 1024 := rfl
  have hfx : VEC_FIXED_AMOUNT = 1 * 1024 * 1024 := rfl
  rcases Nat.eq_zero_or_pos alloc with h0 | h0
  · subst h0
    norm_num [VEC_THRESHOLD, VEC_FIXED_AMOUNT]
  · rw [Nat.max_eq_left h0]
    split <;> omega

-- ================================================================================
-- Claim C2 (float_vector_index)

/-- C2: the claim says `float_vector_index` fails with `ERANGE` for every
`i ≥ len`, including on the empty vector, without reading outside the
populated range.  The source's bounds check `index > vec->len - 1` is
computed in `size_t`, so for `len == 0` it compares against `SIZE_MAX` and
never fires: on an empty vector every index is accepted, errno stays
untouched, and `data[index]` is read (for `index ≥ alloc` an out-of-bounds
read).  This evaluates the code at the failing input — an empty DYNAMIC
vector of capacity 1, at indices 0 and 3 — and contrasts it with the
correct `ERANGE` behaviour on a vector of length 1. -/
theorem claim_C2_index_len0_bounds_check_bypassed :
    float_vector_index (some ⟨some [.fin 0], 0, 1, .DYNAMIC⟩) 0 = (.fin 0, none) ∧
    float_vector_index (some ⟨some [.fin 0], 0, 1, .DYNAMIC⟩) 3 = (.fin 0, none) ∧
    float_vector_index (some ⟨some [.fin 0], 1, 1, .DYNAMIC⟩) 1 =
      (FLT_MAX, some .ERANGE) := by
  refine ⟨?_, ?_, ?_⟩ <;> rfl

-- ================================================================================
-- Claim C7 (STATIC vector at capacity rejects push/insert unchanged)

/-- C7: on a STATIC vector that already holds `alloc` elements, each of
`push_back`, `push_front` and `insert` (at any in-range index) fails with
`EINVAL`, returns `false`, and leaves the vector — length, capacity and
every stored element — completely unchanged. -/
theorem claim_C7_static_full_rejects_unchanged (v : float_v) (d : List CFloat)
    (val : CFloat) (i : Nat) (allocOk : Bool)
    (hd : v.data = some d) (hty : v.alloc_type = .STATIC)
    (hfull : v.len = v.alloc) (hi : i ≤ v.len) (hsz : v.len < SIZE_MAX) :
    push_back_float_vector (some v) val allocOk = ⟨some v, false, some .EINVAL⟩ ∧
    push_front_float_vector (some v) val allocOk = ⟨some v, false, some .EINVAL⟩ ∧
    insert_float_vector (some v) val i allocOk = ⟨some v, false, some .EINVAL⟩ := by
  obtain ⟨vd, vlen, valloc, vty⟩ := v
  simp only [float_v.data] at hd
  simp only [float_v.alloc_type] at hty
  simp only [float_v.len, float_v.alloc] at hfull hi hsz
  subst hd hty hfull
  refine ⟨?_, ?_, ?_⟩
  · simp [push_back_float_vector]
  · simp [push_front_float_vector]
  · simp only [insert_float_vector]
    rw [if_neg (by omega), if_neg (by omega), if_pos (by omega)]
    simp

/-- C7 witness: a full STATIC vector of capacity 2. -/
theorem claim_C7_witness :
    push_back_float_vector (some ⟨some [.fin 1, .fin 2], 2, 2, .STATIC⟩)
        (.fin 3) true =
      ⟨some ⟨some [.fin 1, .fin 2], 2, 2, .STATIC⟩, false, some .EINVAL⟩ ∧
    push_front_float_vector (some ⟨some [.fin 1, .fin 2], 2, 2, .STATIC⟩)
        (.fin 3) true =
      ⟨some ⟨some [.fin 1, .fin 2], 2, 2, .STATIC⟩, false, some .EINVAL⟩ ∧
    insert_float_vector (some ⟨some [.fin 1, .fin 2], 2, 2, .STATIC⟩)
        (.fin 3) 1 true =
      ⟨some ⟨some [.fin 1, .fin 2], 2, 2, .STATIC⟩, false, some .EINVAL⟩ :=
  claim_C7_static_full_rejects_unchanged ⟨some [.fin 1, .fin 2], 2, 2, .STATIC⟩
    [.fin 1, .fin 2] (.fin 3) 1 true rfl rfl rfl (by decide) (by decide)

-- ================================================================================
-- Claim C9 (trim_float_vector)

/-- C9: `trim` on a DYNAMIC vector with `0 < len < alloc` shrinks the
capacity to exactly `len` keeping every stored element and the length; on a
STATIC vector or one with `len == alloc` it is a silent no-op; on a DYNAMIC
vector with `len == 0` (and `alloc ≠ 0`) it fails with `ENODATA`; and if
the reallocation fails it fails with `ENOMEM` leaving data, len and alloc
untouched.  (The source checks STATIC / `len == alloc` before the
`len == 0` check, so an empty STATIC vector is a silent no-op.) -/
theorem claim_C9_trim (v : float_v) (d : List CFloat) (hd : v.data = some d)
    (hdl : d.length = v.alloc) (hsz : v.len ≤ 2 ^ 62 - 1) :
    (v.alloc_type = .DYNAMIC → 0 < v.len → v.len < v.alloc →
      (∃ nd, trim_float_vector (some v) true =
          (some { v with data := some nd, alloc := v.len }, none) ∧
        nd.length = v.len ∧
        ∀ k, k < v.len → getN nd k = getN d k)) ∧
    ((v.alloc_type = .STATIC ∨ v.len = v.alloc) →
      trim_float_vector (some v) true = (some v, none)) ∧
    (v.alloc_type = .DYNAMIC → v.len = 0 → v.len ≠ v.alloc →
      trim_float_vector (some v) false = (some v, some .ENODATA)) ∧
    (v.alloc_type = .DYNAMIC → 0 < v.len → v.len < v.alloc →
      trim_float_vector (some v) false = (some v, some .ENOMEM)) := by
  have hrange : ¬ v.len > SIZE_MAX / 4 := by
    have h4 : SIZE_MAX / 4 = 2 ^ 62 - 1 := by norm_num [SIZE_MAX]
    omega
  refine ⟨?_, ?_, ?_, ?_⟩
  · intro hty hpos hlt
    refine ⟨d.take v.len, ?_, ?_, ?_⟩
    · rw [trim_float_vector]
      simp only [hd]
      rw [if_neg (by simp [hty]; omega), if_neg (by omega), if_neg hrange]
      simp
    · rw [List.length_take]
      omega
    · intro k hk
      rw [getN_take, if_pos hk]
  · intro hopt
    rw [trim_float_vector]
    simp only [hd]
    rw [if_pos ?_]
    rcases hopt with h1 | h1
    · exact Or.inl h1
    · exact Or.inr h1
  · intro hty h0 hne
    rw [trim_float_vector]
    simp only [hd]
    rw [if_neg (by simp [hty]; omega), if_pos h0]
  · intro hty hpos hlt
    rw [trim_float_vector]
    simp only [hd]
    rw [if_neg (by simp [hty]; omega), if_neg (by omega), if_neg hrange]
    simp

/-- C9 witness: a DYNAMIC vector of length 2 and capacity 5 (success,
no-op at `len == alloc`, ENODATA when empty, ENOMEM on realloc failure). -/
theorem claim_C9_witness :
    (∃ nd, trim_float_vector
          (some ⟨some [.fin 1, .fin 2, .fin 0, .fin 0, .fin 0], 2, 5, .DYNAMIC⟩) true =
        (some { data := some nd, len := 2, alloc := 2, alloc_type := .DYNAMIC }, none) ∧
      nd.length = 2 ∧
      ∀ k, k < 2 →
        getN nd k = getN [.fin 1, .fin 2, .fin 0, .fin 0, .fin 0] k) ∧
    trim_float_vector (some ⟨some [.fin 1, .fin 2], 2, 2, .DYNAMIC⟩) true =
      (some ⟨some [.fin 1, .fin 2], 2, 2, .DYNAMIC⟩, none) ∧
    trim_float_vector (some ⟨some [.fin 0, .fin 0], 0, 2, .DYNAMIC⟩) false =
      (some ⟨some [.fin 0, .fin 0], 0, 2, .DYNAMIC⟩, some .ENODATA) ∧
    trim_float_vector
        (some ⟨some [.fin 1, .fin 2, .fin 0, .fin 0, .fin 0], 2, 5, .DYNAMIC⟩) false =
      (some ⟨some [.fin 1, .fin 2, .fin 0, .fin 0, .fin 0], 2, 5, .DYNAMIC⟩,
        some .ENOMEM) := by
  have h := claim_C9_trim ⟨some [.fin 1, .fin 2, .fin 0, .fin 0, .fin 0], 2, 5, .DYNAMIC⟩
    [.fin 1, .fin 2, .fin 0, .fin 0, .fin 0] rfl rfl (by norm_num)
  have h2 := claim_C9_trim ⟨some [.fin 1, .fin 2], 2, 2, .DYNAMIC⟩
    [.fin 1, .fin 2] rfl rfl (by norm_num)
  have h3 := claim_C9_trim ⟨some [.fin 0, .fin 0], 0, 2, .DYNAMIC⟩
    [.fin 0, .fin 0] rfl rfl (by norm_num)
  exact ⟨h.1 rfl (by norm_num) (by norm_num),
    h2.2.1 (Or.inr rfl),
    h3.2.2.1 rfl rfl (by norm_num),
    h.2.2.2 rfl (by norm_num) (by norm_num)⟩

-- ================================================================================
-- Claim C8 (min / max)

theorem flt_nan_right (a : CFloat) : flt a .nan = false := by
  cases a <;> rfl

theorem flt_nan_left (a : CFloat) : flt .nan a = false := by
  cases a <;> rfl

theorem minLoop_nan (d : List CFloat) (acc : CFloat) (i len : Nat)
    (h : isNan acc = true) : minLoop d acc i len = acc := by
  rw [minLoop]
  split
  · have hacc : acc = .nan := by
      cases acc <;> simp_all [isNan]
    subst hacc
    rw [flt_nan_right, if_neg (by simp)]
    exact minLoop_nan d .nan (i + 1) len (by simp [isNan])
  · rfl
termination_by len - i

theorem maxLoop_nan (d : List CFloat) (acc : CFloat) (i len : Nat)
    (h : isNan acc = true) : maxLoop d acc i len = acc := by
  rw [maxLoop]
  split
  · have hacc : acc = .nan := by
      cases acc <;> simp_all [isNan]
    subst hacc
    rw [flt_nan_left, if_neg (by simp)]
    exact maxLoop_nan d .nan (i + 1) len (by simp [isNan])
  · rfl
termination_by len - i

theorem minLoop_le_acc (d : List CFloat) (acc : CFloat) (i len : Nat)
    (h : isNan acc = false) :
    fle (minLoop d acc i len) acc = true ∧
      isNan (minLoop d acc i len) = false := by
  rw [minLoop]
  split
  · by_cases hx : flt (getN d i) acc = true
    · rw [if_pos hx]
      have ih := minLoop_le_acc d (getN d i) (i + 1) len (flt_isNan_left hx)
      exact ⟨fle_trans ih.1 (fle_of_flt hx), ih.2⟩
    · rw [if_neg hx]
      exact minLoop_le_acc d acc (i + 1) len h
  · exact ⟨fle_refl h, h⟩
termination_by len - i

theorem maxLoop_ge_acc (d : List CFloat) (acc : CFloat) (i len : Nat)
    (h : isNan acc = false) :
    fle acc (maxLoop d acc i len) = true ∧
      isNan (maxLoop d acc i len) = false := by
  rw [maxLoop]
  split
  · by_cases hx : flt acc (getN d i) = true
    · rw [if_pos hx]
      have ih := maxLoop_ge_acc d (getN d i) (i + 1) len (flt_isNan_right hx)
      exact ⟨fle_trans (fle_of_flt hx) ih.1, ih.2⟩
    · rw [if_neg hx]
      exact maxLoop_ge_acc d acc (i + 1) len h
  · exact ⟨fle_refl h, h⟩
termination_by len - i

theorem minLoop_le_elem (d : List CFloat) (acc : CFloat) (i len : Nat)
    (h : isNan acc = false) (k : Nat) (hik : i ≤ k) (hk : k < len)
    (hknan : isNan (getN d k) = false) :
    fle (minLoop d acc i len) (getN d k) = true := by
  rw [minLoop]
  rw [if_pos (by omega)]
  by_cases hx : flt (getN d i) acc = true
  · rw [if_pos hx]
    by_cases hki : k = i
    · subst hki
      exact (minLoop_le_acc d (getN d k) (k + 1) len (flt_isNan_left hx)).1
    · exact minLoop_le_elem d (getN d i) (i + 1) len (flt_isNan_left hx) k
        (by omega) hk hknan
  · rw [if_neg hx]
    by_cases hki : k = i
    · subst hki
      have hle : fle acc (getN d k) = true :=
        fle_of_not_flt hknan h (by simpa using hx)
      exact fle_trans (minLoop_le_acc d acc (k + 1) len h).1 hle
    · exact minLoop_le_elem d acc (i + 1) len h k (by omega) hk hknan
termination_by len - i

theorem maxLoop_ge_elem (d : List CFloat) (acc : CFloat) (i len : Nat)
    (h : isNan acc = false) (k : Nat) (hik : i ≤ k) (hk : k < len)
    (hknan : isNan (getN d k) = false) :
    fle (getN d k) (maxLoop d acc i len) = true := by
  rw [maxLoop]
  rw [if_pos (by omega)]
  by_cases hx : flt acc (getN d i) = true
  · rw [if_pos hx]
    by_cases hki : k = i
    · subst hki
      exact (maxLoop_ge_acc d (getN d k) (k + 1) len (flt_isNan_right hx)).1
    · exact maxLoop_ge_elem d (getN d i) (i + 1) len (flt_isNan_right hx) k
        (by omega) hk hknan
  · rw [if_neg hx]
    by_cases hki : k = i
    · subst hki
      have hle : fle (getN d k) acc = true :=
        fle_of_not_flt h hknan (by simpa using hx)
      exact fle_trans hle (maxLoop_ge_acc d acc (k + 1) len h).1
    · exact maxLoop_ge_elem d acc (i + 1) len h k (by omega) hk hknan
termination_by len - i

theorem minLoop_mem (d : List CFloat) (acc : CFloat) (i len : Nat) :
    minLoop d acc i len = acc ∨
      ∃ k, i ≤ k ∧ k < len ∧ minLoop d acc i len = getN d k := by
  rw [minLoop]
  split
  · rename_i hlt
    by_cases hx : flt (getN d i) acc = true
    · rw [if_pos hx]
      rcases minLoop_mem d (getN d i) (i + 1) len with h1 | ⟨k, hk1, hk2, hk3⟩
      · exact Or.inr ⟨i, le_refl i, hlt, h1⟩
      · exact Or.inr ⟨k, by omega, hk2, hk3⟩
    · rw [if_neg hx]
      rcases minLoop_mem d acc (i + 1) len with h1 | ⟨k, hk1, hk2, hk3⟩
      · exact Or.inl h1
      · exact Or.inr ⟨k, by omega, hk2, hk3⟩
  · exact Or.inl rfl
termination_by len - i

theorem maxLoop_mem (d : List CFloat) (acc : CFloat) (i len : Nat) :
    maxLoop d acc i len = acc ∨
      ∃ k, i ≤ k ∧ k < len ∧ maxLoop d acc i len = getN d k := by
  rw [maxLoop]
  split
  · rename_i hlt
    by_cases hx : flt acc (getN d i) = true
    · rw [if_pos hx]
      rcases maxLoop_mem d (getN d i) (i + 1) len with h1 | ⟨k, hk1, hk2, hk3⟩
      · exact Or.inr ⟨i, le_refl i, hlt, h1⟩
      · exact Or.inr ⟨k, by omega, hk2, hk3⟩
    · rw [if_neg hx]
      rcases maxLoop_mem d acc (i + 1) len with h1 | ⟨k, hk1, hk2, hk3⟩
      · exact Or.inl h1
      · exact Or.inr ⟨k, by omega, hk2, hk3⟩
  · exact Or.inl rfl
termination_by len - i

/-- C8 counterexample: the claim says NaN entries are ignored, so that with
at least one non-NaN element the result is the min/max over the non-NaN
elements.  On the vector `[NaN, 5.0]` the scan seeds its accumulator with
element 0 (NaN), every comparison against NaN is false, and both `min` and
`max` return NaN — not the non-NaN min/max `5.0`. -/
theorem claim_C8_counterexample :
    (min_float_vector (some ⟨some [.nan, .fin 5], 2, 2, .DYNAMIC⟩)).1 = .nan ∧
    (max_float_vector (some ⟨some [.nan, .fin 5], 2, 2, .DYNAMIC⟩)).1 = .nan ∧
    isNan (.fin 5 : CFloat) = false ∧ (CFloat.nan ≠ .fin 5) := by
  refine ⟨?_, ?_, rfl, by simp⟩ <;>
    simp [min_float_vector, max_float_vector, minLoop, maxLoop, getN, flt]

/-- C8 (amended): `min`/`max` scan with the accumulator seeded from element
0 and a strict IEEE comparison, so NaN entries at positions ≥ 1 never
replace the accumulator (they are ignored), but if element 0 is NaN the
result is NaN even when non-NaN elements exist.  When element 0 is not NaN
the result is the min (resp. max) over the non-NaN stored elements.  A NULL
vector, NULL data pointer, or empty vector fails with `EINVAL`. -/
theorem claim_C8_min_max_amended (v : float_v) (d : List CFloat)
    (hd : v.data = some d) (hpos : v.len ≠ 0) :
    (min_float_vector (some v)).2 = none ∧
    (max_float_vector (some v)).2 = none ∧
    (isNan (getN d 0) = true →
      (min_float_vector (some v)).1 = getN d 0 ∧
      (max_float_vector (some v)).1 = getN d 0) ∧
    (isNan (getN d 0) = false →
      (∃ k, k < v.len ∧ (min_float_vector (some v)).1 = getN d k) ∧
      (∀ k, k < v.len → isNan (getN d k) = false →
        fle (min_float_vector (some v)).1 (getN d k) = true) ∧
      (∃ k, k < v.len ∧ (max_float_vector (some v)).1 = getN d k) ∧
      (∀ k, k < v.len → isNan (getN d k) = false →
        fle (getN d k) (max_float_vector (some v)).1 = true)) ∧
    (min_float_vector none = (FLT_MAX, some .EINVAL) ∧
      max_float_vector none = (FLT_MAX, some .EINVAL)) ∧
    (∀ w : float_v, w.data = none ∨ w.len = 0 →
      min_float_vector (some w) = (FLT_MAX, some .EINVAL) ∧
      max_float_vector (some w) = (FLT_MAX, some .EINVAL)) := by
  have hmin : min_float_vector (some v) =
      if v.len = 1 then (getN d 0, none)
      else (minLoop d (getN d 0) 1 v.len, none) := by
    rw [min_float_vector]
    simp only [hd]
    rw [if_neg hpos]
  have hmax : max_float_vector (some v) =
      if v.len = 1 then (getN d 0, none)
      else (maxLoop d (getN d 0) 1 v.len, none) := by
    rw [max_float_vector]
    simp only [hd]
    rw [if_neg hpos]
  refine ⟨?_, ?_, ?_, ?_, ⟨rfl, rfl⟩, ?_⟩
  · rw [hmin]
    split <;> rfl
  · rw [hmax]
    split <;> rfl
  · intro hnan
    rw [hmin, hmax]
    by_cases h1 : v.len = 1
    · simp [if_pos h1]
    · simp only [if_neg h1]
      exact ⟨minLoop_nan d (getN d 0) 1 v.len hnan,
        maxLoop_nan d (getN d 0) 1 v.len hnan⟩
  · intro hnn
    rw [hmin, hmax]
    by_cases h1 : v.len = 1
    · simp only [if_pos h1]
      refine ⟨⟨0, by omega, rfl⟩, ?_, ⟨0, by omega, rfl⟩, ?_⟩ <;>
        · intro k hk hknan
          have hk0 : k = 0 := by omega
          subst hk0
          exact fle_refl hnn
    · simp only [if_neg h1]
      refine ⟨?_, ?_, ?_, ?_⟩
      · rcases minLoop_mem d (getN d 0) 1 v.len with hm | ⟨k, _, hk2, hk3⟩
        · exact ⟨0, by omega, hm⟩
        · exact ⟨k, hk2, hk3⟩
      · intro k hk hknan
        rcases Nat.eq_zero_or_pos k with hk0 | hk0
        · subst hk0
          exact (minLoop_le_acc d (getN d 0) 1 v.len hnn).1
        · exact minLoop_le_elem d (getN d 0) 1 v.len hnn k (by omega) hk hknan
      · rcases maxLoop_mem d (getN d 0) 1 v.len with hm | ⟨k, _, hk2, hk3⟩
        · exact ⟨0, by omega, hm⟩
        · exact ⟨k, hk2, hk3⟩
      · intro k hk hknan
        rcases Nat.eq_zero_or_pos k with hk0 | hk0
        · subst hk0
          exact (maxLoop_ge_acc d (getN d 0) 1 v.len hnn).1
        · exact maxLoop_ge_elem d (getN d 0) 1 v.len hnn k (by omega) hk hknan
  · intro w hw
    rcases hw with hw | hw
    · rw [min_float_vector, max_float_vector]
      simp [hw]
    · rw [min_float_vector, max_float_vector]
      cases hwd : w.data
      · simp
      · simp [hw]

/-- C8 witness: the amended theorem applied to `[3.0, NaN, 1.0]`. -/
theorem claim_C8_witness :
    (min_float_vector (some ⟨some [.fin 3, .nan, .fin 1], 3, 3, .DYNAMIC⟩)).2 = none ∧
    (max_float_vector (some ⟨some [.fin 3, .nan, .fin 1], 3, 3, .DYNAMIC⟩)).2 = none ∧
    (isNan (getN [.fin 3, .nan, .fin 1] 0) = true →
      (min_float_vector (some ⟨some [.fin 3, .nan, .fin 1], 3, 3, .DYNAMIC⟩)).1 =
        getN [.fin 3, .nan, .fin 1] 0 ∧
      (max_float_vector (some ⟨some [.fin 3, .nan, .fin 1], 3, 3, .DYNAMIC⟩)).1 =
        getN [.fin 3, .nan, .fin 1] 0) ∧
    (isNan (getN [.fin 3, .nan, .fin 1] 0) = false →
      (∃ k, k < 3 ∧
        (min_float_vector (some ⟨some [.fin 3, .nan, .fin 1], 3, 3, .DYNAMIC⟩)).1 =
          getN [.fin 3, .nan, .fin 1] k) ∧
      (∀ k, k < 3 → isNan (getN [.fin 3, .nan, .fin 1] k) = false →
        fle (min_float_vector (some ⟨some [.fin 3, .nan, .fin 1], 3, 3, .DYNAMIC⟩)).1
          (getN [.fin 3, .nan, .fin 1] k) = true) ∧
      (∃ k, k < 3 ∧
        (max_float_vector (some ⟨some [.fin 3, .nan, .fin 1], 3, 3, .DYNAMIC⟩)).1 =
          getN [.fin 3, .nan, .fin 1] k) ∧
      (∀ k, k < 3 → isNan (getN [.fin 3, .nan, .fin 1] k) = false →
        fle (getN [.fin 3, .nan, .fin 1] k)
          (max_float_vector (some ⟨some [.fin 3, .nan, .fin 1], 3, 3, .DYNAMIC⟩)).1 = true)) ∧
    (min_float_vector none = (FLT_MAX, some .EINVAL) ∧
      max_float_vector none = (FLT_MAX, some .EINVAL)) ∧
    (∀ w : float_v, w.data = none ∨ w.len = 0 →
      min_float_vector (some w) = (FLT_MAX, some .EINVAL) ∧
      max_float_vector (some w) = (FLT_MAX, some .EINVAL)) :=
  claim_C8_min_max_amended ⟨some [.fin 3, .nan, .fin 1], 3, 3, .DYNAMIC⟩
    [.fin 3, .nan, .fin 1] rfl (by decide)

-- ================================================================================
-- Claim C4 (growth policy)

/-- C4: when a DYNAMIC vector is at capacity (`len == alloc`), a successful
`push_back` / `push_front` / `insert` grows the capacity to exactly
`growAlloc alloc`, which below `VEC_THRESHOLD` is double the old capacity
(the base is clamped to 1 when the old capacity is 0) and otherwise is the
old capacity plus `VEC_FIXED_AMOUNT`; the newly added slots left above the
new populated region are zero-filled, and the pushed value is stored at the
expected position. -/
theorem claim_C4_growth (v : float_v) (d : List CFloat) (val : CFloat) (i : Nat)
    (hd : v.data = some d) (hdl : d.length = v.alloc)
    (hty : v.alloc_type = .DYNAMIC) (hfull : v.len = v.alloc)
    (hb : v.alloc ≤ 2 ^ 61) (hi : i ≤ v.len) :
    (growAlloc v.alloc =
      if max v.alloc 1 < VEC_THRESHOLD then 2 * max v.alloc 1
      else v.alloc + VEC_FIXED_AMOUNT) ∧
    (∃ nd, push_back_float_vector (some v) val true =
        ⟨some ⟨some nd, v.len + 1, growAlloc v.alloc, .DYNAMIC⟩, true, none⟩ ∧
      nd.length = growAlloc v.alloc ∧
      getN nd v.len = val ∧
      (∀ k, k < v.len → getN nd k = getN d k) ∧
      (∀ k, v.len < k → k < growAlloc v.alloc → getN nd k = .fin 0)) ∧
    (∃ nd, push_front_float_vector (some v) val true =
        ⟨some ⟨some nd, v.len + 1, growAlloc v.alloc, .DYNAMIC⟩, true, none⟩ ∧
      nd.length = growAlloc v.alloc ∧
      getN nd 0 = val ∧
      (∀ k, v.len + 1 ≤ k → k < growAlloc v.alloc → getN nd k = .fin 0)) ∧
    (∃ nd, insert_float_vector (some v) val i true =
        ⟨some ⟨some nd, v.len + 1, growAlloc v.alloc, .DYNAMIC⟩, true, none⟩ ∧
      nd.length = growAlloc v.alloc ∧
      getN nd i = val ∧
      (∀ k, v.len + 1 ≤ k → k < growAlloc v.alloc → getN nd k = .fin 0)) := by
  obtain ⟨vd, vlen, valloc, vty⟩ := v
  simp only [float_v.data] at hd
  simp only [float_v.alloc_type] at hty
  simp only [float_v.len, float_v.alloc] at hfull hb hi hdl ⊢
  subst hd hty hfull
  have hG1 : vlen + 1 ≤ growAlloc vlen := growAlloc_ge_succ vlen hb
  have hG2 : growAlloc vlen ≤ 2 ^ 61 + 2 ^ 20 := growAlloc_le vlen hb
  have hmod : (vlen + 1) % U64 = vlen + 1 := by
    apply Nat.mod_eq_of_lt
    simp only [U64]
    omega
  have hsm : SIZE_MAX = 2 ^ 64 - 1 := rfl
  have hnr : ¬ growAlloc vlen > SIZE_MAX / 4 := by
    omega
  have hlenG : vlen < (reallocFloats d vlen (growAlloc vlen)).length := by
    rw [length_reallocFloats d vlen (growAlloc vlen) hdl (by omega)]
    omega
  have hlG : (reallocFloats d vlen (growAlloc vlen)).length = growAlloc vlen :=
    length_reallocFloats d vlen (growAlloc vlen) hdl (by omega)
  refine ⟨growAlloc_eq vlen hb, ?_, ?_, ?_⟩
  · refine ⟨(reallocFloats d vlen (growAlloc vlen)).set vlen val, ?_, ?_, ?_, ?_, ?_⟩
    · simp [push_back_float_vector, hmod]
    · rw [List.length_set, hlG]
    · exact getN_set_self _ vlen val hlenG
    · intro k hk
      rw [getN_set_ne _ _ _ _ (by omega),
        getN_reallocFloats d vlen (growAlloc vlen) k hdl (by omega), if_pos hk]
    · intro k hk1 hk2
      rw [getN_set_ne _ _ _ _ (by omega),
        getN_reallocFloats d vlen (growAlloc vlen) k hdl (by omega),
        if_neg (by omega)]
  · rcases Nat.eq_zero_or_pos vlen with h0 | h0
    · subst h0
      refine ⟨(reallocFloats d 0 (growAlloc 0)).set 0 val, ?_, ?_, ?_, ?_⟩
      · simp only [push_front_float_vector, push_front_write]
        rw [if_pos (by omega), if_neg (by simp), if_neg hnr]
        simp only [Bool.not_true, Bool.false_eq_true, if_false, Option.getD_some,
          float_v.data, float_v.len]
        rw [if_neg (by omega), if_neg (by omega), hmod]
      · rw [List.length_set, hlG]
      · exact getN_set_self _ 0 val hlenG
      · intro k hk1 hk2
        rw [getN_set_ne _ _ _ _ (by omega),
          getN_reallocFloats d 0 (growAlloc 0) k hdl (by omega),
          if_neg (by omega)]
    · refine ⟨(memmoveShiftR (reallocFloats d vlen (growAlloc vlen)) 0 vlen).set 0 val,
        ?_, ?_, ?_, ?_⟩
      · simp only [push_front_float_vector, push_front_write]
        rw [if_pos (by omega), if_neg (by simp), if_neg hnr]
        simp only [Bool.not_true, Bool.false_eq_true, if_false, Option.getD_some,
          float_v.data, float_v.len]
        rw [if_neg (by omega), if_pos (by omega), hmod]
      · rw [List.length_set, length_memmoveShiftR _ 0 vlen (by omega) h0, hlG]
      · exact getN_set_self _ 0 val (by rw [length_memmoveShiftR _ 0 vlen (by omega) h0]; omega)
      · intro k hk1 hk2
        rw [getN_set_ne _ _ _ _ (by omega),
          getN_memmoveShiftR _ 0 vlen k (by omega) h0, if_neg (by omega),
          if_neg (by omega),
          getN_reallocFloats d vlen (growAlloc vlen) k hdl (by omega),
          if_neg (by omega)]
  · rcases Nat.lt_or_ge i vlen with hilt | hige
    · refine ⟨(memmoveShiftR (reallocFloats d vlen (growAlloc vlen)) i vlen).set i val,
        ?_, ?_, ?_, ?_⟩
      · simp only [insert_float_vector, insert_write]
        rw [if_neg (by omega), if_neg (by omega),
          if_pos (by omega), if_neg (by simp), if_neg hnr]
        simp only [Bool.not_true, Bool.false_eq_true, if_false, Option.getD_some,
          float_v.data, float_v.len]
        rw [if_neg (by omega), if_pos (by omega), hmod]
      · rw [List.length_set, length_memmoveShiftR _ i vlen (by omega) hilt, hlG]
      · exact getN_set_self _ i val (by rw [length_memmoveShiftR _ i vlen (by omega) hilt]; omega)
      · intro k hk1 hk2
        rw [getN_set_ne _ _ _ _ (by omega),
          getN_memmoveShiftR _ i vlen k (by omega) hilt, if_neg (by omega),
          if_neg (by omega),
          getN_reallocFloats d vlen (growAlloc vlen) k hdl (by omega),
          if_neg (by omega)]
    · have hieq : i = vlen := by omega
      subst hieq
      refine ⟨(reallocFloats d i (growAlloc i)).set i val, ?_, ?_, ?_, ?_⟩
      · simp only [insert_float_vector, insert_write]
        rw [if_neg (by omega), if_neg (by omega),
          if_pos (by omega), if_neg (by simp), if_neg hnr]
        simp only [Bool.not_true, Bool.false_eq_true, if_false, Option.getD_some,
          float_v.data, float_v.len]
        rw [if_neg (by omega), if_neg (by omega), hmod]
      · rw [List.length_set, hlG]
      · exact getN_set_self _ i val hlenG
      · intro k hk1 hk2
        rw [getN_set_ne _ _ _ _ (by omega),
          getN_reallocFloats d i (growAlloc i) k hdl (by omega),
          if_neg (by omega)]

/-- C4 witness: the spec's scenario — a capacity-2 DYNAMIC vector holding
2 elements doubles to capacity 4 on the third `append`, with the new value
at index 2 and the fresh slot zero-filled. -/
theorem claim_C4_witness :
    (growAlloc 2 = 4) ∧
    (∃ nd, push_back_float_vector
        (some ⟨some [.fin (314/100), .fin 0], 2, 2, .DYNAMIC⟩)
        (.fin (1414/1000)) true =
        ⟨some ⟨some nd, 3, growAlloc 2, .DYNAMIC⟩, true, none⟩ ∧
      nd.length = growAlloc 2 ∧
      getN nd 2 = .fin (1414/1000) ∧
      (∀ k, k < 2 → getN nd k = getN [.fin (314/100), .fin 0] k) ∧
      (∀ k, 2 < k → k < growAlloc 2 → getN nd k = .fin 0)) := by
  have h := claim_C4_growth ⟨some [.fin (314/100), .fin 0], 2, 2, .DYNAMIC⟩
    [.fin (314/100), .fin 0] (.fin (1414/1000)) 2 rfl rfl rfl rfl
    (by norm_num) (by norm_num)
  exact ⟨rfl, h.2.1⟩

-- ================================================================================
-- Claim C6 (insert / pop_any inverse)

/-- Specification of the write stage of `insert` (after any resize):
the value lands at `index`, the prefix is untouched, the elements formerly
at `[index, len)` move one slot right, and slots above `len + 1` are
untouched. -/
theorem insert_write_spec (v : float_v) (dcur : List CFloat) (val : CFloat)
    (i : Nat) (hd : v.data = some dcur) (hlen : v.len < dcur.length)
    (hi : i ≤ v.len) (hsz : v.len ≤ 2 ^ 62) :
    ∃ nd, insert_write v val i =
        ⟨some { v with data := some nd, len := v.len + 1 }, true, none⟩ ∧
      nd.length = dcur.length ∧
      getN nd i = val ∧
      (∀ k, k < i → getN nd k = getN dcur k) ∧
      (∀ k, i ≤ k → k < v.len → getN nd (k + 1) = getN dcur k) ∧
      (∀ k, v.len + 1 ≤ k → getN nd k = getN dcur k) := by
  have hsm : SIZE_MAX = 2 ^ 64 - 1 := rfl
  have hu : U64 = 2 ^ 64 := rfl
  rcases Nat.lt_or_ge i v.len with hilt | hige
  · refine ⟨(memmoveShiftR dcur i v.len).set i val, ?_, ?_, ?_, ?_, ?_, ?_⟩
    · rw [insert_write]
      rw [if_neg (by omega)]
      simp only [hd, Option.getD_some]
      rw [if_pos hilt, Nat.mod_eq_of_lt (by omega)]
    · rw [List.length_set, length_memmoveShiftR dcur i v.len hlen hilt]
    · exact getN_set_self _ i val
        (by rw [length_memmoveShiftR dcur i v.len hlen hilt]; omega)
    · intro k hk
      rw [getN_set_ne _ _ _ _ (by omega),
        getN_memmoveShiftR dcur i v.len k hlen hilt, if_pos (by omega)]
    · intro k hk1 hk2
      rw [getN_set_ne _ _ _ _ (by omega),
        getN_memmoveShiftR dcur i v.len (k + 1) hlen hilt, if_neg (by omega),
        if_pos (by omega)]
      simp
    · intro k hk
      rw [getN_set_ne _ _ _ _ (by omega),
        getN_memmoveShiftR dcur i v.len k hlen hilt, if_neg (by omega),
        if_neg (by omega)]
  · have hieq : i = v.len := by omega
    refine ⟨dcur.set v.len val, ?_, ?_, ?_, ?_, ?_, ?_⟩
    · rw [insert_write]
      rw [if_neg (by omega)]
      simp only [hd, Option.getD_some]
      rw [if_neg (by omega), Nat.mod_eq_of_lt (by omega), hieq]
    · rw [List.length_set]
    · rw [hieq]
      exact getN_set_self _ v.len val hlen
    · intro k hk
      rw [getN_set_ne _ _ _ _ (by omega)]
    · intro k hk1 hk2
      omega
    · intro k hk
      rw [getN_set_ne _ _ _ _ (by omega)]

/-- Specification of `pop_any` on a valid index: returns the element at
`index`, shifts the suffix one slot left, zero-fills the vacated slot at
`len - 1`, leaves everything else untouched. -/
theorem pop_any_spec (v : float_v) (d : List CFloat) (i : Nat)
    (hd : v.data = some d) (hlen : v.len ≤ d.length) (hpos : i < v.len)
    (hsz : v.len ≤ 2 ^ 62) :
    ∃ nd, pop_any_float_vector (some v) i =
        ⟨some { v with data := some nd, len := v.len - 1 }, getN d i, none⟩ ∧
      nd.length = d.length ∧
      (∀ k, k < i → getN nd k = getN d k) ∧
      (∀ k, i ≤ k → k < v.len - 1 → getN nd k = getN d (k + 1)) ∧
      getN nd (v.len - 1) = .fin 0 ∧
      (∀ k, v.len ≤ k → getN nd k = getN d k) := by
  have hsm : SIZE_MAX = 2 ^ 64 - 1 := rfl
  rcases Nat.lt_or_ge i (v.len - 1) with hilt | hige
  · refine ⟨(memmoveShiftL d i v.len).set (v.len - 1) (.fin 0), ?_, ?_, ?_, ?_, ?_, ?_⟩
    · rw [pop_any_float_vector]
      simp only [hd]
      rw [if_neg (by omega), if_neg (by omega), if_neg (by omega), if_pos hilt]
    · rw [List.length_set, length_memmoveShiftL d i v.len hlen (by omega)]
    · intro k hk
      rw [getN_set_ne _ _ _ _ (by omega),
        getN_memmoveShiftL d i v.len k hlen (by omega), if_pos (by omega)]
    · intro k hk1 hk2
      rw [getN_set_ne _ _ _ _ (by omega),
        getN_memmoveShiftL d i v.len k hlen (by omega), if_neg (by omega),
        if_pos (by omega)]
    · exact getN_set_self _ _ _
        (by rw [length_memmoveShiftL d i v.len hlen (by omega)]; omega)
    · intro k hk
      rw [getN_set_ne _ _ _ _ (by omega),
        getN_memmoveShiftL d i v.len k hlen (by omega), if_neg (by omega),
        if_neg (by omega)]
  · refine ⟨d.set (v.len - 1) (.fin 0), ?_, ?_, ?_, ?_, ?_, ?_⟩
    · have hieq : i = v.len - 1 := by omega
      rw [pop_any_float_vector]
      simp only [hd]
      rw [if_neg (by omega), if_neg (by omega), if_neg (by omega), if_neg (by omega)]
    · rw [List.length_set]
    · intro k hk
      rw [getN_set_ne _ _ _ _ (by omega)]
    · intro k hk1 hk2
      omega
    · exact getN_set_self _ _ _ (by omega)
    · intro k hk
      rw [getN_set_ne _ _ _ _ (by omega)]

/-- C6: inserting `val` at `i` (0 ≤ i ≤ len) into a vector yields length
`len + 1` with `val` at position `i`, the prefix `[0, i)` in place and the
old `[i, len)` shifted right one slot; popping index `i` afterwards
returns `val` and restores exactly the original `len`-element sequence. -/
theorem claim_C6_insert_pop_inverse (v : float_v) (d : List CFloat)
    (val : CFloat) (i : Nat) (hd : v.data = some d) (hdl : d.length = v.alloc)
    (hlen : v.len ≤ v.alloc) (hb : v.alloc ≤ 2 ^ 61) (hi : i ≤ v.len)
    (hgrow : v.len < v.alloc ∨ v.alloc_type = .DYNAMIC) :
    ∃ v1 nd, insert_float_vector (some v) val i true = ⟨some v1, true, none⟩ ∧
      v1.len = v.len + 1 ∧ v1.data = some nd ∧
      getN nd i = val ∧
      (∀ k, k < i → getN nd k = getN d k) ∧
      (∀ k, i ≤ k → k < v.len → getN nd (k + 1) = getN d k) ∧
      ∃ v2 nd2, pop_any_float_vector (some v1) i = ⟨some v2, val, none⟩ ∧
        v2.len = v.len ∧ v2.data = some nd2 ∧
        (∀ k, k < v.len → getN nd2 k = getN d k) := by
  obtain ⟨vd, vlen, valloc, vty⟩ := v
  simp only [float_v.data] at hd
  simp only [float_v.len, float_v.alloc] at hdl hlen hi hb ⊢
  simp only [float_v.len, float_v.alloc, float_v.alloc_type] at hgrow
  subst hd
  have hsm : SIZE_MAX = 2 ^ 64 - 1 := rfl
  have stage1 : ∃ v1 nd,
      insert_float_vector (some ⟨some d, vlen, valloc, vty⟩) val i true =
        ⟨some v1, true, none⟩ ∧
      v1.len = vlen + 1 ∧ v1.data = some nd ∧ vlen + 1 ≤ nd.length ∧
      nd.length ≤ 2 ^ 62 ∧
      getN nd i = val ∧
      (∀ k, k < i → getN nd k = getN d k) ∧
      (∀ k, i ≤ k → k < vlen → getN nd (k + 1) = getN d k) := by
    rcases Nat.lt_or_ge vlen valloc with hroom | hfull
    · obtain ⟨nd, hw1, hw2, hw3, hw4, hw5, hw6⟩ :=
        insert_write_spec ⟨some d, vlen, valloc, vty⟩ d val i rfl
          (show vlen < d.length by omega) (show i ≤ vlen from hi)
          (show vlen ≤ 2 ^ 62 by omega)
      refine ⟨⟨some nd, vlen + 1, valloc, vty⟩, nd, ?_, rfl, rfl,
        (show vlen + 1 ≤ nd.length by omega), (show nd.length ≤ 2 ^ 62 by omega),
        hw3, hw4, hw5⟩
      simp only [insert_float_vector]
      rw [if_neg (by omega), if_neg (by omega), if_neg (by omega)]
      exact hw1
    · have hfeq : vlen = valloc := by omega
      have hty : vty = .DYNAMIC := by
        rcases hgrow with hg | hg
        · omega
        · exact hg
      subst hty
      subst hfeq
      have hG1 : vlen + 1 ≤ growAlloc vlen := growAlloc_ge_succ vlen hb
      have hG2 : growAlloc vlen ≤ 2 ^ 61 + 2 ^ 20 := growAlloc_le vlen hb
      have hnr : ¬ growAlloc vlen > SIZE_MAX / 4 := by omega
      have hlG : (reallocFloats d vlen (growAlloc vlen)).length = growAlloc vlen :=
        length_reallocFloats d vlen (growAlloc vlen) hdl (by omega)
      obtain ⟨nd, hw1, hw2, hw3, hw4, hw5, hw6⟩ :=
        insert_write_spec
          ⟨some (reallocFloats d vlen (growAlloc vlen)), vlen, growAlloc vlen, .DYNAMIC⟩
          (reallocFloats d vlen (growAlloc vlen)) val i rfl
          (show vlen < (reallocFloats d vlen (growAlloc vlen)).length by
            rw [hlG]; omega)
          (show i ≤ vlen from hi)
          (show vlen ≤ 2 ^ 62 by omega)
      refine ⟨⟨some nd, vlen + 1, growAlloc vlen, .DYNAMIC⟩, nd, ?_, rfl, rfl,
        (show vlen + 1 ≤ nd.length by rw [hw2, hlG]; omega),
        (show nd.length ≤ 2 ^ 62 by rw [hw2, hlG]; omega), hw3, ?_, ?_⟩
      · simp only [insert_float_vector]
        rw [if_neg (by omega), if_neg (by omega), if_pos (by omega),
          if_neg (by simp), if_neg hnr]
        simp only [Bool.not_true, Bool.false_eq_true, if_false]
        exact hw1
      · intro k hk
        rw [hw4 k hk,
          getN_reallocFloats d vlen (growAlloc vlen) k hdl (by omega),
          if_pos (by omega)]
      · intro k hk1 hk2
        rw [hw5 k hk1 (show k < vlen from hk2),
          getN_reallocFloats d vlen (growAlloc vlen) k hdl (by omega),
          if_pos (by omega)]
  obtain ⟨v1, nd, h1, h2, h3, h4, h4b, h5, h6, h7⟩ := stage1
  obtain ⟨nd2, hp1, hp2, hp3, hp4, hp5, hp6⟩ :=
    pop_any_spec v1 nd i h3 (by omega) (by omega) (by omega)
  refine ⟨v1, nd, h1, h2, h3, h5, h6, h7,
    { v1 with data := some nd2, len := v1.len - 1 }, nd2, ?_, ?_, rfl, ?_⟩
  · rw [hp1, h5]
  · simp only [float_v.len]
    omega
  · intro k hk
    rcases Nat.lt_or_ge k i with hki | hki
    · rw [hp3 k hki, h6 k hki]
    · rw [hp4 k hki (by omega), h7 k hki hk]

/-- C6 witness: insert `9.0` at index 1 of `[1.0, 2.0, 3.0]` (capacity 4),
then pop index 1. -/
theorem claim_C6_witness :
    ∃ v1 nd, insert_float_vector
        (some ⟨some [.fin 1, .fin 2, .fin 3, .fin 0], 3, 4, .DYNAMIC⟩)
        (.fin 9) 1 true = ⟨some v1, true, none⟩ ∧
      v1.len = 3 + 1 ∧ v1.data = some nd ∧
      getN nd 1 = .fin 9 ∧
      (∀ k, k < 1 → getN nd k = getN [.fin 1, .fin 2, .fin 3, .fin 0] k) ∧
      (∀ k, 1 ≤ k → k < 3 → getN nd (k + 1) = getN [.fin 1, .fin 2, .fin 3, .fin 0] k) ∧
      ∃ v2 nd2, pop_any_float_vector (some v1) 1 = ⟨some v2, .fin 9, none⟩ ∧
        v2.len = 3 ∧ v2.data = some nd2 ∧
        (∀ k, k < 3 → getN nd2 k = getN [.fin 1, .fin 2, .fin 3, .fin 0] k) :=
  claim_C6_insert_pop_inverse ⟨some [.fin 1, .fin 2, .fin 3, .fin 0], 3, 4, .DYNAMIC⟩
    [.fin 1, .fin 2, .fin 3, .fin 0] (.fin 9) 1 rfl rfl (by decide)
    (by norm_num) (by decide) (Or.inl (by decide))

-- ================================================================================
-- Claim C3 (size_t overflow checks on the growth path)

/-- C3 counterexample: the claim says all three of `push_back`,
`push_front`, `insert` check every size computation that could overflow
`size_t` and fail with `ERANGE`.  `push_back` performs no such check: at
`len == alloc == 2^62` (DYNAMIC) the byte count it hands to `realloc`,
`new_alloc * sizeof(float)` in `size_t`, wraps to `2^22` bytes, yet the
call reports success with errno untouched instead of failing with
`ERANGE`.  (`push_front` and `insert` do fail with `ERANGE` there — see
the amended theorem.) -/
theorem claim_C3_counterexample :
    (push_back_float_vector
        (some ⟨some (List.replicate (2 ^ 62) (.fin 0)), 2 ^ 62, 2 ^ 62, .DYNAMIC⟩)
        (.fin 1) true).err = none ∧
    (push_back_float_vector
        (some ⟨some (List.replicate (2 ^ 62) (.fin 0)), 2 ^ 62, 2 ^ 62, .DYNAMIC⟩)
        (.fin 1) true).ret = true ∧
    growAlloc (2 ^ 62) * 4 % U64 = 2 ^ 22 ∧
    growAlloc (2 ^ 62) * 4 = 2 ^ 64 + 2 ^ 22 := by
  refine ⟨?_, ?_, ?_, ?_⟩
  · simp only [push_back_float_vector]
    rw [if_pos (by norm_num), if_neg (by simp)]
    norm_num
  · simp only [push_back_float_vector]
    rw [if_pos (by norm_num), if_neg (by simp)]
    norm_num
  · norm_num [growAlloc, VEC_THRESHOLD, VEC_FIXED_AMOUNT, U64]
  · norm_num [growAlloc, VEC_THRESHOLD, VEC_FIXED_AMOUNT, U64]

/-- C3 (amended): on a capacity-exhausted DYNAMIC vector whose grown
capacity `new_alloc` fails the source's `new_alloc > SIZE_MAX / sizeof(float)`
check, `push_front` and `insert` fail with `ERANGE` leaving the vector
unchanged; `push_back` performs no overflow check at all and can never
fail with `ERANGE` (its size arithmetic simply wraps). -/
theorem claim_C3_amended (v : float_v) (d : List CFloat) (val : CFloat)
    (i : Nat) (allocOk : Bool) (hd : v.data = some d)
    (hty : v.alloc_type = .DYNAMIC) (hfull : v.len = v.alloc)
    (hover : growAlloc v.alloc > SIZE_MAX / 4) (hi : i ≤ v.len)
    (hsz : v.len < SIZE_MAX) :
    push_front_float_vector (some v) val allocOk = ⟨some v, false, some .ERANGE⟩ ∧
    insert_float_vector (some v) val i allocOk = ⟨some v, false, some .ERANGE⟩ ∧
    (∀ vec value ok, (push_back_float_vector vec value ok).err ≠ some .ERANGE) := by
  obtain ⟨vd, vlen, valloc, vty⟩ := v
  simp only [float_v.data] at hd
  simp only [float_v.alloc_type] at hty
  simp only [float_v.len, float_v.alloc] at hfull hover hi hsz
  subst hd hty hfull
  refine ⟨?_, ?_, ?_⟩
  · simp only [push_front_float_vector]
    rw [if_pos (by omega), if_neg (by simp), if_pos hover]
  · simp only [insert_float_vector]
    rw [if_neg (by omega), if_neg (by omega), if_pos (by omega),
      if_neg (by simp), if_pos hover]
  · intro vec value ok
    match vec with
    | none => simp [push_back_float_vector]
    | some w =>
      simp only [push_back_float_vector]
      split
      · simp
      · split
        · split
          · simp
          · split <;> simp
        · simp

/-- C3 witness: a DYNAMIC vector at `len == alloc == 2^62`: `push_front`
and `insert` fail with `ERANGE` and leave it unchanged, while `push_back`
never reports `ERANGE`. -/
theorem claim_C3_witness :
    push_front_float_vector
        (some ⟨some (List.replicate (2 ^ 62) (.fin 0)), 2 ^ 62, 2 ^ 62, .DYNAMIC⟩)
        (.fin 1) true =
      ⟨some ⟨some (List.replicate (2 ^ 62) (.fin 0)), 2 ^ 62, 2 ^ 62, .DYNAMIC⟩,
        false, some .ERANGE⟩ ∧
    insert_float_vector
        (some ⟨some (List.replicate (2 ^ 62) (.fin 0)), 2 ^ 62, 2 ^ 62, .DYNAMIC⟩)
        (.fin 1) 0 true =
      ⟨some ⟨some (List.replicate (2 ^ 62) (.fin 0)), 2 ^ 62, 2 ^ 62, .DYNAMIC⟩,
        false, some .ERANGE⟩ ∧
    (∀ vec value ok, (push_back_float_vector vec value ok).err ≠ some .ERANGE) :=
  claim_C3_amended
    ⟨some (List.replicate (2 ^ 62) (.fin 0)), 2 ^ 62, 2 ^ 62, .DYNAMIC⟩
    (List.replicate (2 ^ 62) (.fin 0)) (.fin 1) 0 true rfl rfl rfl
    (by norm_num [growAlloc, VEC_THRESHOLD, VEC_FIXED_AMOUNT, U64, SIZE_MAX])
    (by norm_num) (by norm_num [SIZE_MAX])

-- ================================================================================
-- Claim C5 (binary search)

/-- Everything ≤ an element lying strictly below the tolerance band
around `value` (finite tolerance) also lies outside the band. -/
theorem bs_out_low (a' a b : CFloat) (t : ℚ) (hle : fle a' a = true)
    (hout : fle (fabs (fsub a b)) (.fin t) = false)
    (hneg : flt (fsub a b) (.fin 0) = true) :
    fle (fabs (fsub a' b)) (.fin t) = false := by
  cases a' <;> cases a <;> cases b <;>
    simp_all [fle, flt, fsub, fabs, isNan]
  rename_i x' x y
  have hx : x' ≤ x := by
    rcases hle with h | h
    · exact le_of_lt h
    · exact le_of_eq h
  have h1 : t < |x - y| := lt_of_le_of_ne hout.1 fun h => hout.2 h.symm
  rw [abs_of_neg (show x - y < 0 by linarith), neg_sub] at h1
  rw [abs_of_neg (show x' - y < 0 by linarith), neg_sub]
  constructor
  · linarith
  · intro h
    linarith

/-- Everything ≥ an element lying strictly above the tolerance band
around `value` (finite tolerance) also lies outside the band. -/
theorem bs_out_high (a' a b : CFloat) (t : ℚ) (hle : fle a a' = true)
    (hout : fle (fabs (fsub a b)) (.fin t) = false)
    (hnneg : flt (fsub a b) (.fin 0) = false)
    (hb : isNan b = false) :
    fle (fabs (fsub a' b)) (.fin t) = false := by
  cases a' <;> cases a <;> cases b <;>
    simp_all [fle, flt, fsub, fabs, isNan]
  rename_i x' x y
  have hx : x ≤ x' := by
    rcases hle with h | h
    · exact le_of_lt h
    · exact le_of_eq h
  have h1 : t < |x - y| := lt_of_le_of_ne hout.1 fun h => hout.2 h.symm
  rw [abs_of_nonneg (show (0:ℚ) ≤ x - y by linarith)] at h1
  rw [abs_of_nonneg (show (0:ℚ) ≤ x' - y by linarith)]
  constructor
  · linarith
  · intro h
    linarith

/-- With tolerance 0 a match means exact equality. -/
theorem withinTol_zero (a b : CFloat)
    (h : fle (fabs (fsub a b)) (.fin 0) = true) : a = b := by
  cases a <;> cases b <;> simp_all [fle, flt, fsub, fabs, isNan]
  rename_i x y
  rcases h with h | h
  · exact absurd h (not_lt.mpr (abs_nonneg (x - y)))
  · linarith

/-- Sorted ascending (in the IEEE `<=` order; this forces all populated
elements to be non-NaN), phrased decidably. -/
def SortedLe (d : List CFloat) (len : Nat) : Prop :=
  ∀ q, q < len → ∀ p, p ≤ q → fle (getN d p) (getN d q) = true

/-- The binary-search loop on a sorted range with finite tolerance: either
no populated element is within tolerance and the sentinel comes back, or
the returned index is populated and within tolerance. -/
theorem bsearchLoop_correct (d : List CFloat) (value : CFloat) (t : ℚ)
    (len : Nat) (hsort : SortedLe d len) (hval : isNan value = false)
    (left right : Nat) (hr : right < len)
    (hinv : ∀ k, k < len →
      fle (fabs (fsub (getN d k) value)) (.fin t) = true → left ≤ k ∧ k ≤ right) :
    (bsearchLoop d value (.fin t) left right = LONG_MAX ∧
      ∀ k, k < len → fle (fabs (fsub (getN d k) value)) (.fin t) = false) ∨
    (bsearchLoop d value (.fin t) left right < len ∧
      fle (fabs (fsub (getN d (bsearchLoop d value (.fin t) left right)) value))
        (.fin t) = true) := by
  rw [bsearchLoop]
  by_cases hlr : left ≤ right
  · rw [dif_pos hlr]
    simp only
    by_cases hmid : fle (fabs (fsub (getN d (left + (right - left) / 2)) value))
        (.fin t) = true
    · rw [if_pos hmid]
      exact Or.inr ⟨by omega, hmid⟩
    · rw [if_neg hmid]
      by_cases hlt : flt (fsub (getN d (left + (right - left) / 2)) value)
          (.fin 0) = true
      · rw [if_pos hlt]
        have hinv2 : ∀ k, k < len →
            fle (fabs (fsub (getN d k) value)) (.fin t) = true →
            left + (right - left) / 2 + 1 ≤ k ∧ k ≤ right := by
          intro k hk hw
          have h1 := hinv k hk hw
          by_cases hkm : left + (right - left) / 2 + 1 ≤ k
          · exact ⟨hkm, h1.2⟩
          · exfalso
            have hle2 : fle (getN d k) (getN d (left + (right - left) / 2)) =
                true := hsort (left + (right - left) / 2) (by omega) k (by omega)
            rw [bs_out_low (getN d k) (getN d (left + (right - left) / 2)) value
              t hle2 (by simpa using hmid) hlt] at hw
            exact absurd hw (by simp)
        exact bsearchLoop_correct d value t len hsort hval
          (left + (right - left) / 2 + 1) right hr hinv2
      · rw [if_neg hlt]
        have hnone : ∀ k, k < len → left + (right - left) / 2 ≤ k →
            fle (fabs (fsub (getN d k) value)) (.fin t) = false := by
          intro k hk hkm
          exact bs_out_high (getN d k) (getN d (left + (right - left) / 2))
            value t (hsort k hk (left + (right - left) / 2) hkm)
            (by simpa using hmid) (by simpa using hlt) hval
        by_cases h0 : left + (right - left) / 2 = 0
        · rw [if_pos h0]
          refine Or.inl ⟨rfl, ?_⟩
          intro k hk
          exact hnone k hk (by omega)
        · rw [if_neg h0]
          have hinv2 : ∀ k, k < len →
              fle (fabs (fsub (getN d k) value)) (.fin t) = true →
              left ≤ k ∧ k ≤ left + (right - left) / 2 - 1 := by
            intro k hk hw
            have h1 := hinv k hk hw
            by_cases hkm : left + (right - left) / 2 ≤ k
            · rw [hnone k hk hkm] at hw
              exact absurd hw (by simp)
            · exact ⟨h1.1, by omega⟩
          exact bsearchLoop_correct d value t len hsort hval
            left (left + (right - left) / 2 - 1) (by omega) hinv2
  · rw [dif_neg hlr]
    refine Or.inl ⟨rfl, ?_⟩
    intro k hk
    by_cases hw : fle (fabs (fsub (getN d k) value)) (.fin t) = true
    · have := hinv k hk hw
      omega
    · simpa using hw
termination_by right + 1 - left
decreasing_by
  all_goals simp_wf
  all_goals omega

/-- C5 counterexample: with target `-inf` and tolerance `+inf` (a
non-negative, non-NaN tolerance, so within the claim's stated scope) on
the sorted vector `[-inf, 5.0]`, element 1 satisfies the match predicate
`|v − target| ≤ tolerance` (it is `+inf ≤ +inf`), yet the search probes
index 0 first, where `(-inf) − (-inf)` is NaN: both the match test and
`diff < 0` are false, the `mid == 0` guard breaks out of the loop, and the
not-found sentinel is returned even though a matching element exists. -/
theorem claim_C5_counterexample :
    (binary_search_float_vector (some ⟨some [.ninf, .fin 5], 2, 2, .DYNAMIC⟩)
        .ninf .pinf false).ret = LONG_MAX ∧
    fle (fabs (fsub (getN [CFloat.ninf, .fin 5] 1) .ninf)) .pinf = true ∧
    SortedLe [CFloat.ninf, .fin 5] 2 ∧
    isNan (.ninf : CFloat) = false ∧
    flt (.pinf : CFloat) (.fin 0) = false ∧
    isNan (.pinf : CFloat) = false := by
  refine ⟨?_, by decide,
    by intro q hq p hp; interval_cases q <;> interval_cases p <;> decide,
    by decide, by decide, by decide⟩
  simp only [binary_search_float_vector]
  rw [if_neg (by omega), if_neg (by decide), if_neg (by decide)]
  simp only [VRes.ret]
  rw [bsearchLoop]
  norm_num
  rw [if_neg (by decide), if_neg (by decide)]

/-- C5 (amended): on a non-empty vector sorted ascending, with a
non-negative FINITE tolerance and a non-NaN target, `binary_search`
(without `sort_first`) leaves the vector unchanged and returns an index
whose stored value `v` satisfies `|v − target| ≤ tolerance` (the code's
own IEEE predicate) whenever at least one populated element satisfies it —
with tolerance 0 the returned element equals the target — and returns the
`LONG_MAX` sentinel when no element is within tolerance.  A NULL vector or
NULL data fails `EINVAL`; an empty vector fails `ENODATA`; a negative
tolerance, or a NaN target or tolerance (on a non-empty vector) fails
`EINVAL`.  (With an infinite tolerance the guarantee can fail — see the
counterexample.) -/
theorem claim_C5_binary_search_amended (v : float_v) (d : List CFloat)
    (value : CFloat) (t : ℚ) (hd : v.data = some d) (hlen0 : v.len ≠ 0)
    (hsort : SortedLe d v.len) (ht : 0 ≤ t) (hval : isNan value = false) :
    (binary_search_float_vector (some v) value (.fin t) false).st = some v ∧
    (binary_search_float_vector (some v) value (.fin t) false).err = none ∧
    ((∃ k, k < v.len ∧ fle (fabs (fsub (getN d k) value)) (.fin t) = true) →
      (binary_search_float_vector (some v) value (.fin t) false).ret < v.len ∧
      fle (fabs (fsub
        (getN d ((binary_search_float_vector (some v) value (.fin t) false).ret))
        value)) (.fin t) = true ∧
      (t = 0 →
        getN d ((binary_search_float_vector (some v) value (.fin t) false).ret) =
          value)) ∧
    ((∀ k, k < v.len → fle (fabs (fsub (getN d k) value)) (.fin t) = false) →
      (binary_search_float_vector (some v) value (.fin t) false).ret = LONG_MAX) ∧
    (∀ val tol sf, binary_search_float_vector none val tol sf =
      ⟨none, LONG_MAX, some .EINVAL⟩) ∧
    (∀ (w : float_v) val tol sf, w.data = none →
      binary_search_float_vector (some w) val tol sf =
        ⟨some w, LONG_MAX, some .EINVAL⟩) ∧
    (∀ (w : float_v) (wd : List CFloat) val tol sf,
      w.data = some wd → w.len = 0 →
      binary_search_float_vector (some w) val tol sf =
        ⟨some w, LONG_MAX, some .ENODATA⟩) ∧
    (∀ (w : float_v) (wd : List CFloat) val tol sf,
      w.data = some wd → w.len ≠ 0 → flt tol (.fin 0) = true →
      binary_search_float_vector (some w) val tol sf =
        ⟨some w, LONG_MAX, some .EINVAL⟩) ∧
    (∀ (w : float_v) (wd : List CFloat) val tol sf,
      w.data = some wd → w.len ≠ 0 → flt tol (.fin 0) = false →
      (isNan val = true ∨ isNan tol = true) →
      binary_search_float_vector (some w) val tol sf =
        ⟨some w, LONG_MAX, some .EINVAL⟩) := by
  have htolnn : flt (.fin t) (.fin 0) = false := by
    simp [flt]
    linarith
  have heval : binary_search_float_vector (some v) value (.fin t) false =
      ⟨some v, bsearchLoop d value (.fin t) 0 (v.len - 1), none⟩ := by
    obtain ⟨vd, vlen, valloc, vty⟩ := v
    simp only [float_v.data] at hd
    simp only [float_v.len] at hlen0 ⊢
    subst hd
    simp only [binary_search_float_vector]
    have hnanneg : ¬ (isNan value = true ∨ isNan (CFloat.fin t) = true) := by
      intro hc
      rcases hc with hc | hc
      · simp [hval] at hc
      · simp [isNan] at hc
    rw [if_neg hlen0, if_neg (by simp [htolnn]), if_neg hnanneg]
    simp
  have hloop := bsearchLoop_correct d value t v.len hsort hval 0 (v.len - 1)
    (by omega) (by intro k hk _; omega)
  refine ⟨by rw [heval], by rw [heval], ?_, ?_, ?_, ?_, ?_, ?_, ?_⟩
  · intro hex
    rcases hloop with ⟨h1, h2⟩ | ⟨h1, h2⟩
    · exfalso
      obtain ⟨k, hk1, hk2⟩ := hex
      rw [h2 k hk1] at hk2
      exact absurd hk2 (by simp)
    · rw [heval]
      refine ⟨h1, h2, ?_⟩
      intro ht0
      subst ht0
      exact withinTol_zero _ _ h2
  · intro hnone
    rcases hloop with ⟨h1, h2⟩ | ⟨h1, h2⟩
    · rw [heval]
      exact h1
    · exfalso
      rw [hnone _ h1] at h2
      exact absurd h2 (by simp)
  · intro val tol sf
    rfl
  · intro w val tol sf hw
    simp [binary_search_float_vector, hw]
  · intro w wd val tol sf hw hw0
    simp [binary_search_float_vector, hw, hw0]
  · intro w wd val tol sf hw hw0 hneg
    simp only [binary_search_float_vector, hw]
    rw [if_neg hw0, if_pos hneg]
  · intro w wd val tol sf hw hw0 hneg hnan
    simp only [binary_search_float_vector, hw]
    rw [if_neg hw0, if_neg (by simp [hneg]), if_pos (by simpa using hnan)]

/-- C5 witness: the amended theorem on the sorted vector `[1,3,5,7,9]`
with target `7` and tolerance `0`. -/
theorem claim_C5_witness :
    (binary_search_float_vector
        (some ⟨some [.fin 1, .fin 3, .fin 5, .fin 7, .fin 9], 5, 5, .DYNAMIC⟩)
        (.fin 7) (.fin 0) false).st =
      some ⟨some [.fin 1, .fin 3, .fin 5, .fin 7, .fin 9], 5, 5, .DYNAMIC⟩ ∧
    (binary_search_float_vector
        (some ⟨some [.fin 1, .fin 3, .fin 5, .fin 7, .fin 9], 5, 5, .DYNAMIC⟩)
        (.fin 7) (.fin 0) false).err = none ∧
    ((∃ k, k < 5 ∧ fle (fabs (fsub (getN [.fin 1, .fin 3, .fin 5, .fin 7, .fin 9] k)
        (.fin 7))) (.fin 0) = true) →
      (binary_search_float_vector
          (some ⟨some [.fin 1, .fin 3, .fin 5, .fin 7, .fin 9], 5, 5, .DYNAMIC⟩)
          (.fin 7) (.fin 0) false).ret < 5 ∧
      fle (fabs (fsub
        (getN [.fin 1, .fin 3, .fin 5, .fin 7, .fin 9]
          ((binary_search_float_vector
            (some ⟨some [.fin 1, .fin 3, .fin 5, .fin 7, .fin 9], 5, 5, .DYNAMIC⟩)
            (.fin 7) (.fin 0) false).ret)) (.fin 7))) (.fin 0) = true ∧
      ((0 : ℚ) = 0 →
        getN [.fin 1, .fin 3, .fin 5, .fin 7, .fin 9]
          ((binary_search_float_vector
            (some ⟨some [.fin 1, .fin 3, .fin 5, .fin 7, .fin 9], 5, 5, .DYNAMIC⟩)
            (.fin 7) (.fin 0) false).ret) = .fin 7)) ∧
    ((∀ k, k < 5 → fle (fabs (fsub (getN [.fin 1, .fin 3, .fin 5, .fin 7, .fin 9] k)
        (.fin 7))) (.fin 0) = false) →
      (binary_search_float_vector
          (some ⟨some [.fin 1, .fin 3, .fin 5, .fin 7, .fin 9], 5, 5, .DYNAMIC⟩)
          (.fin 7) (.fin 0) false).ret = LONG_MAX) ∧
    (∀ val tol sf, binary_search_float_vector none val tol sf =
      ⟨none, LONG_MAX, some .EINVAL⟩) ∧
    (∀ (w : float_v) val tol sf, w.data = none →
      binary_search_float_vector (some w) val tol sf =
        ⟨some w, LONG_MAX, some .EINVAL⟩) ∧
    (∀ (w : float_v) (wd : List CFloat) val tol sf,
      w.data = some wd → w.len = 0 →
      binary_search_float_vector (some w) val tol sf =
        ⟨some w, LONG_MAX, some .ENODATA⟩) ∧
    (∀ (w : float_v) (wd : List CFloat) val tol sf,
      w.data = some wd → w.len ≠ 0 → flt tol (.fin 0) = true →
      binary_search_float_vector (some w) val tol sf =
        ⟨some w, LONG_MAX, some .EINVAL⟩) ∧
    (∀ (w : float_v) (wd : List CFloat) val tol sf,
      w.data = some wd → w.len ≠ 0 → flt tol (.fin 0) = false →
      (isNan val = true ∨ isNan tol = true) →
      binary_search_float_vector (some w) val tol sf =
        ⟨some w, LONG_MAX, some .EINVAL⟩) :=
  claim_C5_binary_search_amended
    ⟨some [.fin 1, .fin 3, .fin 5, .fin 7, .fin 9], 5, 5, .DYNAMIC⟩
    [.fin 1, .fin 3, .fin 5, .fin 7, .fin 9] (.fin 7) 0 rfl (by decide)
    (by intro q hq p hp; interval_cases q <;> interval_cases p <;> decide)
    (le_refl 0) rfl

-- ================================================================================
-- Claim C1 (sort): direction-parametric order lemmas

/-- The non-strict companion of `cmpLt`: the claim's "≤" in the sort
direction. -/
def cmpLe (dir : iter_dir) (a b : CFloat) : Bool :=
  match dir with
  | .FORWARD => fle a b
  | .REVERSE => fle b a

theorem cmpLt_isNan_left {dir : iter_dir} {a b : CFloat}
    (h : cmpLt dir a b = true) : isNan a = false := by
  cases dir
  · exact flt_isNan_left h
  · exact flt_isNan_right h

theorem cmpLt_isNan_right {dir : iter_dir} {a b : CFloat}
    (h : cmpLt dir a b = true) : isNan b = false := by
  cases dir
  · exact flt_isNan_right h
  · exact flt_isNan_left h

theorem cmpLe_of_cmpLt {dir : iter_dir} {a b : CFloat}
    (h : cmpLt dir a b = true) : cmpLe dir a b = true := by
  cases dir
  · exact fle_of_flt h
  · exact fle_of_flt h

theorem cmpLe_refl {dir : iter_dir} {a : CFloat} (h : isNan a = false) :
    cmpLe dir a a = true := by
  cases dir
  · exact fle_refl h
  · exact fle_refl h

theorem cmpLe_of_not_cmpLt {dir : iter_dir} {a b : CFloat}
    (ha : isNan a = false) (hb : isNan b = false)
    (h : cmpLt dir a b = false) : cmpLe dir b a = true := by
  cases dir
  · exact fle_of_not_flt ha hb h
  · exact fle_of_not_flt hb ha h

theorem cmpLe_trans {dir : iter_dir} {a b c : CFloat}
    (h1 : cmpLe dir a b = true) (h2 : cmpLe dir b c = true) :
    cmpLe dir a c = true := by
  cases dir
  · exact fle_trans h1 h2
  · exact fle_trans h2 h1

theorem cmpLe_antisymm {dir : iter_dir} {a b : CFloat}
    (h1 : cmpLe dir a b = true) (h2 : cmpLe dir b a = true) : a = b := by
  cases dir
  · exact fle_antisymm h1 h2
  · exact (fle_antisymm h1 h2).symm

theorem cmpLe_isNan_left {dir : iter_dir} {a b : CFloat}
    (h : cmpLe dir a b = true) : isNan a = false := by
  cases dir
  · exact fle_isNan_left h
  · exact fle_isNan_right h

theorem cmpLe_isNan_right {dir : iter_dir} {a b : CFloat}
    (h : cmpLe dir a b = true) : isNan b = false := by
  cases dir
  · exact fle_isNan_right h
  · exact fle_isNan_left h

-- Pointwise characterisation of the Int-indexed primitives.

theorem length_setI (d : List CFloat) (i : Int) (x : CFloat) :
    (setI d i x).length = d.length := List.length_set d i.toNat x

theorem getI_setI (d : List CFloat) (i k : Int) (x : CFloat) (hi : 0 ≤ i)
    (hk : 0 ≤ k) :
    getI (setI d i x) k =
      if i = k ∧ i < (d.length : Int) then x else getI d k := by
  rw [getI, setI, getN_set]
  by_cases h : i = k ∧ i < (d.length : Int)
  · rw [if_pos h, if_pos ⟨by omega, by omega⟩]
  · rw [if_neg h, if_neg (by omega)]
    rfl

theorem length_swapI (d : List CFloat) (a b : Int) :
    (swapI d a b).length = d.length := by
  rw [swapI, swapN, List.length_set, List.length_set]

theorem getI_swapI (d : List CFloat) (a b k : Int) (ha : 0 ≤ a)
    (hb : 0 ≤ b) (hk : 0 ≤ k) (halen : a < (d.length : Int))
    (hblen : b < (d.length : Int)) :
    getI (swapI d a b) k =
      if k = b then getI d a
      else if k = a then getI d b
      else getI d k := by
  rw [swapI, swapN, getI, getN_set, getN_set]
  by_cases hkb : k = b
  · rw [if_pos hkb, if_pos ⟨by omega, by simp [List.length_set]; omega⟩]
    rfl
  · rw [if_neg hkb, if_neg (by simp [List.length_set]; omega)]
    by_cases hka : k = a
    · rw [if_pos hka, if_pos ⟨by omega, by omega⟩]
      rfl
    · rw [if_neg hka, if_neg (by omega)]
      rfl

-- Permutation facts for swaps and right-rotations of a segment.

theorem set_getN_self (d : List CFloat) (i : Nat) (h : i < d.length) :
    d.set i (getN d i) = d := by
  apply List.ext_getElem
  · simp
  · intro n h1 h2
    rw [List.getElem_set]
    split
    · rename_i he
      subst he
      rw [getN_lt_length d i h]
    · rfl

theorem count_set_eq (d : List CFloat) (i : Nat) (x y : CFloat)
    (h : i < d.length) :
    (d.set i x).count y + (if getN d i = y then 1 else 0) =
      d.count y + (if x = y then 1 else 0) := by
  rw [List.set_eq_take_cons_drop x h]
  conv_rhs => rw [show d = d.take i ++ getN d i :: d.drop (i + 1) by
    rw [← List.set_eq_take_cons_drop (getN d i) h, set_getN_self d i h]]
  simp only [List.count_append, List.count_cons]
  by_cases h1 : getN d i = y <;> by_cases h2 : x = y <;>
    simp [h1, h2] <;> omega

theorem swapN_perm (d : List CFloat) (a b : Nat) (ha : a < d.length)
    (hb : b < d.length) : List.Perm (swapN d a b) d := by
  rw [List.perm_iff_count]
  intro y
  have hblen : b < (d.set a (getN d b)).length := by
    simpa using hb
  have h1 := count_set_eq d a (getN d b) y ha
  have h2 := count_set_eq (d.set a (getN d b)) b (getN d a) y hblen
  have h3 : getN (d.set a (getN d b)) b = getN d b := by
    rw [getN_set]
    split <;> simp_all
  rw [h3] at h2
  rw [swapN]
  omega

theorem swapI_perm (d : List CFloat) (a b : Int) (ha : 0 ≤ a) (hb : 0 ≤ b)
    (halen : a < (d.length : Int)) (hblen : b < (d.length : Int)) :
    List.Perm (swapI d a b) d := by
  rw [swapI]
  exact swapN_perm d a.toNat b.toNat (by omega) (by omega)

/-- A list that pointwise equals `l` with the element at `q` moved to
position `p` (the segment `[p, q)` shifted one right) is a permutation
of `l`. -/
theorem perm_of_rotate_desc (l l' : List CFloat) (p q : Nat)
    (hlen : l'.length = l.length) (hq : q < l.length) (hpq : p ≤ q)
    (hpre : ∀ k, k < p → getN l' k = getN l k)
    (hset : getN l' p = getN l q)
    (hshift : ∀ k, p ≤ k → k < q → getN l' (k + 1) = getN l k)
    (hsuf : ∀ k, q < k → k < l.length → getN l' k = getN l k) :
    List.Perm l' l := by
  have hform : l' = l.take p ++ getN l q :: ((l.drop p).take (q - p) ++ l.drop (q + 1)) := by
    apply List.ext_getElem
    · simp only [hlen, List.length_append, List.length_take, List.length_cons,
        List.length_drop]
      omega
    · intro n h1 h2
      have hgoal : getN l' n =
          getN (l.take p ++ getN l q :: ((l.drop p).take (q - p) ++ l.drop (q + 1))) n := by
        rw [getN_append]
        have htp : (l.take p).length = p := by
          rw [List.length_take]
          omega
        rw [htp]
        by_cases hn1 : n < p
        · rw [if_pos hn1, getN_take, if_pos hn1]
          exact hpre n hn1
        · rw [if_neg hn1]
          by_cases hn2 : n = p
          · subst hn2
            simp only [Nat.sub_self]
            rw [show getN (getN l q :: ((l.drop n).take (q - n) ++ l.drop (q + 1))) 0 =
              getN l q from rfl]
            exact hset
          · have hn3 : p < n := by omega
            have hcons : getN (getN l q :: ((l.drop p).take (q - p) ++ l.drop (q + 1)))
                (n - p) = getN ((l.drop p).take (q - p) ++ l.drop (q + 1)) (n - p - 1) := by
              have : n - p = (n - p - 1) + 1 := by omega
              rw [this]
              rfl
            rw [hcons, getN_append]
            have htp2 : ((l.drop p).take (q - p)).length = q - p := by
              rw [List.length_take, List.length_drop]
              omega
            rw [htp2]
            by_cases hn4 : n - p - 1 < q - p
            · rw [if_pos hn4, getN_take, if_pos hn4, getN_drop]
              have hx := hshift (n - 1) (by omega) (by omega)
              have he1 : n - 1 + 1 = n := by omega
              rw [he1] at hx
              rw [hx]
              congr 1
              omega
            · rw [if_neg hn4, getN_drop]
              have hx := hsuf (q + 1 + (n - p - 1 - (q - p))) (by omega) (by
                simp only [hlen, List.length_append, List.length_take,
                  List.length_cons, List.length_drop] at h1
                omega)
              rw [← hx]
              congr 1
              omega
      have hlt : n < l'.length := h1
      rw [getN_lt_length _ _ hlt] at hgoal
      rw [getN_lt_length _ _ h2] at hgoal
      exact hgoal
  rw [hform]
  have hperm1 : List.Perm (getN l q :: ((l.drop p).take (q - p) ++ l.drop (q + 1)))
      ((l.drop p).take (q - p) ++ getN l q :: l.drop (q + 1)) := List.perm_middle.symm
  have hd : l = l.take p ++ ((l.drop p).take (q - p) ++ getN l q :: l.drop (q + 1)) := by
    conv_lhs => rw [← List.take_append_drop p l]
    congr 1
    conv_lhs => rw [← List.take_append_drop (q - p) (l.drop p)]
    congr 1
    rw [List.drop_drop]
    have he : p + (q - p) = q := by omega
    rw [he]
    rw [List.drop_eq_getElem_cons hq]
    congr 1
    rw [getN_lt_length l q hq]
  conv_rhs => rw [hd]
  exact (hperm1.append_left (l.take p))

/-- Segment predicates for the sort proofs. -/
def NoNanSeg (d : List CFloat) (low high : Int) : Prop :=
  ∀ k : Int, low ≤ k → k ≤ high → isNan (getI d k) = false

def SortedSeg (dir : iter_dir) (d : List CFloat) (low high : Int) : Prop :=
  ∀ p q : Int, low ≤ p → p ≤ q → q ≤ high →
    cmpLe dir (getI d p) (getI d q) = true

/-- Full characterisation of the inner shifting loop of the insertion
sort: positions `≤ j' + 1` and `> j + 1` are untouched, positions
`[j' + 2, j + 1]` hold the old `[j' + 1, j]` shifted one right, every
shifted element compared `cmpLt`-greater than `key`, and the loop stopped
either below `low` or at an element not `cmpLt`-greater than `key`. -/
theorem insertion_inner_spec (d : List CFloat) (low : Int) (key : CFloat)
    (j : Int) (dir : iter_dir) (hlow : 0 ≤ low) (hj : low - 1 ≤ j)
    (hjlen : j + 1 < (d.length : Int)) :
    low - 1 ≤ (_insertion_inner d low key j dir).2 ∧
    (_insertion_inner d low key j dir).2 ≤ j ∧
    (_insertion_inner d low key j dir).1.length = d.length ∧
    (∀ k : Int, 0 ≤ k → k ≤ (_insertion_inner d low key j dir).2 + 1 →
      getI (_insertion_inner d low key j dir).1 k = getI d k) ∧
    (∀ k : Int, j + 1 < k →
      getI (_insertion_inner d low key j dir).1 k = getI d k) ∧
    (∀ k : Int, (_insertion_inner d low key j dir).2 + 1 ≤ k → k ≤ j →
      getI (_insertion_inner d low key j dir).1 (k + 1) = getI d k) ∧
    (∀ k : Int, (_insertion_inner d low key j dir).2 < k → k ≤ j →
      cmpLt dir key (getI d k) = true) ∧
    ((_insertion_inner d low key j dir).2 < low ∨
      cmpLt dir key (getI d (_insertion_inner d low key j dir).2) = false) := by
  rw [_insertion_inner]
  by_cases h : low ≤ j ∧ cmpLt dir key (getI d j) = true
  · rw [dif_pos h]
    have hlen1 : (setI d (j + 1) (getI d j)).length = d.length :=
      length_setI d (j + 1) (getI d j)
    have ih := insertion_inner_spec (setI d (j + 1) (getI d j)) low key (j - 1)
      dir hlow (by omega) (by rw [hlen1]; omega)
    obtain ⟨ih1, ih2, ih3, ih4, ih5, ih6, ih7, ih8⟩ := ih
    have hset : ∀ k : Int, 0 ≤ k → k ≠ j + 1 →
        getI (setI d (j + 1) (getI d j)) k = getI d k := by
      intro k hk hne
      rw [getI_setI d (j + 1) k (getI d j) (by omega) hk, if_neg (by omega)]
    have hsetj : getI (setI d (j + 1) (getI d j)) (j + 1) = getI d j := by
      rw [getI_setI d (j + 1) (j + 1) (getI d j) (by omega) (by omega),
        if_pos ⟨rfl, by omega⟩]
    refine ⟨by omega, by omega, by rw [ih3, hlen1], ?_, ?_, ?_, ?_, ?_⟩
    · intro k hk1 hk2
      rw [ih4 k hk1 hk2, hset k hk1 (by omega)]
    · intro k hk
      rw [ih5 k (by omega), hset k (by omega) (by omega)]
    · intro k hk1 hk2
      by_cases hkj : k = j
      · subst hkj
        rw [ih5 (k + 1) (by omega), hsetj]
      · rw [ih6 k hk1 (by omega), hset k (by omega) (by omega)]
    · intro k hk1 hk2
      by_cases hkj : k = j
      · subst hkj
        exact h.2
      · rw [← hset k (by omega) (by omega)]
        exact ih7 k hk1 (by omega)
    · rcases ih8 with h7 | h7
      · exact Or.inl h7
      · by_cases hneg : (_insertion_inner (setI d (j + 1) (getI d j)) low key
            (j - 1) dir).2 < low
        · exact Or.inl hneg
        · refine Or.inr ?_
          rw [← hset _ (by omega) (by omega)]
          exact h7
  · rw [dif_neg h]
    refine ⟨by omega, by omega, rfl, ?_, ?_, ?_, ?_, ?_⟩
    · intro k _ _
      rfl
    · intro k _
      rfl
    · intro k hk1 hk2
      omega
    · intro k hk1 hk2
      omega
    · by_cases hl : low ≤ j
      · by_cases hc : cmpLt dir key (getI d j) = true
        · exact absurd ⟨hl, hc⟩ h
        · exact Or.inr (by simpa using hc)
      · exact Or.inl (by omega)
termination_by (j + 1 - low).toNat
decreasing_by
  simp_wf
  omega

/-- `getI` at a `Nat`-cast index is `getN`. -/
theorem getI_natCast (d : List CFloat) (k : Nat) : getI d (k : Int) = getN d k := rfl

theorem getI_natCast_add_one (d : List CFloat) (k : Nat) :
    getI d ((k : Int) + 1) = getN d (k + 1) := rfl

/-- Every value in `r`'s segment `[low, high]` occurs somewhere in `d`'s
segment `[low, high]` (how the sort routines rearrange a range). -/
def SegFrom (r d : List CFloat) (low high : Int) : Prop :=
  ∀ k : Int, low ≤ k → k ≤ high →
    ∃ m : Int, low ≤ m ∧ m ≤ high ∧ getI r k = getI d m

theorem segFrom_refl (d : List CFloat) (low high : Int) : SegFrom d d low high :=
  fun k h1 h2 => ⟨k, h1, h2, rfl⟩

theorem segFrom_trans {r e d : List CFloat} {low high : Int}
    (h1 : SegFrom r e low high) (h2 : SegFrom e d low high) :
    SegFrom r d low high := by
  intro k hk1 hk2
  obtain ⟨m, hm1, hm2, he⟩ := h1 k hk1 hk2
  obtain ⟨m2, hm21, hm22, he2⟩ := h2 m hm1 hm2
  exact ⟨m2, hm21, hm22, he.trans he2⟩

theorem noNanSeg_of_segFrom {r d : List CFloat} {low high : Int}
    (h : SegFrom r d low high) (hn : NoNanSeg d low high) :
    NoNanSeg r low high := by
  intro k hk1 hk2
  obtain ⟨m, hm1, hm2, he⟩ := h k hk1 hk2
  rw [he]
  exact hn m hm1 hm2

theorem insertion_outer_step (d : List CFloat) (low high i : Int)
    (dir : iter_dir) (h : i ≤ high) :
    _insertion_outer d low high i dir =
      _insertion_outer
        (setI (_insertion_inner d low (getI d i) (i - 1) dir).1
          ((_insertion_inner d low (getI d i) (i - 1) dir).2 + 1) (getI d i))
        low high (i + 1) dir := by
  rw [_insertion_outer]
  rw [dif_pos h]

/-- Full characterisation of the outer insertion-sort loop: length
preserved, positions outside `[low, high]` untouched, whole-buffer
permutation, segment membership, and — when the prefix `[low, i-1]` is
sorted and the remaining range holds no NaN — the whole range `[low, high]`
is sorted on exit. -/
theorem insertion_outer_spec (d : List CFloat) (low high i : Int)
    (dir : iter_dir) (hlow : 0 ≤ low) (hi : low ≤ i)
    (hhigh : high < (d.length : Int)) :
    (_insertion_outer d low high i dir).length = d.length ∧
    (∀ k : Int, (0 ≤ k ∧ k < low) ∨ high < k →
      getI (_insertion_outer d low high i dir) k = getI d k) ∧
    List.Perm (_insertion_outer d low high i dir) d ∧
    SegFrom (_insertion_outer d low high i dir) d low high ∧
    (SortedSeg dir d low (i - 1) → NoNanSeg d i high →
      SortedSeg dir (_insertion_outer d low high i dir) low high) := by
  by_cases h : i ≤ high
  · have hin := insertion_inner_spec d low (getI d i) (i - 1) dir hlow
      (by omega) (by omega)
    set p := _insertion_inner d low (getI d i) (i - 1) dir with hpdef
    obtain ⟨hin1, hin2, hin3, hin4, hin5, hin6, hin7, hin8⟩ := hin
    set d1 := setI p.1 (p.2 + 1) (getI d i) with hd1def
    have hstep : _insertion_outer d low high i dir =
        _insertion_outer d1 low high (i + 1) dir := by
      rw [hd1def, hpdef]
      exact insertion_outer_step d low high i dir h
    have hlen1 : d1.length = d.length := by
      rw [hd1def, length_setI, hin3]
    have hd1a : ∀ k : Int, 0 ≤ k → k ≤ p.2 → getI d1 k = getI d k := by
      intro k hk1 hk2
      rw [hd1def, getI_setI p.1 (p.2 + 1) k _ (by omega) hk1,
        if_neg (by omega), hin4 k hk1 (by omega)]
    have hd1b : getI d1 (p.2 + 1) = getI d i := by
      rw [hd1def, getI_setI p.1 (p.2 + 1) (p.2 + 1) _ (by omega) (by omega),
        if_pos ⟨rfl, by rw [hin3]; omega⟩]
    have hd1c : ∀ k : Int, p.2 + 1 ≤ k → k ≤ i - 1 →
        getI d1 (k + 1) = getI d k := by
      intro k hk1 hk2
      rw [hd1def, getI_setI p.1 (p.2 + 1) (k + 1) _ (by omega) (by omega),
        if_neg (by omega), hin6 k hk1 hk2]
    have hd1d : ∀ k : Int, i < k → getI d1 k = getI d k := by
      intro k hk
      rw [hd1def, getI_setI p.1 (p.2 + 1) k _ (by omega) (by omega),
        if_neg (by omega), hin5 k (by omega)]
    have hperm1 : List.Perm d1 d := by
      apply perm_of_rotate_desc d d1 (p.2 + 1).toNat i.toNat hlen1
        (by omega) (by omega)
      · intro k hk
        have h0 := hd1a (k : Int) (by omega) (by omega)
        rw [getI_natCast, getI_natCast] at h0
        exact h0
      · have h0 : getN d1 (p.2 + 1).toNat = getI d1 (p.2 + 1) := rfl
        have h1 : getN d i.toNat = getI d i := rfl
        rw [h0, h1, hd1b]
      · intro k hk1 hk2
        have h0 := hd1c (k : Int) (by omega) (by omega)
        rw [getI_natCast_add_one, getI_natCast] at h0
        exact h0
      · intro k hk1 hk2
        have h0 := hd1d (k : Int) (by omega)
        rw [getI_natCast, getI_natCast] at h0
        exact h0
    have ih := insertion_outer_spec d1 low high (i + 1) dir hlow (by omega)
      (by rw [hlen1]; exact hhigh)
    obtain ⟨ih1, ih2, ih3, ih4, ih5⟩ := ih
    rw [hstep]
    refine ⟨ih1.trans hlen1, ?_, ih3.trans hperm1, ?_, ?_⟩
    · intro k hk
      rw [ih2 k hk]
      rcases hk with ⟨hk0, hkl⟩ | hkh
      · exact hd1a k hk0 (by omega)
      · exact hd1d k (by omega)
    · refine segFrom_trans ih4 ?_
      intro k hk1 hk2
      by_cases hk3 : k ≤ p.2
      · exact ⟨k, hk1, hk2, hd1a k (by omega) hk3⟩
      · by_cases hk4 : k = p.2 + 1
        · exact ⟨i, by omega, by omega, by rw [hk4, hd1b]⟩
        · by_cases hk5 : k ≤ i
          · refine ⟨k - 1, by omega, by omega, ?_⟩
            have h0 := hd1c (k - 1) (by omega) (by omega)
            rw [show k - 1 + 1 = k by ring] at h0
            exact h0
          · exact ⟨k, hk1, hk2, hd1d k (by omega)⟩
    · intro hs hn
      have hkeyNan : isNan (getI d i) = false := hn i (le_refl i) (by omega)
      have holdle : ∀ m : Int, low ≤ m → m ≤ p.2 →
          cmpLe dir (getI d m) (getI d i) = true := by
        intro m hm1 hm2
        rcases hin8 with hcase | hcase
        · omega
        · have hp2nan : isNan (getI d p.2) = false :=
            cmpLe_isNan_left (hs p.2 p.2 (by omega) (le_refl _) (by omega))
          have hple : cmpLe dir (getI d p.2) (getI d i) = true :=
            cmpLe_of_not_cmpLt hkeyNan hp2nan hcase
          exact cmpLe_trans (hs m p.2 hm1 hm2 (by omega)) hple
      have hkeylt : ∀ m : Int, p.2 + 1 ≤ m → m ≤ i - 1 →
          cmpLt dir (getI d i) (getI d m) = true := by
        intro m hm1 hm2
        exact hin7 m (by omega) hm2
      have hs1 : SortedSeg dir d1 low i := by
        have hvalA : ∀ m : Int, low ≤ m → m ≤ i →
            (m ≤ p.2 ∧ getI d1 m = getI d m) ∨
            (m = p.2 + 1 ∧ getI d1 m = getI d i) ∨
            (p.2 + 2 ≤ m ∧ getI d1 m = getI d (m - 1)) := by
          intro m hm1 hm2
          by_cases h1 : m ≤ p.2
          · exact Or.inl ⟨h1, hd1a m (by omega) h1⟩
          · by_cases h2 : m = p.2 + 1
            · exact Or.inr (Or.inl ⟨h2, by rw [h2, hd1b]⟩)
            · refine Or.inr (Or.inr ⟨by omega, ?_⟩)
              have h0 := hd1c (m - 1) (by omega) (by omega)
              rw [show m - 1 + 1 = m by ring] at h0
              exact h0
        intro a b ha hab hb
        rcases hvalA a ha (by omega) with ⟨ha1, ha2⟩ | ⟨ha1, ha2⟩ | ⟨ha1, ha2⟩ <;>
          rcases hvalA b (by omega) hb with ⟨hb1, hb2⟩ | ⟨hb1, hb2⟩ | ⟨hb1, hb2⟩
        · rw [ha2, hb2]
          exact hs a b ha hab (by omega)
        · rw [ha2, hb2]
          exact holdle a ha ha1
        · rw [ha2, hb2]
          exact cmpLe_trans (holdle a ha ha1)
            (cmpLe_of_cmpLt (hkeylt (b - 1) (by omega) (by omega)))
        · omega
        · rw [ha2, hb2]
          exact cmpLe_refl hkeyNan
        · rw [ha2, hb2]
          exact cmpLe_of_cmpLt (hkeylt (b - 1) (by omega) (by omega))
        · omega
        · omega
        · rw [ha2, hb2]
          exact hs (a - 1) (b - 1) (by omega) (by omega) (by omega)
      have hn1 : NoNanSeg d1 (i + 1) high := by
        intro k hk1 hk2
        rw [hd1d k (by omega)]
        exact hn k (by omega) hk2
      exact ih5 (fun a b ha hab hb => hs1 a b ha hab (by omega)) hn1
  · have hexit : _insertion_outer d low high i dir = d := by
      rw [_insertion_outer, dif_neg h]
    rw [hexit]
    refine ⟨rfl, fun k _ => rfl, List.Perm.refl d, segFrom_refl d low high, ?_⟩
    intro hs hn a b ha hab hb
    exact hs a b ha hab (by omega)
termination_by (high + 1 - i).toNat
decreasing_by
  simp_wf
  omega

/-- `_insertion_sort` sorts `[low, high]` when the range holds no NaN;
it preserves the length, everything outside the range, and the buffer's
multiset of elements. -/
theorem insertion_sort_spec (d : List CFloat) (low high : Int)
    (dir : iter_dir) (hlow : 0 ≤ low) (hlh : low ≤ high)
    (hhigh : high < (d.length : Int)) :
    (_insertion_sort d low high dir).length = d.length ∧
    (∀ k : Int, (0 ≤ k ∧ k < low) ∨ high < k →
      getI (_insertion_sort d low high dir) k = getI d k) ∧
    List.Perm (_insertion_sort d low high dir) d ∧
    SegFrom (_insertion_sort d low high dir) d low high ∧
    (NoNanSeg d low high →
      SortedSeg dir (_insertion_sort d low high dir) low high) := by
  have h := insertion_outer_spec d low high (low + 1) dir hlow (by omega) hhigh
  obtain ⟨h1, h2, h3, h4, h5⟩ := h
  rw [_insertion_sort]
  refine ⟨h1, h2, h3, h4, ?_⟩
  intro hn
  refine h5 ?_ ?_
  · intro a b ha hab hb
    have hab2 : a = b := by omega
    subst hab2
    exact cmpLe_refl (hn a ha (by omega))
  · intro k hk1 hk2
    exact hn k (by omega) hk2

/-- `_median_of_three` returns one of its three argument indices. -/
theorem median_of_three_mem (d : List CFloat) (ia ib ic : Int)
    (dir : iter_dir) :
    _median_of_three d ia ib ic dir = ia ∨
    _median_of_three d ia ib ic dir = ib ∨
    _median_of_three d ia ib ic dir = ic := by
  rw [_median_of_three]
  split_ifs <;> tauto

theorem partition_loop_step_lt (d : List CFloat) (pivot : CFloat)
    (i j high : Int) (dir : iter_dir) (hj : j ≤ high - 1)
    (hc : cmpLt dir (getI d j) pivot = true) :
    _partition_loop d pivot i j high dir =
      _partition_loop (swapI d (i + 1) j) pivot (i + 1) (j + 1) high dir := by
  rw [_partition_loop]
  rw [dif_pos hj, if_pos hc]

theorem partition_loop_step_ge (d : List CFloat) (pivot : CFloat)
    (i j high : Int) (dir : iter_dir) (hj : j ≤ high - 1)
    (hc : cmpLt dir (getI d j) pivot = false) :
    _partition_loop d pivot i j high dir =
      _partition_loop d pivot i (j + 1) high dir := by
  rw [_partition_loop]
  rw [dif_pos hj, if_neg (by rw [hc]; exact Bool.false_ne_true)]

/-- Full characterisation of the partition scan loop: on exit the scanned
range splits at the returned boundary into a `cmpLt`-than-pivot region
`[low, i]` and a not-`cmpLt` region `(i, high - 1]`; length, positions
outside `[low, high - 1]`, and the multiset are preserved. -/
theorem partition_loop_spec (d : List CFloat) (pivot : CFloat)
    (i j high low : Int) (dir : iter_dir)
    (hlow : 0 ≤ low) (hi : low - 1 ≤ i) (hij : i < j) (hjl : low ≤ j)
    (hhigh : high < (d.length : Int))
    (Hlt : ∀ k : Int, low ≤ k → k ≤ i → cmpLt dir (getI d k) pivot = true)
    (Hge : ∀ k : Int, i < k → k < j → cmpLt dir (getI d k) pivot = false) :
    (_partition_loop d pivot i j high dir).1.length = d.length ∧
    List.Perm (_partition_loop d pivot i j high dir).1 d ∧
    (∀ k : Int, (0 ≤ k ∧ k < low) ∨ high ≤ k →
      getI (_partition_loop d pivot i j high dir).1 k = getI d k) ∧
    SegFrom (_partition_loop d pivot i j high dir).1 d low high ∧
    (∀ k : Int, low ≤ k → k ≤ (_partition_loop d pivot i j high dir).2 →
      cmpLt dir (getI (_partition_loop d pivot i j high dir).1 k) pivot = true) ∧
    (∀ k : Int, (_partition_loop d pivot i j high dir).2 < k → k ≤ high - 1 →
      cmpLt dir (getI (_partition_loop d pivot i j high dir).1 k) pivot = false) := by
  by_cases hj : j ≤ high - 1
  · by_cases hc : cmpLt dir (getI d j) pivot = true
    · have hstep := partition_loop_step_lt d pivot i j high dir hj hc
      have hsw : ∀ k : Int, 0 ≤ k →
          getI (swapI d (i + 1) j) k =
            if k = j then getI d (i + 1)
            else if k = i + 1 then getI d j
            else getI d k :=
        fun k hk => getI_swapI d (i + 1) j k (by omega) (by omega) hk
          (by omega) (by omega)
      have hlen1 : (swapI d (i + 1) j).length = d.length := length_swapI d _ _
      have newHlt : ∀ k : Int, low ≤ k → k ≤ i + 1 →
          cmpLt dir (getI (swapI d (i + 1) j) k) pivot = true := by
        intro k hk1 hk2
        rw [hsw k (by omega)]
        by_cases hkj : k = j
        · rw [if_pos hkj]
          have hik : i + 1 = j := by omega
          rw [← hik] at hc
          exact hc
        · rw [if_neg hkj]
          by_cases hki : k = i + 1
          · rw [if_pos hki]
            exact hc
          · rw [if_neg hki]
            exact Hlt k hk1 (by omega)
      have newHge : ∀ k : Int, i + 1 < k → k < j + 1 →
          cmpLt dir (getI (swapI d (i + 1) j) k) pivot = false := by
        intro k hk1 hk2
        rw [hsw k (by omega)]
        by_cases hkj : k = j
        · rw [if_pos hkj]
          exact Hge (i + 1) (by omega) (by omega)
        · rw [if_neg hkj, if_neg (by omega)]
          exact Hge k (by omega) (by omega)
      have ih := partition_loop_spec (swapI d (i + 1) j) pivot (i + 1) (j + 1)
        high low dir hlow (by omega) (by omega) (by omega)
        (by rw [hlen1]; exact hhigh) newHlt newHge
      obtain ⟨ih1, ih2, ih3, ih4, ih5, ih6⟩ := ih
      rw [hstep]
      refine ⟨ih1.trans hlen1, ih2.trans (swapI_perm d (i + 1) j (by omega)
        (by omega) (by omega) (by omega)), ?_, ?_, ih5, ih6⟩
      · intro k hk
        rw [ih3 k hk, hsw k (by omega), if_neg (by omega), if_neg (by omega)]
      · refine segFrom_trans ih4 ?_
        intro k hk1 hk2
        rw [hsw k (by omega)]
        by_cases hkj : k = j
        · rw [if_pos hkj]
          exact ⟨i + 1, by omega, by omega, rfl⟩
        · rw [if_neg hkj]
          by_cases hki : k = i + 1
          · rw [if_pos hki]
            exact ⟨j, by omega, by omega, rfl⟩
          · rw [if_neg hki]
            exact ⟨k, hk1, hk2, rfl⟩
    · have hcf : cmpLt dir (getI d j) pivot = false := by
        rcases Bool.eq_false_or_eq_true (cmpLt dir (getI d j) pivot) with h0 | h0
        · exact absurd h0 hc
        · exact h0
      have hstep := partition_loop_step_ge d pivot i j high dir hj hcf
      have newHge : ∀ k : Int, i < k → k < j + 1 →
          cmpLt dir (getI d k) pivot = false := by
        intro k hk1 hk2
        by_cases hkj : k = j
        · rw [hkj]
          exact hcf
        · exact Hge k hk1 (by omega)
      have ih := partition_loop_spec d pivot i (j + 1) high low dir hlow hi
        (by omega) (by omega) hhigh Hlt newHge
      obtain ⟨ih1, ih2, ih3, ih4, ih5, ih6⟩ := ih
      rw [hstep]
      exact ⟨ih1, ih2, ih3, ih4, ih5, ih6⟩
  · have hexit : _partition_loop d pivot i j high dir = (d, i) := by
      rw [_partition_loop, dif_neg hj]
    rw [hexit]
    refine ⟨rfl, List.Perm.refl d, fun k _ => rfl, segFrom_refl d low high,
      ?_, ?_⟩
    · intro k hk1 hk2
      exact Hlt k hk1 hk2
    · intro k hk1 hk2
      exact Hge k hk1 (by omega)
termination_by (high - j).toNat
decreasing_by
  all_goals simp_wf
  all_goals omega

/-- Full characterisation of `_partition_float`: the returned pivot index
`pi` lies in `[low, high]`, everything in `[low, pi)` compares `cmpLt` the
pivot value, nothing in `(pi, high]` does, and the buffer outside
`[low, high]` together with its multiset of elements is preserved. -/
theorem partition_float_spec (d : List CFloat) (low high : Int)
    (dir : iter_dir) (hlow : 0 ≤ low) (hlh : low < high)
    (hhigh : high < (d.length : Int)) :
    (_partition_float d low high dir).1.length = d.length ∧
    List.Perm (_partition_float d low high dir).1 d ∧
    (∀ k : Int, (0 ≤ k ∧ k < low) ∨ high < k →
      getI (_partition_float d low high dir).1 k = getI d k) ∧
    SegFrom (_partition_float d low high dir).1 d low high ∧
    (low ≤ (_partition_float d low high dir).2 ∧
      (_partition_float d low high dir).2 ≤ high) ∧
    (∀ k : Int, low ≤ k → k < (_partition_float d low high dir).2 →
      cmpLt dir (getI (_partition_float d low high dir).1 k)
        (getI (_partition_float d low high dir).1
          (_partition_float d low high dir).2) = true) ∧
    (∀ k : Int, (_partition_float d low high dir).2 < k → k ≤ high →
      cmpLt dir (getI (_partition_float d low high dir).1 k)
        (getI (_partition_float d low high dir).1
          (_partition_float d low high dir).2) = false) := by
  set md := low + (high - low) / 2 with hmd
  have hmdb : low ≤ md ∧ md ≤ high := by omega
  set pm := _median_of_three d low md high dir with hpm
  have hpmb : low ≤ pm ∧ pm ≤ high := by
    rcases median_of_three_mem d low md high dir with h0 | h0 | h0 <;>
      rw [← hpm] at h0 <;> omega
  set d1 := if pm ≠ high then swapI d pm high else d with hd1
  have hlen1 : d1.length = d.length := by
    rw [hd1]
    by_cases hp : pm ≠ high
    · rw [if_pos hp]
      exact length_swapI d pm high
    · rw [if_neg hp]
  have hd1point : ∀ k : Int, 0 ≤ k →
      getI d1 k = if k = high then getI d pm
        else if k = pm then getI d high else getI d k := by
    intro k hk
    rw [hd1]
    by_cases hp : pm ≠ high
    · rw [if_pos hp]
      exact getI_swapI d pm high k (by omega) (by omega) hk (by omega) (by omega)
    · rw [if_neg hp]
      push_neg at hp
      by_cases hkh : k = high
      · rw [if_pos hkh, hp, hkh]
      · rw [if_neg hkh, if_neg (by omega)]
  have hperm1 : List.Perm d1 d := by
    rw [hd1]
    by_cases hp : pm ≠ high
    · rw [if_pos hp]
      exact swapI_perm d pm high (by omega) (by omega) (by omega) (by omega)
    · rw [if_neg hp]
  have hd1u : ∀ k : Int, (0 ≤ k ∧ k < low) ∨ high < k →
      getI d1 k = getI d k := by
    intro k hk
    rw [hd1point k (by omega), if_neg (by omega), if_neg (by omega)]
  have hseg1 : SegFrom d1 d low high := by
    intro k hk1 hk2
    rw [hd1point k (by omega)]
    by_cases hkh : k = high
    · rw [if_pos hkh]
      exact ⟨pm, by omega, by omega, rfl⟩
    · rw [if_neg hkh]
      by_cases hkp : k = pm
      · rw [if_pos hkp]
        exact ⟨high, by omega, le_refl high, rfl⟩
      · rw [if_neg hkp]
        exact ⟨k, hk1, hk2, rfl⟩
  set pivot := getI d1 high with hpiv
  have hloop := partition_loop_spec d1 pivot (low - 1) low high low dir hlow
    (by omega) (by omega) (le_refl low) (by rw [hlen1]; exact hhigh)
    (by intro k hk1 hk2; omega) (by intro k hk1 hk2; omega)
  have hqb := _partition_loop_i_bound d1 pivot (low - 1) low high dir (by omega)
  set q := _partition_loop d1 pivot (low - 1) low high dir with hq
  obtain ⟨hl1, hl2, hl3, hl4, hl5, hl6⟩ := hloop
  have hmax : max low high = high := max_eq_right (by omega)
  rw [hmax] at hqb
  have hre : _partition_float d low high dir =
      (swapI q.1 (q.2 + 1) high, q.2 + 1) := by
    simp only [_partition_float]
  have hq1len : q.1.length = d.length := hl1.trans hlen1
  have hswf : ∀ k : Int, 0 ≤ k →
      getI (swapI q.1 (q.2 + 1) high) k =
        if k = high then getI q.1 (q.2 + 1)
        else if k = q.2 + 1 then getI q.1 high
        else getI q.1 k := by
    intro k hk
    exact getI_swapI q.1 (q.2 + 1) high k (by omega) (by omega) hk
      (by rw [hq1len]; omega) (by rw [hq1len]; omega)
  have hqhigh : getI q.1 high = pivot := by
    rw [hl3 high (Or.inr (le_refl high)), hpiv]
  have hrpiv : getI (swapI q.1 (q.2 + 1) high) (q.2 + 1) = pivot := by
    rw [hswf (q.2 + 1) (by omega)]
    by_cases hqh : q.2 + 1 = high
    · rw [if_pos hqh, hqh, hqhigh]
    · rw [if_neg hqh, if_pos rfl, hqhigh]
  rw [hre]
  refine ⟨?_, ?_, ?_, ?_, ⟨by omega, by omega⟩, ?_, ?_⟩
  · rw [length_swapI, hq1len]
  · exact ((swapI_perm q.1 (q.2 + 1) high (by omega) (by omega)
      (by rw [hq1len]; omega) (by rw [hq1len]; omega)).trans hl2).trans hperm1
  · intro k hk
    rw [hswf k (by omega), if_neg (by omega), if_neg (by omega),
      hl3 k (by rcases hk with ⟨h1, h2⟩ | h1; exact Or.inl ⟨h1, h2⟩; exact Or.inr (by omega)),
      hd1u k hk]
  · refine segFrom_trans ?_ (segFrom_trans hl4 hseg1)
    intro k hk1 hk2
    rw [hswf k (by omega)]
    by_cases hkh : k = high
    · rw [if_pos hkh]
      exact ⟨q.2 + 1, by omega, by omega, rfl⟩
    · rw [if_neg hkh]
      by_cases hkq : k = q.2 + 1
      · rw [if_pos hkq]
        exact ⟨high, by omega, le_refl high, rfl⟩
      · rw [if_neg hkq]
        exact ⟨k, hk1, hk2, rfl⟩
  · intro k hk1 hk2
    rw [hrpiv, hswf k (by omega), if_neg (by omega), if_neg (by omega)]
    exact hl5 k hk1 (by omega)
  · intro k hk1 hk2
    rw [hrpiv, hswf k (by omega)]
    by_cases hkh : k = high
    · rw [if_pos hkh]
      exact hl6 (q.2 + 1) (by omega) (by omega)
    · rw [if_neg hkh, if_neg (by omega)]
      exact hl6 k (by omega) (by omega)

/-- Two sorted halves glued at a pivot position are sorted. -/
theorem sortedSeg_glue (dir : iter_dir) (r : List CFloat) (low high pv : Int)
    (hlowpv : low ≤ pv) (hpvhigh : pv ≤ high)
    (hleft : SortedSeg dir r low (pv - 1))
    (hright : SortedSeg dir r (pv + 1) high)
    (hlt : ∀ k : Int, low ≤ k → k < pv →
      cmpLe dir (getI r k) (getI r pv) = true)
    (hge : ∀ k : Int, pv < k → k ≤ high →
      cmpLe dir (getI r pv) (getI r k) = true)
    (hpnan : isNan (getI r pv) = false) :
    SortedSeg dir r low high := by
  intro a b ha hab hb
  by_cases hbp : b < pv
  · exact hleft a b ha hab (by omega)
  · by_cases hbq : b = pv
    · subst hbq
      by_cases hap : a = b
      · subst hap
        exact cmpLe_refl hpnan
      · exact hlt a ha (by omega)
    · by_cases hap : pv < a
      · exact hright a b (by omega) hab hb
      · by_cases hap2 : a = pv
        · subst hap2
          exact hge b (by omega) hb
        · exact cmpLe_trans (hlt a ha (by omega)) (hge b (by omega) hb)

/-- Pointwise-equal segments transfer sortedness. -/
theorem sortedSeg_congr {r e : List CFloat} {dir : iter_dir} {low high : Int}
    (hpt : ∀ k : Int, low ≤ k → k ≤ high → getI r k = getI e k)
    (h : SortedSeg dir e low high) : SortedSeg dir r low high := by
  intro a b ha hab hb
  rw [hpt a ha (by omega), hpt b (by omega) hb]
  exact h a b ha hab hb

/-- Segment membership on a sub-range extends to an enclosing range when
the rest of the enclosing range is untouched. -/
theorem segFrom_of_inner {r e : List CFloat} {low high a b : Int}
    (hla : low ≤ a) (hbh : b ≤ high) (h : SegFrom r e a b)
    (hout : ∀ k : Int, low ≤ k → k ≤ high → k < a ∨ b < k →
      getI r k = getI e k) :
    SegFrom r e low high := by
  intro k hk1 hk2
  by_cases hin : a ≤ k ∧ k ≤ b
  · obtain ⟨m, hm1, hm2, he⟩ := h k hin.1 hin.2
    exact ⟨m, by omega, by omega, he⟩
  · exact ⟨k, hk1, hk2, hout k hk1 hk2 (by omega)⟩

theorem quicksort_float_base (d : List CFloat) (low high : Int)
    (dir : iter_dir) (h : ¬ low < high) :
    _quicksort_float d low high dir = d := by
  rw [_quicksort_float, dif_neg h]

theorem quicksort_float_small (d : List CFloat) (low high : Int)
    (dir : iter_dir) (h : low < high) (h2 : high - low < 10) :
    _quicksort_float d low high dir = _insertion_sort d low high dir := by
  rw [_quicksort_float]
  rw [dif_pos h, if_pos h2]

theorem quicksort_float_rec_left (d : List CFloat) (low high : Int)
    (dir : iter_dir) (h : low < high) (h2 : ¬ high - low < 10)
    (h3 : (_partition_float d low high dir).2 - low <
      high - (_partition_float d low high dir).2) :
    _quicksort_float d low high dir =
      _quicksort_float
        (_quicksort_float (_partition_float d low high dir).1 low
          ((_partition_float d low high dir).2 - 1) dir)
        ((_partition_float d low high dir).2 + 1) high dir := by
  rw [_quicksort_float]
  rw [dif_pos h, if_neg h2]
  show (if (_partition_float d low high dir).2 - low <
      high - (_partition_float d low high dir).2 then
    _quicksort_float
      (_quicksort_float (_partition_float d low high dir).1 low
        ((_partition_float d low high dir).2 - 1) dir)
      ((_partition_float d low high dir).2 + 1) high dir
  else
    _quicksort_float
      (_quicksort_float (_partition_float d low high dir).1
        ((_partition_float d low high dir).2 + 1) high dir)
      low ((_partition_float d low high dir).2 - 1) dir) = _
  rw [if_pos h3]

theorem quicksort_float_rec_right (d : List CFloat) (low high : Int)
    (dir : iter_dir) (h : low < high) (h2 : ¬ high - low < 10)
    (h3 : ¬ (_partition_float d low high dir).2 - low <
      high - (_partition_float d low high dir).2) :
    _quicksort_float d low high dir =
      _quicksort_float
        (_quicksort_float (_partition_float d low high dir).1
          ((_partition_float d low high dir).2 + 1) high dir)
        low ((_partition_float d low high dir).2 - 1) dir := by
  rw [_quicksort_float]
  rw [dif_pos h, if_neg h2]
  show (if (_partition_float d low high dir).2 - low <
      high - (_partition_float d low high dir).2 then
    _quicksort_float
      (_quicksort_float (_partition_float d low high dir).1 low
        ((_partition_float d low high dir).2 - 1) dir)
      ((_partition_float d low high dir).2 + 1) high dir
  else
    _quicksort_float
      (_quicksort_float (_partition_float d low high dir).1
        ((_partition_float d low high dir).2 + 1) high dir)
      low ((_partition_float d low high dir).2 - 1) dir) = _
  rw [if_neg h3]

/-- Full characterisation of `_quicksort_float`: length, positions outside
`[low, high]`, and the multiset of buffer elements are preserved; the range
`[low, high]` is rearranged within itself; and when the range holds no NaN
it is sorted in the requested direction on exit. -/
theorem quicksort_float_spec (d : List CFloat) (low high : Int)
    (dir : iter_dir) (hlow : 0 ≤ low) (hhigh : high < (d.length : Int)) :
    (_quicksort_float d low high dir).length = d.length ∧
    (∀ k : Int, (0 ≤ k ∧ k < low) ∨ high < k →
      getI (_quicksort_float d low high dir) k = getI d k) ∧
    List.Perm (_quicksort_float d low high dir) d ∧
    SegFrom (_quicksort_float d low high dir) d low high ∧
    (NoNanSeg d low high →
      SortedSeg dir (_quicksort_float d low high dir) low high) := by
  by_cases hlh : low < high
  · by_cases hsmall : high - low < 10
    · rw [quicksort_float_small d low high dir hlh hsmall]
      exact insertion_sort_spec d low high dir hlow (by omega) hhigh
    · have hpart := partition_float_spec d low high dir hlow hlh hhigh
      obtain ⟨hp1, hp2, hp3, hp4, ⟨hp5a, hp5b⟩, hp6, hp7⟩ := hpart
      by_cases h3 : (_partition_float d low high dir).2 - low <
          high - (_partition_float d low high dir).2
      · rw [quicksort_float_rec_left d low high dir hlh hsmall h3]
        set p := _partition_float d low high dir with hpdef
        have ih1 := quicksort_float_spec p.1 low (p.2 - 1) dir hlow
          (by rw [hp1]; omega)
        obtain ⟨ia1, ia2, ia3, ia4, ia5⟩ := ih1
        set e1 := _quicksort_float p.1 low (p.2 - 1) dir with he1
        have ih2 := quicksort_float_spec e1 (p.2 + 1) high dir (by omega)
          (by rw [ia1, hp1]; exact hhigh)
        obtain ⟨ib1, ib2, ib3, ib4, ib5⟩ := ih2
        set r := _quicksort_float e1 (p.2 + 1) high dir with hr
        have hsege1 : SegFrom e1 p.1 low high := by
          refine segFrom_of_inner (le_refl low) (by omega) ia4 ?_
          intro k hk1 hk2 hk3
          rcases hk3 with hk3 | hk3
          · exact ia2 k (Or.inl ⟨by omega, hk3⟩)
          · exact ia2 k (Or.inr hk3)
        have hsegr : SegFrom r e1 low high := by
          refine segFrom_of_inner (by omega) (le_refl high) ib4 ?_
          intro k hk1 hk2 hk3
          rcases hk3 with hk3 | hk3
          · exact ib2 k (Or.inl ⟨by omega, hk3⟩)
          · exact ib2 k (Or.inr hk3)
        refine ⟨by rw [ib1, ia1, hp1], ?_, (ib3.trans ia3).trans hp2,
          segFrom_trans hsegr (segFrom_trans hsege1 hp4), ?_⟩
        · intro k hk
          rcases hk with ⟨hk0, hkl⟩ | hkh
          · rw [ib2 k (Or.inl ⟨hk0, by omega⟩), ia2 k (Or.inl ⟨hk0, hkl⟩),
              hp3 k (Or.inl ⟨hk0, hkl⟩)]
          · rw [ib2 k (Or.inr hkh), ia2 k (Or.inr (by omega)),
              hp3 k (Or.inr hkh)]
        · intro hn
          have hnp1 : NoNanSeg p.1 low high := noNanSeg_of_segFrom hp4 hn
          have hne1 : NoNanSeg e1 low high := noNanSeg_of_segFrom hsege1 hnp1
          have hs1 : SortedSeg dir e1 low (p.2 - 1) :=
            ia5 (fun k hk1 hk2 => hnp1 k hk1 (by omega))
          have hs2 : SortedSeg dir r (p.2 + 1) high :=
            ib5 (fun k hk1 hk2 => hne1 k (by omega) hk2)
          have hrleft : ∀ k : Int, low ≤ k → k ≤ p.2 - 1 →
              getI r k = getI e1 k :=
            fun k hk1 hk2 => ib2 k (Or.inl ⟨by omega, by omega⟩)
          have hrpivv : getI r p.2 = getI p.1 p.2 := by
            rw [ib2 p.2 (Or.inl ⟨by omega, by omega⟩),
              ia2 p.2 (Or.inr (by omega))]
          apply sortedSeg_glue dir r low high p.2 hp5a hp5b
          · exact sortedSeg_congr hrleft hs1
          · exact hs2
          · intro k hk1 hk2
            rw [hrpivv, hrleft k hk1 (by omega)]
            obtain ⟨m, hm1, hm2, hme⟩ := ia4 k hk1 (by omega)
            rw [hme]
            exact cmpLe_of_cmpLt (hp6 m hm1 (by omega))
          · intro k hk1 hk2
            rw [hrpivv]
            obtain ⟨m, hm1, hm2, hme⟩ := ib4 k hk1 hk2
            rw [hme, ia2 m (Or.inr (by omega))]
            have hmnan : isNan (getI p.1 m) = false := hnp1 m (by omega) hm2
            have hpnan2 : isNan (getI p.1 p.2) = false := hnp1 p.2 hp5a hp5b
            exact cmpLe_of_not_cmpLt hmnan hpnan2 (hp7 m (by omega) hm2)
          · rw [hrpivv]
            exact hnp1 p.2 hp5a hp5b
      · rw [quicksort_float_rec_right d low high dir hlh hsmall h3]
        set p := _partition_float d low high dir with hpdef
        have ih1 := quicksort_float_spec p.1 (p.2 + 1) high dir (by omega)
          (by rw [hp1]; exact hhigh)
        obtain ⟨ia1, ia2, ia3, ia4, ia5⟩ := ih1
        set e1 := _quicksort_float p.1 (p.2 + 1) high dir with he1
        have ih2 := quicksort_float_spec e1 low (p.2 - 1) dir hlow
          (by rw [ia1, hp1]; omega)
        obtain ⟨ib1, ib2, ib3, ib4, ib5⟩ := ih2
        set r := _quicksort_float e1 low (p.2 - 1) dir with hr
        have hsege1 : SegFrom e1 p.1 low high := by
          refine segFrom_of_inner (by omega) (le_refl high) ia4 ?_
          intro k hk1 hk2 hk3
          rcases hk3 with hk3 | hk3
          · exact ia2 k (Or.inl ⟨by omega, by omega⟩)
          · exact ia2 k (Or.inr hk3)
        have hsegr : SegFrom r e1 low high := by
          refine segFrom_of_inner (le_refl low) (by omega) ib4 ?_
          intro k hk1 hk2 hk3
          rcases hk3 with hk3 | hk3
          · exact ib2 k (Or.inl ⟨by omega, hk3⟩)
          · exact ib2 k (Or.inr hk3)
        refine ⟨by rw [ib1, ia1, hp1], ?_, (ib3.trans ia3).trans hp2,
          segFrom_trans hsegr (segFrom_trans hsege1 hp4), ?_⟩
        · intro k hk
          rcases hk with ⟨hk0, hkl⟩ | hkh
          · rw [ib2 k (Or.inl ⟨hk0, hkl⟩), ia2 k (Or.inl ⟨hk0, by omega⟩),
              hp3 k (Or.inl ⟨hk0, hkl⟩)]
          · rw [ib2 k (Or.inr (by omega)), ia2 k (Or.inr hkh),
              hp3 k (Or.inr hkh)]
        · intro hn
          have hnp1 : NoNanSeg p.1 low high := noNanSeg_of_segFrom hp4 hn
          have hne1 : NoNanSeg e1 low high := noNanSeg_of_segFrom hsege1 hnp1
          have hs1 : SortedSeg dir e1 (p.2 + 1) high :=
            ia5 (fun k hk1 hk2 => hnp1 k (by omega) hk2)
          have hs2 : SortedSeg dir r low (p.2 - 1) :=
            ib5 (fun k hk1 hk2 => hne1 k hk1 (by omega))
          have hrright : ∀ k : Int, p.2 + 1 ≤ k → k ≤ high →
              getI r k = getI e1 k :=
            fun k hk1 hk2 => ib2 k (Or.inr (by omega))
          have hrpivv : getI r p.2 = getI p.1 p.2 := by
            rw [ib2 p.2 (Or.inr (by omega)),
              ia2 p.2 (Or.inl ⟨by omega, by omega⟩)]
          apply sortedSeg_glue dir r low high p.2 hp5a hp5b
          · exact hs2
          · exact sortedSeg_congr hrright hs1
          · intro k hk1 hk2
            rw [hrpivv]
            obtain ⟨m, hm1, hm2, hme⟩ := ib4 k hk1 (by omega)
            rw [hme, ia2 m (Or.inl ⟨by omega, by omega⟩)]
            exact cmpLe_of_cmpLt (hp6 m hm1 (by omega))
          · intro k hk1 hk2
            rw [hrpivv, hrright k (by omega) hk2]
            obtain ⟨m, hm1, hm2, hme⟩ := ia4 k (by omega) hk2
            rw [hme]
            have hmnan : isNan (getI p.1 m) = false := hnp1 m (by omega) hm2
            have hpnan2 : isNan (getI p.1 p.2) = false := hnp1 p.2 hp5a hp5b
            exact cmpLe_of_not_cmpLt hmnan hpnan2 (hp7 m (by omega) hm2)
          · rw [hrpivv]
            exact hnp1 p.2 hp5a hp5b
  · rw [quicksort_float_base d low high dir hlh]
    refine ⟨rfl, fun k _ => rfl, List.Perm.refl d, segFrom_refl d low high, ?_⟩
    intro hn a b ha hab hb
    have hab2 : a = b := by omega
    subst hab2
    exact cmpLe_refl (hn a ha hb)
termination_by (high - low).toNat
decreasing_by
  all_goals simp_wf
  all_goals omega

theorem drop_eq_of_getN_eq (lp l : List CFloat) (n : Nat)
    (hlen : lp.length = l.length)
    (h : ∀ k : Nat, n ≤ k → k < l.length → getN lp k = getN l k) :
    lp.drop n = l.drop n := by
  apply List.ext_getElem
  · simp [hlen]
  · intro m h1 h2
    have hb : n + m < l.length := by
      rw [List.length_drop] at h2
      omega
    rw [← getN_lt_length (lp.drop n) m h1, ← getN_lt_length (l.drop n) m h2,
      getN_drop, getN_drop]
    exact h (n + m) (by omega) hb

theorem perm_take_of_perm_of_drop_eq (lp l : List CFloat) (n : Nat)
    (hperm : List.Perm lp l) (hdrop : lp.drop n = l.drop n) :
    List.Perm (lp.take n) (l.take n) := by
  have h1 : lp.take n ++ lp.drop n = lp := List.take_append_drop n lp
  have h2 : l.take n ++ l.drop n = l := List.take_append_drop n l
  rw [← h1, ← h2, hdrop] at hperm
  exact (List.perm_append_right_iff (l.drop n)).mp hperm

theorem sorted_take_of_sortedSeg (dir : iter_dir) (d : List CFloat) (len : Nat)
    (hlen : len ≤ d.length) (h : SortedSeg dir d 0 ((len : Int) - 1)) :
    (d.take len).Sorted (fun a b => cmpLe dir a b = true) := by
  have hpair : List.Pairwise (fun a b => cmpLe dir a b = true) (d.take len) := by
    rw [List.pairwise_iff_getElem]
    intro i j hi hj hij
    have hTl : (d.take len).length = len := by
      rw [List.length_take]
      omega
    have hi2 : i < len := hTl ▸ hi
    have hj2 : j < len := hTl ▸ hj
    have e1 : (d.take len)[i] = getN d i := by
      rw [← getN_lt_length (d.take len) i hi, getN_take, if_pos hi2]
    have e2 : (d.take len)[j] = getN d j := by
      rw [← getN_lt_length (d.take len) j hj, getN_take, if_pos hj2]
    show cmpLe dir (d.take len)[i] (d.take len)[j] = true
    rw [e1, e2]
    have h0 := h (i : Int) (j : Int) (by omega) (by omega) (by omega)
    rw [getI_natCast, getI_natCast] at h0
    exact h0
  exact hpair

/-- C1 (amended): a NULL vector fails with EINVAL; a vector of length < 2
is returned unchanged; and on a populated range free of NaN — with the
length at most `2^31`, so that the `size_t` → 32-bit-`int` narrowing of
`len - 1` at `c_float.c:472` is value-preserving — sorting rearranges
exactly the stored prefix (same multiset, tail of the buffer untouched)
so that every adjacent stored pair is ordered in the requested direction,
and sorting again is the identity.  (The claim's NaN clause — NaNs
contiguous at the end — is refuted separately.) -/
theorem claim_C1_sort_amended (dir : iter_dir) :
    sort_float_vector none dir = (none, some ErrNo.EINVAL) ∧
    (∀ v : float_v, v.len < 2 → sort_float_vector (some v) dir = (some v, none)) ∧
    (∀ (v : float_v) (d : List CFloat), v.data = some d → 2 ≤ v.len →
      v.len ≤ 2 ^ 31 →
      v.len ≤ d.length → NoNanSeg d 0 ((v.len : Int) - 1) →
      ∃ nd : List CFloat,
        sort_float_vector (some v) dir = (some { v with data := some nd }, none) ∧
        nd.length = d.length ∧
        List.Perm (nd.take v.len) (d.take v.len) ∧
        nd.drop v.len = d.drop v.len ∧
        (∀ i : Nat, i + 1 < v.len →
          cmpLe dir (getN nd i) (getN nd (i + 1)) = true) ∧
        sort_float_vector (some { v with data := some nd }) dir =
          (some { v with data := some nd }, none)) := by
  refine ⟨rfl, ?_, ?_⟩
  · intro v hv
    simp only [sort_float_vector]
    rw [if_pos hv]
  · intro v d hd h2 h31 hlen hnan
    obtain ⟨vd, vlen, valloc, vty⟩ := v
    simp only [float_v.data] at hd
    simp only [float_v.len] at h2 h31 hlen hnan ⊢
    subst hd
    have hT : toInt32 (vlen - 1) = (vlen : Int) - 1 := by
      rw [toInt32_eq_of_lt (vlen - 1) (by omega)]
      omega
    have hq := quicksort_float_spec d 0 ((vlen : Int) - 1) dir (le_refl 0)
      (by omega)
    obtain ⟨hq1, hq2, hq3, hq4, hq5⟩ := hq
    set nd := _quicksort_float d 0 ((vlen : Int) - 1) dir with hnd
    refine ⟨nd, ?_, hq1, ?_, ?_, ?_, ?_⟩
    · simp only [sort_float_vector, float_v.len, float_v.data]
      rw [hT, if_neg (by omega)]
    · refine perm_take_of_perm_of_drop_eq nd d vlen hq3 ?_
      refine drop_eq_of_getN_eq nd d vlen hq1 ?_
      intro k hk1 hk2
      have h0 := hq2 (k : Int) (Or.inr (by omega))
      rw [getI_natCast, getI_natCast] at h0
      exact h0
    · refine drop_eq_of_getN_eq nd d vlen hq1 ?_
      intro k hk1 hk2
      have h0 := hq2 (k : Int) (Or.inr (by omega))
      rw [getI_natCast, getI_natCast] at h0
      exact h0
    · intro i hi
      have hsorted := hq5 hnan
      have h0 := hsorted (i : Int) ((i : Int) + 1) (by omega) (by omega)
        (by omega)
      rw [getI_natCast, getI_natCast_add_one] at h0
      exact h0
    · have hnanN : NoNanSeg nd 0 ((vlen : Int) - 1) :=
        noNanSeg_of_segFrom hq4 hnan
      have hq' := quicksort_float_spec nd 0 ((vlen : Int) - 1) dir (le_refl 0)
        (by rw [hq1]; omega)
      obtain ⟨hr1, hr2, hr3, hr4, hr5⟩ := hq'
      have hdrop2 : (_quicksort_float nd 0 ((vlen : Int) - 1) dir).drop vlen =
          nd.drop vlen := by
        refine drop_eq_of_getN_eq _ nd vlen hr1 ?_
        intro k hk1 hk2
        have h0 := hr2 (k : Int) (Or.inr (by omega))
        rw [getI_natCast, getI_natCast] at h0
        exact h0
      have htake2 : List.Perm
          ((_quicksort_float nd 0 ((vlen : Int) - 1) dir).take vlen)
          (nd.take vlen) :=
        perm_take_of_perm_of_drop_eq _ nd vlen hr3 hdrop2
      have hsorted1 : (nd.take vlen).Sorted (fun a b => cmpLe dir a b = true) :=
        sorted_take_of_sortedSeg dir nd vlen (by omega) (hq5 hnan)
      have hsorted2 : ((_quicksort_float nd 0 ((vlen : Int) - 1) dir).take
          vlen).Sorted (fun a b => cmpLe dir a b = true) :=
        sorted_take_of_sortedSeg dir _ vlen (by rw [hr1, hq1]; omega) (hr5 hnanN)
      haveI hA : IsAntisymm CFloat (fun a b => cmpLe dir a b = true) :=
        ⟨fun a b h1 h2 => cmpLe_antisymm h1 h2⟩
      have htake_eq : (_quicksort_float nd 0 ((vlen : Int) - 1) dir).take vlen =
          nd.take vlen :=
        List.eq_of_perm_of_sorted htake2 hsorted2 hsorted1
      have hfix : _quicksort_float nd 0 ((vlen : Int) - 1) dir = nd := by
        rw [← List.take_append_drop vlen
          (_quicksort_float nd 0 ((vlen : Int) - 1) dir), htake_eq, hdrop2,
          List.take_append_drop]
      simp only [sort_float_vector, float_v.len, float_v.data]
      rw [hT, if_neg (by omega), hfix]

/-- C1 counterexample: sorting `[3.0, NaN, 1.0]` FORWARD leaves the buffer
unchanged — the NaN stays at index 1 with the non-NaN 1.0 after it at
index 2, so NaN-valued elements do not end up contiguous at the end (and
1.0 is not where an ascending sort of the non-NaN values would put it). -/
theorem claim_C1_counterexample :
    sort_float_vector (some ⟨some [.fin 3, .nan, .fin 1], 3, 3, .DYNAMIC⟩)
        iter_dir.FORWARD =
      (some ⟨some [.fin 3, .nan, .fin 1], 3, 3, .DYNAMIC⟩, none) ∧
    isNan (getN [CFloat.fin 3, .nan, .fin 1] 1) = true ∧
    isNan (getN [CFloat.fin 3, .nan, .fin 1] 2) = false := by
  refine ⟨?_, rfl, rfl⟩
  simp +decide [sort_float_vector, toInt32, _quicksort_float, _insertion_sort,
    _insertion_outer, _insertion_inner, getI, setI, getN, cmpLt, flt]

/-- C1 witness: the amended sort theorem applied to the concrete vector
`[2.0, 1.0, 3.0]` sorted FORWARD. -/
theorem claim_C1_witness :
    ∃ nd : List CFloat,
      sort_float_vector (some ⟨some [.fin 2, .fin 1, .fin 3], 3, 3, .DYNAMIC⟩)
          iter_dir.FORWARD =
        (some ⟨some nd, 3, 3, alloc_t.DYNAMIC⟩, none) ∧
      nd.length = 3 ∧
      List.Perm (nd.take 3) ([CFloat.fin 2, .fin 1, .fin 3].take 3) ∧
      nd.drop 3 = [CFloat.fin 2, .fin 1, .fin 3].drop 3 ∧
      (∀ i : Nat, i + 1 < 3 →
        cmpLe iter_dir.FORWARD (getN nd i) (getN nd (i + 1)) = true) ∧
      sort_float_vector (some ⟨some nd, 3, 3, alloc_t.DYNAMIC⟩)
          iter_dir.FORWARD =
        (some ⟨some nd, 3, 3, alloc_t.DYNAMIC⟩, none) := by
  obtain ⟨nd, h1, h2, h3, h4, h5, h6⟩ :=
    (claim_C1_sort_amended iter_dir.FORWARD).2.2
      ⟨some [.fin 2, .fin 1, .fin 3], 3, 3, .DYNAMIC⟩
      [.fin 2, .fin 1, .fin 3] rfl (by decide) (by decide) (by decide)
      (by
        intro k hk1 hk2
        simp only [float_v.len] at hk2
        have hk : k = 0 ∨ k = 1 ∨ k = 2 := by omega
        rcases hk with h | h | h <;> subst h <;> decide)
  exact ⟨nd, h1, h2, h3, h4, h5, h6⟩

-- ================================================================================
-- Claim C10 (zero-filled tail invariant over operation sequences)

theorem growAlloc_le_add (alloc : Nat) (h : alloc ≤ 2 ^ 61) :
    growAlloc alloc ≤ alloc + 2 ^ 21 := by
  rw [growAlloc_eq alloc h]
  have hth : VEC_THRESHOLD = 1 * 1024 * 1024 := rfl
  have hfx : VEC_FIXED_AMOUNT = 1 * 1024 * 1024 := rfl
  split <;> omega

/-- The mutating operations of the API, each carrying the arguments and
the `malloc`/`realloc` outcomes it depends on. -/
inductive VOp where
  | pushBack (value : CFloat) (allocOk : Bool)
  | pushFront (value : CFloat) (allocOk : Bool)
  | insertAt (value : CFloat) (index : Nat) (allocOk : Bool)
  | popBack
  | popFront
  | popAny (index : Nat)
  | updateAt (index : Nat) (value : CFloat)
  | reverse
  | sortOp (dir : iter_dir)
  | trim (allocOk : Bool)
deriving DecidableEq, Repr

/-- Run one operation on a (non-NULL) vector, keeping the resulting state. -/
def applyOp (v : float_v) (op : VOp) : float_v :=
  match op with
  | .pushBack value allocOk =>
      (push_back_float_vector (some v) value allocOk).st.getD v
  | .pushFront value allocOk =>
      (push_front_float_vector (some v) value allocOk).st.getD v
  | .insertAt value index allocOk =>
      (insert_float_vector (some v) value index allocOk).st.getD v
  | .popBack => (pop_back_float_vector (some v)).st.getD v
  | .popFront => (pop_front_float_vector (some v)).st.getD v
  | .popAny index => (pop_any_float_vector (some v) index).st.getD v
  | .updateAt index value =>
      (update_float_vector (some v) index value).1.getD v
  | .reverse => (reverse_float_vector (some v)).1.getD v
  | .sortOp dir => (sort_float_vector (some v) dir).1.getD v
  | .trim allocOk => (trim_float_vector (some v) allocOk).1.getD v

def applyOps (v : float_v) (ops : List VOp) : float_v := ops.foldl applyOp v

/-- The zero-filled-tail invariant: the buffer exists, spans exactly
`alloc` slots, and every slot in `[len, alloc)` holds `0.0`. -/
def ZTail (v : float_v) : Prop :=
  ∃ d : List CFloat, v.data = some d ∧ d.length = v.alloc ∧
    v.len ≤ v.alloc ∧
    ∀ k : Nat, v.len ≤ k → k < v.alloc → getN d k = .fin 0

theorem ZTail_mk (dd : List CFloat) (l a : Nat) (ty : alloc_t)
    (h1 : dd.length = a) (h2 : l ≤ a)
    (h3 : ∀ k : Nat, l ≤ k → k < a → getN dd k = .fin 0) :
    ZTail ⟨some dd, l, a, ty⟩ :=
  ⟨dd, rfl, h1, h2, h3⟩

theorem ZTail_applyOp_pushBack (d : List CFloat) (vlen valloc : Nat)
    (vty : alloc_t) (value : CFloat) (allocOk : Bool)
    (hdl : d.length = valloc) (hla : vlen ≤ valloc)
    (htail : ∀ k : Nat, vlen ≤ k → k < valloc → getN d k = .fin 0)
    (hb : valloc ≤ 2 ^ 61) :
    ZTail (applyOp ⟨some d, vlen, valloc, vty⟩ (.pushBack value allocOk)) ∧
    (applyOp ⟨some d, vlen, valloc, vty⟩ (.pushBack value allocOk)).alloc ≤
      valloc + 2 ^ 21 := by
  simp only [applyOp, push_back_float_vector, float_v.data, float_v.len,
    float_v.alloc, float_v.alloc_type]
  by_cases hfull : vlen ≥ valloc
  · rw [if_pos hfull]
    by_cases hstat : vty = alloc_t.STATIC
    · rw [if_pos hstat]
      refine ⟨⟨d, rfl, hdl, hla, htail⟩, ?_⟩
      show valloc ≤ valloc + 2 ^ 21
      omega
    · rw [if_neg hstat]
      cases allocOk with
      | false =>
        rw [if_pos (by decide : (!false) = true)]
        refine ⟨⟨d, rfl, hdl, hla, htail⟩, ?_⟩
        show valloc ≤ valloc + 2 ^ 21
        omega
      | true =>
        rw [if_neg (by decide : ¬ (!true) = true)]
        have hga1 : valloc + 1 ≤ growAlloc valloc := growAlloc_ge_succ valloc hb
        have hga2 : growAlloc valloc ≤ valloc + 2 ^ 21 :=
          growAlloc_le_add valloc hb
        have hlen1 : (reallocFloats d valloc (growAlloc valloc)).length =
            growAlloc valloc :=
          length_reallocFloats d valloc _ hdl (by omega)
        have hmod : (vlen + 1) % U64 = vlen + 1 := by
          have hU : U64 = 2 ^ 64 := rfl
          exact Nat.mod_eq_of_lt (by omega)
        rw [hmod]
        refine ⟨?_, ?_⟩
        · refine ZTail_mk _ _ _ _ ?_ ?_ ?_
          · rw [List.length_set, hlen1]
          · omega
          · intro k hk1 hk2
            rw [getN_set_ne _ _ _ _ (by omega),
              getN_reallocFloats d valloc (growAlloc valloc) k hdl (by omega),
              if_neg (by omega)]
        · show growAlloc valloc ≤ valloc + 2 ^ 21
          exact hga2
  · rw [if_neg hfull]
    have hmod : (vlen + 1) % U64 = vlen + 1 := by
      have hU : U64 = 2 ^ 64 := rfl
      exact Nat.mod_eq_of_lt (by omega)
    rw [hmod]
    refine ⟨?_, ?_⟩
    · refine ZTail_mk _ _ _ _ ?_ ?_ ?_
      · rw [List.length_set, hdl]
      · omega
      · intro k hk1 hk2
        rw [getN_set_ne _ _ _ _ (by omega)]
        exact htail k (by omega) hk2
    · show valloc ≤ valloc + 2 ^ 21
      omega

theorem ZTail_applyOp_pushFront (d : List CFloat) (vlen valloc : Nat)
    (vty : alloc_t) (value : CFloat) (allocOk : Bool)
    (hdl : d.length = valloc) (hla : vlen ≤ valloc)
    (htail : ∀ k : Nat, vlen ≤ k → k < valloc → getN d k = .fin 0)
    (hb : valloc ≤ 2 ^ 61) :
    ZTail (applyOp ⟨some d, vlen, valloc, vty⟩ (.pushFront value allocOk)) ∧
    (applyOp ⟨some d, vlen, valloc, vty⟩ (.pushFront value allocOk)).alloc ≤
      valloc + 2 ^ 21 := by
  have hsm : SIZE_MAX = 2 ^ 64 - 1 := rfl
  have hU : U64 = 2 ^ 64 := rfl
  simp only [applyOp, push_front_float_vector, push_front_write, float_v.data,
    float_v.len, float_v.alloc, float_v.alloc_type, Option.getD_some]
  by_cases hfull : vlen ≥ valloc
  · rw [if_pos hfull]
    by_cases hstat : vty = alloc_t.STATIC
    · rw [if_pos hstat]
      refine ⟨⟨d, rfl, hdl, hla, htail⟩, ?_⟩
      show valloc ≤ valloc + 2 ^ 21
      omega
    · rw [if_neg hstat]
      have hga1 : valloc + 1 ≤ growAlloc valloc := growAlloc_ge_succ valloc hb
      have hga2 : growAlloc valloc ≤ valloc + 2 ^ 21 :=
        growAlloc_le_add valloc hb
      rw [if_neg (by omega : ¬ growAlloc valloc > SIZE_MAX / 4)]
      cases allocOk with
      | false =>
        rw [if_pos (by decide : (!false) = true)]
        refine ⟨⟨d, rfl, hdl, hla, htail⟩, ?_⟩
        show valloc ≤ valloc + 2 ^ 21
        omega
      | true =>
        rw [if_neg (by decide : ¬ (!true) = true)]
        have hlen1 : (reallocFloats d valloc (growAlloc valloc)).length =
            growAlloc valloc :=
          length_reallocFloats d valloc _ hdl (by omega)
        rw [if_neg (by omega : ¬ vlen > SIZE_MAX - 1)]
        have hmod : (vlen + 1) % U64 = vlen + 1 := Nat.mod_eq_of_lt (by omega)
        rw [hmod]
        have hrd : ∀ k : Nat, valloc ≤ k → k < growAlloc valloc →
            getN (reallocFloats d valloc (growAlloc valloc)) k = .fin 0 := by
          intro k hk1 hk2
          rw [getN_reallocFloats d valloc (growAlloc valloc) k hdl (by omega),
            if_neg (by omega)]
        by_cases hl0 : vlen > 0
        · rw [if_pos hl0]
          refine ⟨ZTail_mk _ _ _ _ ?_ ?_ ?_, ?_⟩
          · rw [List.length_set,
              length_memmoveShiftR _ 0 vlen (by omega) (by omega), hlen1]
          · omega
          · intro k hk1 hk2
            rw [getN_set_ne _ _ _ _ (by omega),
              getN_memmoveShiftR _ 0 vlen k (by omega) (by omega),
              if_neg (by omega), if_neg (by omega)]
            exact hrd k (by omega) hk2
          · show growAlloc valloc ≤ valloc + 2 ^ 21
            exact hga2
        · rw [if_neg hl0]
          refine ⟨ZTail_mk _ _ _ _ ?_ ?_ ?_, ?_⟩
          · rw [List.length_set, hlen1]
          · omega
          · intro k hk1 hk2
            rw [getN_set_ne _ _ _ _ (by omega)]
            exact hrd k (by omega) hk2
          · show growAlloc valloc ≤ valloc + 2 ^ 21
            exact hga2
  · rw [if_neg hfull]
    rw [if_neg (by omega : ¬ vlen > SIZE_MAX - 1)]
    have hmod : (vlen + 1) % U64 = vlen + 1 := Nat.mod_eq_of_lt (by omega)
    rw [hmod]
    by_cases hl0 : vlen > 0
    · rw [if_pos hl0]
      refine ⟨ZTail_mk _ _ _ _ ?_ ?_ ?_, ?_⟩
      · rw [List.length_set,
          length_memmoveShiftR _ 0 vlen (by omega) (by omega), hdl]
      · omega
      · intro k hk1 hk2
        rw [getN_set_ne _ _ _ _ (by omega),
          getN_memmoveShiftR _ 0 vlen k (by omega) (by omega),
          if_neg (by omega), if_neg (by omega)]
        exact htail k (by omega) hk2
      · show valloc ≤ valloc + 2 ^ 21
        omega
    · rw [if_neg hl0]
      refine ⟨ZTail_mk _ _ _ _ ?_ ?_ ?_, ?_⟩
      · rw [List.length_set, hdl]
      · omega
      · intro k hk1 hk2
        rw [getN_set_ne _ _ _ _ (by omega)]
        exact htail k (by omega) hk2
      · show valloc ≤ valloc + 2 ^ 21
        omega

theorem ZTail_applyOp_insertAt (d : List CFloat) (vlen valloc : Nat)
    (vty : alloc_t) (value : CFloat) (index : Nat) (allocOk : Bool)
    (hdl : d.length = valloc) (hla : vlen ≤ valloc)
    (htail : ∀ k : Nat, vlen ≤ k → k < valloc → getN d k = .fin 0)
    (hb : valloc ≤ 2 ^ 61) :
    ZTail (applyOp ⟨some d, vlen, valloc, vty⟩
      (.insertAt value index allocOk)) ∧
    (applyOp ⟨some d, vlen, valloc, vty⟩
      (.insertAt value index allocOk)).alloc ≤ valloc + 2 ^ 21 := by
  have hsm : SIZE_MAX = 2 ^ 64 - 1 := rfl
  have hU : U64 = 2 ^ 64 := rfl
  simp only [applyOp, insert_float_vector, insert_write, float_v.data,
    float_v.len, float_v.alloc, float_v.alloc_type, Option.getD_some]
  by_cases hidx : index > vlen
  · rw [if_pos hidx]
    refine ⟨⟨d, rfl, hdl, hla, htail⟩, ?_⟩
    show valloc ≤ valloc + 2 ^ 21
    omega
  · rw [if_neg hidx, if_neg (by omega : ¬ vlen ≥ SIZE_MAX)]
    by_cases hfull : vlen ≥ valloc
    · rw [if_pos hfull]
      by_cases hstat : vty = alloc_t.STATIC
      · rw [if_pos hstat]
        refine ⟨⟨d, rfl, hdl, hla, htail⟩, ?_⟩
        show valloc ≤ valloc + 2 ^ 21
        omega
      · rw [if_neg hstat]
        have hga1 : valloc + 1 ≤ growAlloc valloc :=
          growAlloc_ge_succ valloc hb
        have hga2 : growAlloc valloc ≤ valloc + 2 ^ 21 :=
          growAlloc_le_add valloc hb
        rw [if_neg (by omega : ¬ growAlloc valloc > SIZE_MAX / 4)]
        cases allocOk with
        | false =>
          rw [if_pos (by decide : (!false) = true)]
          refine ⟨⟨d, rfl, hdl, hla, htail⟩, ?_⟩
          show valloc ≤ valloc + 2 ^ 21
          omega
        | true =>
          rw [if_neg (by decide : ¬ (!true) = true)]
          have hlen1 : (reallocFloats d valloc (growAlloc valloc)).length =
              growAlloc valloc :=
            length_reallocFloats d valloc _ hdl (by omega)
          rw [if_neg (by omega :
            ¬ (index < vlen ∧ vlen - index > SIZE_MAX - 1))]
          have hmod : (vlen + 1) % U64 = vlen + 1 :=
            Nat.mod_eq_of_lt (by omega)
          rw [hmod]
          have hrd : ∀ k : Nat, valloc ≤ k → k < growAlloc valloc →
              getN (reallocFloats d valloc (growAlloc valloc)) k = .fin 0 := by
            intro k hk1 hk2
            rw [getN_reallocFloats d valloc (growAlloc valloc) k hdl
              (by omega), if_neg (by omega)]
          by_cases hins : index < vlen
          · rw [if_pos hins]
            refine ⟨ZTail_mk _ _ _ _ ?_ ?_ ?_, ?_⟩
            · rw [List.length_set,
                length_memmoveShiftR _ index vlen (by omega) (by omega), hlen1]
            · omega
            · intro k hk1 hk2
              rw [getN_set_ne _ _ _ _ (by omega),
                getN_memmoveShiftR _ index vlen k (by omega) (by omega),
                if_neg (by omega), if_neg (by omega)]
              exact hrd k (by omega) hk2
            · show growAlloc valloc ≤ valloc + 2 ^ 21
              exact hga2
          · rw [if_neg hins]
            refine ⟨ZTail_mk _ _ _ _ ?_ ?_ ?_, ?_⟩
            · rw [List.length_set, hlen1]
            · omega
            · intro k hk1 hk2
              rw [getN_set_ne _ _ _ _ (by omega)]
              exact hrd k (by omega) hk2
            · show growAlloc valloc ≤ valloc + 2 ^ 21
              exact hga2
    · rw [if_neg hfull]
      rw [if_neg (by omega : ¬ (index < vlen ∧ vlen - index > SIZE_MAX - 1))]
      have hmod : (vlen + 1) % U64 = vlen + 1 := Nat.mod_eq_of_lt (by omega)
      rw [hmod]
      by_cases hins : index < vlen
      · rw [if_pos hins]
        refine ⟨ZTail_mk _ _ _ _ ?_ ?_ ?_, ?_⟩
        · rw [List.length_set,
            length_memmoveShiftR _ index vlen (by omega) (by omega), hdl]
        · omega
        · intro k hk1 hk2
          rw [getN_set_ne _ _ _ _ (by omega),
            getN_memmoveShiftR _ index vlen k (by omega) (by omega),
            if_neg (by omega), if_neg (by omega)]
          exact htail k (by omega) hk2
        · show valloc ≤ valloc + 2 ^ 21
          omega
      · rw [if_neg hins]
        refine ⟨ZTail_mk _ _ _ _ ?_ ?_ ?_, ?_⟩
        · rw [List.length_set, hdl]
        · omega
        · intro k hk1 hk2
          rw [getN_set_ne _ _ _ _ (by omega)]
          exact htail k (by omega) hk2
        · show valloc ≤ valloc + 2 ^ 21
          omega

theorem ZTail_applyOp_popBack (d : List CFloat) (vlen valloc : Nat)
    (vty : alloc_t)
    (hdl : d.length = valloc) (hla : vlen ≤ valloc)
    (htail : ∀ k : Nat, vlen ≤ k → k < valloc → getN d k = .fin 0) :
    ZTail (applyOp ⟨some d, vlen, valloc, vty⟩ .popBack) ∧
    (applyOp ⟨some d, vlen, valloc, vty⟩ .popBack).alloc ≤
      valloc + 2 ^ 21 := by
  simp only [applyOp, pop_back_float_vector, float_v.data, float_v.len,
    float_v.alloc, Option.getD_some]
  by_cases h0 : vlen = 0
  · rw [if_pos h0]
    refine ⟨⟨d, rfl, hdl, hla, htail⟩, ?_⟩
    show valloc ≤ valloc + 2 ^ 21
    omega
  · rw [if_neg h0]
    refine ⟨ZTail_mk _ _ _ _ ?_ ?_ ?_, ?_⟩
    · rw [List.length_set, hdl]
    · omega
    · intro k hk1 hk2
      by_cases hk : k = vlen - 1
      · subst hk
        exact getN_set_self d (vlen - 1) _ (by omega)
      · rw [getN_set_ne _ _ _ _ (by omega)]
        exact htail k (by omega) hk2
    · show valloc ≤ valloc + 2 ^ 21
      omega

theorem ZTail_applyOp_popFront (d : List CFloat) (vlen valloc : Nat)
    (vty : alloc_t)
    (hdl : d.length = valloc) (hla : vlen ≤ valloc)
    (htail : ∀ k : Nat, vlen ≤ k → k < valloc → getN d k = .fin 0)
    (hb : valloc ≤ 2 ^ 61) :
    ZTail (applyOp ⟨some d, vlen, valloc, vty⟩ .popFront) ∧
    (applyOp ⟨some d, vlen, valloc, vty⟩ .popFront).alloc ≤
      valloc + 2 ^ 21 := by
  have hsm : SIZE_MAX = 2 ^ 64 - 1 := rfl
  simp only [applyOp, pop_front_float_vector, float_v.data, float_v.len,
    float_v.alloc, Option.getD_some]
  by_cases h0 : vlen = 0
  · rw [if_pos h0]
    refine ⟨⟨d, rfl, hdl, hla, htail⟩, ?_⟩
    show valloc ≤ valloc + 2 ^ 21
    omega
  · rw [if_neg h0, if_neg (by omega : ¬ vlen > SIZE_MAX / 4)]
    have hlen1 : (memmoveShiftL d 0 vlen).length = d.length :=
      length_memmoveShiftL d 0 vlen (by omega) (by omega)
    refine ⟨ZTail_mk _ _ _ _ ?_ ?_ ?_, ?_⟩
    · rw [List.length_set, hlen1, hdl]
    · omega
    · intro k hk1 hk2
      by_cases hk : k = vlen - 1
      · subst hk
        exact getN_set_self _ (vlen - 1) _ (by omega)
      · rw [getN_set_ne _ _ _ _ (by omega),
          getN_memmoveShiftL d 0 vlen k (by omega) (by omega),
          if_neg (by omega), if_neg (by omega)]
        exact htail k (by omega) hk2
    · show valloc ≤ valloc + 2 ^ 21
      omega

theorem ZTail_applyOp_popAny (d : List CFloat) (vlen valloc : Nat)
    (vty : alloc_t) (index : Nat)
    (hdl : d.length = valloc) (hla : vlen ≤ valloc)
    (htail : ∀ k : Nat, vlen ≤ k → k < valloc → getN d k = .fin 0)
    (hb : valloc ≤ 2 ^ 61) :
    ZTail (applyOp ⟨some d, vlen, valloc, vty⟩ (.popAny index)) ∧
    (applyOp ⟨some d, vlen, valloc, vty⟩ (.popAny index)).alloc ≤
      valloc + 2 ^ 21 := by
  have hsm : SIZE_MAX = 2 ^ 64 - 1 := rfl
  simp only [applyOp, pop_any_float_vector, float_v.data, float_v.len,
    float_v.alloc, Option.getD_some]
  by_cases h0 : vlen = 0
  · rw [if_pos h0]
    refine ⟨⟨d, rfl, hdl, hla, htail⟩, ?_⟩
    show valloc ≤ valloc + 2 ^ 21
    omega
  · rw [if_neg h0]
    by_cases hidx : index ≥ vlen
    · rw [if_pos hidx]
      refine ⟨⟨d, rfl, hdl, hla, htail⟩, ?_⟩
      show valloc ≤ valloc + 2 ^ 21
      omega
    · rw [if_neg hidx,
        if_neg (by omega : ¬ (index < vlen - 1 ∧ vlen - index - 1 > SIZE_MAX / 4))]
      by_cases hmid : index < vlen - 1
      · rw [if_pos hmid]
        have hlen1 : (memmoveShiftL d index vlen).length = d.length :=
          length_memmoveShiftL d index vlen (by omega) (by omega)
        refine ⟨ZTail_mk _ _ _ _ ?_ ?_ ?_, ?_⟩
        · rw [List.length_set, hlen1, hdl]
        · omega
        · intro k hk1 hk2
          by_cases hk : k = vlen - 1
          · subst hk
            exact getN_set_self _ (vlen - 1) _ (by omega)
          · rw [getN_set_ne _ _ _ _ (by omega),
              getN_memmoveShiftL d index vlen k (by omega) (by omega),
              if_neg (by omega), if_neg (by omega)]
            exact htail k (by omega) hk2
        · show valloc ≤ valloc + 2 ^ 21
          omega
      · rw [if_neg hmid]
        refine ⟨ZTail_mk _ _ _ _ ?_ ?_ ?_, ?_⟩
        · rw [List.length_set, hdl]
        · omega
        · intro k hk1 hk2
          by_cases hk : k = vlen - 1
          · subst hk
            exact getN_set_self d (vlen - 1) _ (by omega)
          · rw [getN_set_ne _ _ _ _ (by omega)]
            exact htail k (by omega) hk2
        · show valloc ≤ valloc + 2 ^ 21
          omega

theorem ZTail_applyOp_updateAt (d : List CFloat) (vlen valloc : Nat)
    (vty : alloc_t) (index : Nat) (value : CFloat)
    (hdl : d.length = valloc) (hla : vlen ≤ valloc)
    (htail : ∀ k : Nat, vlen ≤ k → k < valloc → getN d k = .fin 0) :
    ZTail (applyOp ⟨some d, vlen, valloc, vty⟩ (.updateAt index value)) ∧
    (applyOp ⟨some d, vlen, valloc, vty⟩ (.updateAt index value)).alloc ≤
      valloc + 2 ^ 21 := by
  simp only [applyOp, update_float_vector, float_v.data, float_v.len,
    float_v.alloc, Option.getD_some]
  by_cases h0 : vlen = 0
  · rw [if_pos h0]
    refine ⟨⟨d, rfl, hdl, hla, htail⟩, ?_⟩
    show valloc ≤ valloc + 2 ^ 21
    omega
  · rw [if_neg h0]
    by_cases hidx : index > vlen - 1
    · rw [if_pos hidx]
      refine ⟨⟨d, rfl, hdl, hla, htail⟩, ?_⟩
      show valloc ≤ valloc + 2 ^ 21
      omega
    · rw [if_neg hidx]
      refine ⟨ZTail_mk _ _ _ _ ?_ ?_ ?_, ?_⟩
      · rw [List.length_set, hdl]
      · omega
      · intro k hk1 hk2
        rw [getN_set_ne _ _ _ _ (by omega)]
        exact htail k hk1 hk2
      · show valloc ≤ valloc + 2 ^ 21
        omega

theorem ZTail_applyOp_trim (d : List CFloat) (vlen valloc : Nat)
    (vty : alloc_t) (allocOk : Bool)
    (hdl : d.length = valloc) (hla : vlen ≤ valloc)
    (htail : ∀ k : Nat, vlen ≤ k → k < valloc → getN d k = .fin 0)
    (hb : valloc ≤ 2 ^ 61) :
    ZTail (applyOp ⟨some d, vlen, valloc, vty⟩ (.trim allocOk)) ∧
    (applyOp ⟨some d, vlen, valloc, vty⟩ (.trim allocOk)).alloc ≤
      valloc + 2 ^ 21 := by
  have hsm : SIZE_MAX = 2 ^ 64 - 1 := rfl
  simp only [applyOp, trim_float_vector, float_v.data, float_v.len,
    float_v.alloc, float_v.alloc_type, Option.getD_some]
  by_cases h1 : vty = alloc_t.STATIC ∨ vlen = valloc
  · rw [if_pos h1]
    refine ⟨⟨d, rfl, hdl, hla, htail⟩, ?_⟩
    show valloc ≤ valloc + 2 ^ 21
    omega
  · rw [if_neg h1]
    by_cases h0 : vlen = 0
    · rw [if_pos h0]
      refine ⟨⟨d, rfl, hdl, hla, htail⟩, ?_⟩
      show valloc ≤ valloc + 2 ^ 21
      omega
    · rw [if_neg h0, if_neg (by omega : ¬ vlen > SIZE_MAX / 4)]
      cases allocOk with
      | false =>
        rw [if_pos (by decide : (!false) = true)]
        refine ⟨⟨d, rfl, hdl, hla, htail⟩, ?_⟩
        show valloc ≤ valloc + 2 ^ 21
        omega
      | true =>
        rw [if_neg (by decide : ¬ (!true) = true)]
        refine ⟨ZTail_mk _ _ _ _ ?_ ?_ ?_, ?_⟩
        · rw [List.length_take]
          omega
        · omega
        · intro k hk1 hk2
          omega
        · show vlen ≤ valloc + 2 ^ 21
          omega

theorem length_reverseLoop (d : List CFloat) (i j : Nat) :
    (reverseLoop d i j).length = d.length := by
  rw [reverseLoop]
  split
  · rw [length_reverseLoop (swapN d i j) (i + 1) (j - 1), swapN,
      List.length_set, List.length_set]
  · rfl
termination_by j - i
decreasing_by
  simp_wf
  omega

theorem getN_reverseLoop_out (d : List CFloat) (i j k : Nat) (hk : j < k) :
    getN (reverseLoop d i j) k = getN d k := by
  rw [reverseLoop]
  split
  · rename_i h
    rw [getN_reverseLoop_out (swapN d i j) (i + 1) (j - 1) k (by omega),
      swapN, getN_set_ne _ _ _ _ (by omega), getN_set_ne _ _ _ _ (by omega)]
  · rfl
termination_by j - i
decreasing_by
  simp_wf
  omega

theorem ZTail_applyOp_reverse (d : List CFloat) (vlen valloc : Nat)
    (vty : alloc_t)
    (hdl : d.length = valloc) (hla : vlen ≤ valloc)
    (htail : ∀ k : Nat, vlen ≤ k → k < valloc → getN d k = .fin 0) :
    ZTail (applyOp ⟨some d, vlen, valloc, vty⟩ .reverse) ∧
    (applyOp ⟨some d, vlen, valloc, vty⟩ .reverse).alloc ≤
      valloc + 2 ^ 21 := by
  simp only [applyOp, reverse_float_vector, float_v.data, float_v.len,
    float_v.alloc, Option.getD_some]
  by_cases h0 : vlen = 0
  · rw [if_pos h0]
    refine ⟨⟨d, rfl, hdl, hla, htail⟩, ?_⟩
    show valloc ≤ valloc + 2 ^ 21
    omega
  · rw [if_neg h0]
    refine ⟨ZTail_mk _ _ _ _ ?_ ?_ ?_, ?_⟩
    · rw [length_reverseLoop, hdl]
    · omega
    · intro k hk1 hk2
      rw [getN_reverseLoop_out d 0 (vlen - 1) k (by omega)]
      exact htail k hk1 hk2
    · show valloc ≤ valloc + 2 ^ 21
      omega

theorem ZTail_applyOp_sortOp (d : List CFloat) (vlen valloc : Nat)
    (vty : alloc_t) (dir : iter_dir)
    (hdl : d.length = valloc) (hla : vlen ≤ valloc)
    (htail : ∀ k : Nat, vlen ≤ k → k < valloc → getN d k = .fin 0) :
    ZTail (applyOp ⟨some d, vlen, valloc, vty⟩ (.sortOp dir)) ∧
    (applyOp ⟨some d, vlen, valloc, vty⟩ (.sortOp dir)).alloc ≤
      valloc + 2 ^ 21 := by
  simp only [applyOp, sort_float_vector, float_v.data, float_v.len,
    float_v.alloc, Option.getD_some]
  by_cases h0 : vlen < 2
  · rw [if_pos h0]
    refine ⟨⟨d, rfl, hdl, hla, htail⟩, ?_⟩
    show valloc ≤ valloc + 2 ^ 21
    omega
  · rw [if_neg h0]
    have h32 : toInt32 (vlen - 1) ≤ ((vlen - 1 : Nat) : Int) :=
      toInt32_le (vlen - 1)
    have hq := quicksort_float_spec d 0 (toInt32 (vlen - 1)) dir (le_refl 0)
      (by omega)
    obtain ⟨hq1, hq2, hq3, hq4, hq5⟩ := hq
    refine ⟨ZTail_mk _ _ _ _ ?_ ?_ ?_, ?_⟩
    · rw [hq1, hdl]
    · omega
    · intro k hk1 hk2
      have h0 := hq2 (k : Int) (Or.inr (by omega))
      rw [getI_natCast, getI_natCast] at h0
      rw [h0]
      exact htail k hk1 hk2
    · show valloc ≤ valloc + 2 ^ 21
      omega

theorem ZTail_applyOp (v : float_v) (op : VOp) (hz : ZTail v)
    (hb : v.alloc ≤ 2 ^ 61) :
    ZTail (applyOp v op) ∧ (applyOp v op).alloc ≤ v.alloc + 2 ^ 21 := by
  obtain ⟨d, hd, hdl, hla, htail⟩ := hz
  obtain ⟨vd, vlen, valloc, vty⟩ := v
  simp only [float_v.data] at hd
  simp only [float_v.len, float_v.alloc] at hdl hla htail hb
  subst hd
  cases op with
  | pushBack value allocOk =>
    exact ZTail_applyOp_pushBack d vlen valloc vty value allocOk hdl hla htail hb
  | pushFront value allocOk =>
    exact ZTail_applyOp_pushFront d vlen valloc vty value allocOk hdl hla htail hb
  | insertAt value index allocOk =>
    exact ZTail_applyOp_insertAt d vlen valloc vty value index allocOk hdl hla
      htail hb
  | popBack => exact ZTail_applyOp_popBack d vlen valloc vty hdl hla htail
  | popFront => exact ZTail_applyOp_popFront d vlen valloc vty hdl hla htail hb
  | popAny index =>
    exact ZTail_applyOp_popAny d vlen valloc vty index hdl hla htail hb
  | updateAt index value =>
    exact ZTail_applyOp_updateAt d vlen valloc vty index value hdl hla htail
  | reverse => exact ZTail_applyOp_reverse d vlen valloc vty hdl hla htail
  | sortOp dir => exact ZTail_applyOp_sortOp d vlen valloc vty dir hdl hla htail
  | trim allocOk =>
    exact ZTail_applyOp_trim d vlen valloc vty allocOk hdl hla htail hb

theorem ZTail_applyOps (ops : List VOp) (v : float_v) (hz : ZTail v)
    (hb : v.alloc + ops.length * 2 ^ 21 ≤ 2 ^ 61) :
    ZTail (applyOps v ops) ∧
      (applyOps v ops).alloc ≤ v.alloc + ops.length * 2 ^ 21 := by
  induction ops generalizing v with
  | nil =>
    refine ⟨hz, ?_⟩
    show v.alloc ≤ v.alloc + ([] : List VOp).length * 2 ^ 21
    simp
  | cons op ops ih =>
    rw [List.length_cons] at hb
    have hstep := ZTail_applyOp v op hz (by omega)
    obtain ⟨hz1, hb1⟩ := hstep
    obtain ⟨ihA, ihB⟩ := ih (applyOp v op) hz1 (by omega)
    constructor
    · exact ihA
    · show (applyOps (applyOp v op) ops).alloc ≤
        v.alloc + (op :: ops).length * 2 ^ 21
      rw [List.length_cons]
      omega

/-- C10: starting from a freshly created DYNAMIC vector, after any sequence
of API operations (pushes, pops, insert, update, reverse, sort, trim, with
arbitrary arguments and allocation outcomes, counts bounded so that `size_t`
arithmetic cannot wrap) every buffer slot at an index in `[len, alloc)`
holds `0.0` — in particular each successful pop zero-fills the slot it
vacates at the new end of the populated range. -/
theorem claim_C10_zero_tail (buff : Nat) (ops : List VOp) (v0 : float_v)
    (hb0 : 0 < buff) (hbuff : buff + ops.length * 2 ^ 21 ≤ 2 ^ 61)
    (hinit : init_float_vector buff true true = (some v0, none)) :
    ∃ d : List CFloat,
      (applyOps v0 ops).data = some d ∧
      d.length = (applyOps v0 ops).alloc ∧
      (applyOps v0 ops).len ≤ (applyOps v0 ops).alloc ∧
      ∀ k : Nat, (applyOps v0 ops).len ≤ k → k < (applyOps v0 ops).alloc →
        getN d k = CFloat.fin 0 := by
  have hne : ¬ buff = 0 := by omega
  simp only [init_float_vector, if_neg hne, Bool.not_true,
    Bool.false_eq_true, if_false, Prod.mk.injEq, Option.some.injEq] at hinit
  have hv0 : v0 = ⟨some (List.replicate buff (.fin 0)), 0, buff, .DYNAMIC⟩ :=
    hinit.1.symm
  have hz0 : ZTail v0 := by
    rw [hv0]
    refine ZTail_mk _ _ _ _ ?_ ?_ ?_
    · exact List.length_replicate buff _
    · omega
    · intro k hk1 hk2
      rw [getN_replicate, if_pos hk2]
  have hb : v0.alloc + ops.length * 2 ^ 21 ≤ 2 ^ 61 := by
    rw [hv0]
    show buff + ops.length * 2 ^ 21 ≤ 2 ^ 61
    exact hbuff
  obtain ⟨⟨d, hd, h1, h2, h3⟩, _⟩ := ZTail_applyOps ops v0 hz0 hb
  exact ⟨d, hd, h1, h2, h3⟩

/-- C10 witness: push one element onto a fresh capacity-2 vector, pop it
back off; the invariant instance produced by the main theorem. -/
theorem claim_C10_witness :
    ∃ d : List CFloat,
      (applyOps ⟨some [CFloat.fin 0, .fin 0], 0, 2, .DYNAMIC⟩
        [VOp.pushBack (.fin 1) true, VOp.popBack]).data = some d ∧
      d.length = (applyOps ⟨some [CFloat.fin 0, .fin 0], 0, 2, .DYNAMIC⟩
        [VOp.pushBack (.fin 1) true, VOp.popBack]).alloc ∧
      (applyOps ⟨some [CFloat.fin 0, .fin 0], 0, 2, .DYNAMIC⟩
        [VOp.pushBack (.fin 1) true, VOp.popBack]).len ≤
        (applyOps ⟨some [CFloat.fin 0, .fin 0], 0, 2, .DYNAMIC⟩
          [VOp.pushBack (.fin 1) true, VOp.popBack]).alloc ∧
      ∀ k : Nat,
        (applyOps ⟨some [CFloat.fin 0, .fin 0], 0, 2, .DYNAMIC⟩
          [VOp.pushBack (.fin 1) true, VOp.popBack]).len ≤ k →
        k < (applyOps ⟨some [CFloat.fin 0, .fin 0], 0, 2, .DYNAMIC⟩
          [VOp.pushBack (.fin 1) true, VOp.popBack]).alloc →
        getN d k = CFloat.fin 0 :=
  claim_C10_zero_tail 2 [VOp.pushBack (.fin 1) true, VOp.popBack]
    ⟨some [CFloat.fin 0, .fin 0], 0, 2, .DYNAMIC⟩
    (by decide) (by norm_num) (by decide)
